import Mathlib

/-!
# ABX (Android binary XML) decoder of ReLSPosed

Shallow embedding of `daemon/src/main/jni/abx_utils/abx_decoder.hpp`,
`xml_element.hpp` and `xml_attribute.hpp`.

Conventions of the embedding.

* A `std::vector<char>` is a `List Nat` of raw bytes `0..255`.  Where the C++
  code looks at a `char` as a number (`readShort`, the ordering of the
  attribute map) the value is `charVal sgn b`, `sgn` telling whether the
  platform's `char` is signed.
* `short` values are `Int`s in `-32768..32767`.
* Objects created with `new XMLElement` live in `AbxDecoder.heap`; an
  `XMLElement*` is the index of the object in that list.  `XMLAttribute`
  objects are never changed after construction and are stored by value.
* The C++ code does not check any access.  Where the source reads outside a
  vector, dereferences a past-the-end iterator or calls `back()` on an empty
  vector, its behaviour is undefined; the embedding stops there with a
  `Fault` naming the access.  A `Fault` is never a `return false`.
* `curPos` is an `int`; buffers are taken to be shorter than `2^31` bytes so
  that it does not wrap.
* `const.h` is not part of the sources at hand: its constants are the fields
  of `Const`, a parameter of the decoder.
-/

namespace Abx

deriving instance DecidableEq for Except

/-- The constants declared in `const.h`: the token kinds and data kinds used as
`case` labels in `AbxDecoder::parse`, and `startMagic`, the C string compared
with the first four bytes of the input (its bytes before the terminator). -/
structure Const where
  TOKEN_ATTRIBUTE : Nat
  TOKEN_START_DOCUMENT : Nat
  TOKEN_END_DOCUMENT : Nat
  TOKEN_START_TAG : Nat
  TOKEN_END_TAG : Nat
  TOKEN_TEXT : Nat
  TOKEN_CDSECT : Nat
  TOKEN_PROCESSING_INSTRUCTION : Nat
  TOKEN_COMMENT : Nat
  TOKEN_DOCDECL : Nat
  TOKEN_IGNORABLE_WHITESPACE : Nat
  DATA_NULL : Nat
  DATA_BOOLEAN_FALSE : Nat
  DATA_BOOLEAN_TRUE : Nat
  DATA_STRING : Nat
  DATA_BYTES_HEX : Nat
  DATA_BYTES_BASE64 : Nat
  DATA_STRING_INTERNED : Nat
  DATA_INT : Nat
  DATA_INT_HEX : Nat
  DATA_FLOAT : Nat
  DATA_LONG : Nat
  DATA_LONG_HEX : Nat
  DATA_DOUBLE : Nat
  startMagic : List Nat
  deriving DecidableEq

/-- The `case` labels of the outer `switch (tType)`, in source order. -/
def Const.tokenKinds (k : Const) : List Nat :=
  [k.TOKEN_ATTRIBUTE, k.TOKEN_START_DOCUMENT, k.TOKEN_END_DOCUMENT, k.TOKEN_START_TAG,
   k.TOKEN_END_TAG, k.TOKEN_TEXT, k.TOKEN_CDSECT, k.TOKEN_PROCESSING_INSTRUCTION,
   k.TOKEN_COMMENT, k.TOKEN_DOCDECL, k.TOKEN_IGNORABLE_WHITESPACE]

/-- The `case` labels of the inner `switch (dType)`, in source order. -/
def Const.dataKinds (k : Const) : List Nat :=
  [k.DATA_NULL, k.DATA_BOOLEAN_FALSE, k.DATA_BOOLEAN_TRUE, k.DATA_STRING, k.DATA_BYTES_HEX,
   k.DATA_BYTES_BASE64, k.DATA_STRING_INTERNED, k.DATA_INT, k.DATA_INT_HEX, k.DATA_FLOAT,
   k.DATA_LONG, k.DATA_LONG_HEX, k.DATA_DOUBLE]

/-- The labels of each `switch` are pairwise distinct (C++ rejects a duplicate
`case` label), token kinds fit the low nibble and data kinds the high nibble of
a header byte. -/
def Const.LabelsOk (k : Const) : Prop :=
  k.tokenKinds.Nodup ∧ k.dataKinds.Nodup ∧
  (∀ t ∈ k.tokenKinds, t < 16) ∧ (∀ v ∈ k.dataKinds, v < 256 ∧ v % 16 = 0)

instance (k : Const) : Decidable k.LabelsOk := by
  unfold Const.LabelsOk; infer_instance

/-- The signature is a C string of three non-zero bytes: together with its
terminator it is the four-byte signature the input must start with. -/
def Const.MagicOk (k : Const) : Prop :=
  k.startMagic.length = 3 ∧ 0 ∉ k.startMagic

instance (k : Const) : Decidable k.MagicOk := by
  unfold Const.MagicOk; infer_instance

/-- The four signature bytes: `startMagic` and its terminator. -/
def Const.signature (k : Const) : List Nat := k.startMagic ++ [0]

/-- Modelled from the spec: `const.h` is absent from the sources; these are the
values of the Android binary XML wire format the spec describes (token kind in
the low nibble, data kind in the high nibble, signature `ABX\0`). -/
def abxConst : Const where
  TOKEN_ATTRIBUTE := 15
  TOKEN_START_DOCUMENT := 0
  TOKEN_END_DOCUMENT := 1
  TOKEN_START_TAG := 2
  TOKEN_END_TAG := 3
  TOKEN_TEXT := 4
  TOKEN_CDSECT := 5
  TOKEN_PROCESSING_INSTRUCTION := 8
  TOKEN_COMMENT := 9
  TOKEN_DOCDECL := 10
  TOKEN_IGNORABLE_WHITESPACE := 7
  DATA_NULL := 16
  DATA_BOOLEAN_FALSE := 208
  DATA_BOOLEAN_TRUE := 192
  DATA_STRING := 32
  DATA_BYTES_HEX := 64
  DATA_BYTES_BASE64 := 80
  DATA_STRING_INTERNED := 48
  DATA_INT := 96
  DATA_INT_HEX := 112
  DATA_FLOAT := 160
  DATA_LONG := 128
  DATA_LONG_HEX := 144
  DATA_DOUBLE := 176
  startMagic := [65, 66, 88]

/-- Undefined behaviour of the C++ source, by the access that causes it. -/
inductive Fault where
  /-- The range `[curPos, curPos + len)` of `readFromCurPos` leaves `mInput`. -/
  | readPastEnd
  /-- The iterator `internedStrings.begin() + idx` is dereferenced with
  `idx >= internedStrings.size()`. -/
  | internOutOfRange
  /-- The call `elementStack.back()` on an empty vector. -/
  | emptyStack
  /-- A C-string function (`strcmp`, `operator<<`) ran past the storage of a vector. -/
  | unterminated
  /-- The iterator `subElements.begin() + index` is dereferenced with
  `index == subElements.size()`. -/
  | childOutOfRange
  /-- An `XMLElement*` that is not the address of an allocated element. -/
  | dangling
  deriving DecidableEq

/-- Class `XMLAttribute` of `xml_attribute.hpp`. -/
structure XMLAttribute where
  mValue : List Nat
  mDataType : Nat
  deriving DecidableEq

/-- Constructor `XMLAttribute(int dataType, std::vector<char> value)`. -/
def XMLAttribute.new (dataType : Nat) (value : List Nat) : XMLAttribute :=
  ⟨value, dataType⟩

/-- Class `XMLElement` of `xml_element.hpp`.  `attributes` is the content of
the `std::map` in iteration order; `subElements` holds pointers. -/
structure XMLElement where
  mTagName : List Nat
  attributes : List (List Nat × XMLAttribute)
  textSections : List XMLAttribute
  subElements : List Nat
  deriving DecidableEq

/-- Constructor `XMLElement(std::vector<char> tagName)`. -/
def XMLElement.new (tagName : List Nat) : XMLElement :=
  ⟨tagName, [], [], []⟩

/-- Method `XMLElement::subElementAt(int index)`; `none` is `nullptr`.  In the
test `index > subElements.size()` a non-negative `index` is compared as an
unsigned number. -/
def XMLElement.subElementAt (e : XMLElement) (index : Int) : Except Fault (Option Nat) :=
  if index < 0 ∨ e.subElements.length < index.toNat then .ok none
  else
    match e.subElements[index.toNat]? with
    | none => .error .childOutOfRange
    | some p => .ok (some p)

/-- Numeric value of the `char` holding byte `b`. -/
def charVal (sgn : Bool) (b : Nat) : Int :=
  if sgn && decide (128 ≤ b) then (b : Int) - 256 else (b : Int)

/-- Comparison `a < b` of two `std::vector<char>`, which is
`std::lexicographical_compare` with `<` on `char`: the key order of the
attribute map. -/
def vecLt (sgn : Bool) : List Nat → List Nat → Bool
  | [], [] => false
  | [], _ :: _ => true
  | _ :: _, [] => false
  | x :: xs, y :: ys =>
    if charVal sgn x < charVal sgn y then true
    else if charVal sgn y < charVal sgn x then false
    else vecLt sgn xs ys

/-- Member `std::map::emplace(name, attr)`: the entry goes to its place in key
order; nothing changes when an equivalent key is present. -/
def mapEmplace (sgn : Bool) (name : List Nat) (attr : XMLAttribute) :
    List (List Nat × XMLAttribute) → List (List Nat × XMLAttribute)
  | [] => [(name, attr)]
  | (key, a) :: rest =>
    if vecLt sgn name key then (name, attr) :: (key, a) :: rest
    else if vecLt sgn key name then (key, a) :: mapEmplace sgn name attr rest
    else (key, a) :: rest

/-- Method `XMLElement::pushAttribute`. -/
def XMLElement.pushAttribute (sgn : Bool) (e : XMLElement) (name : List Nat)
    (attr : XMLAttribute) : XMLElement :=
  { e with attributes := mapEmplace sgn name attr e.attributes }

/-- The test `strcmp(v.data(), s) == 0` for the storage `v` of a vector and a
terminated C string with content `s`.  Both are read byte by byte up to the
first difference or a terminator; leaving the storage of `v` is a fault. -/
def strcmpEq : List Nat → List Nat → Except Fault Bool
  | [], _ => .error .unterminated
  | x :: _, [] => .ok (x == 0)
  | x :: xs, y :: ys =>
    if x = y then (if x = 0 then .ok true else strcmpEq xs ys) else .ok false

/-- The test `strcmp(v.data(), w.data()) == 0` for the storages of two vectors. -/
def strcmpVec : List Nat → List Nat → Except Fault Bool
  | [], _ => .error .unterminated
  | _ :: _, [] => .error .unterminated
  | x :: xs, y :: ys =>
    if x = y then (if x = 0 then .ok true else strcmpVec xs ys) else .ok false

/-- The C string starting at `v.data()`, as `operator<<` prints it: the bytes
before the first zero byte. -/
def cstr : List Nat → Except Fault (List Nat)
  | [] => .error .unterminated
  | x :: xs => if x = 0 then .ok [] else (cstr xs).map (x :: ·)

/-- Loop of `XMLElement::findAttribute` over the map entries. -/
def findAttributeIn (attr : List Nat) :
    List (List Nat × XMLAttribute) → Except Fault (Option XMLAttribute)
  | [] => .ok none
  | (key, a) :: rest =>
    match strcmpEq key attr with
    | .error f => .error f
    | .ok true => .ok (some a)
    | .ok false => findAttributeIn attr rest

/-- Method `XMLElement::findAttribute(const char* attr)`; `attr` is the content
of the C string, `none` is `nullptr`. -/
def XMLElement.findAttribute (e : XMLElement) (attr : List Nat) :
    Except Fault (Option XMLAttribute) :=
  findAttributeIn attr e.attributes

/-- A line written to `std::cerr`. -/
inductive LogLine where
  | abxFound
  | mismatch (tagName lastTagName : List Nat)
  | unimplemented (t d : Nat)
  deriving DecidableEq

/-- Class `AbxDecoder`, with the heap of the elements it allocated and the
lines it wrote to `std::cerr`.  `root = none` is the unassigned pointer: no
document. -/
structure AbxDecoder where
  curPos : Nat
  mInput : List Nat
  internedStrings : List (List Nat)
  elementStack : List Nat
  docOpen : Bool
  rootClosed : Bool
  root : Option Nat
  heap : List XMLElement
  cerr : List LogLine
  deriving DecidableEq

/-- Constructor `AbxDecoder(std::vector<char> str)`. -/
def AbxDecoder.new (str : List Nat) : AbxDecoder :=
  ⟨0, str, [], [], false, false, none, [], []⟩

/-- Method `readFromCurPos(len)`: the bytes `[curPos, curPos + len)` of
`mInput`, and `curPos += len`.  The source does not compare the range with the
size of `mInput`. -/
def readFromCurPos (d : AbxDecoder) (len : Nat) : Except Fault (List Nat × AbxDecoder) :=
  if d.curPos + len ≤ d.mInput.length then
    .ok ((d.mInput.drop d.curPos).take len, { d with curPos := d.curPos + len })
  else .error .readPastEnd

/-- Method `isAbx`. -/
def isAbx (k : Const) (d : AbxDecoder) : Except Fault (Bool × AbxDecoder) :=
  if d.mInput.length < 5 then .ok (false, d)
  else
    match readFromCurPos { d with curPos := 0 } 4 with
    | .error f => .error f
    | .ok (headerV, d1) =>
      match strcmpEq headerV k.startMagic with
      | .error f => .error f
      | .ok b => .ok (b, d1)

/-- Method `readByte`: the byte of the `char` returned by `readFromCurPos(1)[0]`. -/
def readByte (d : AbxDecoder) : Except Fault (Nat × AbxDecoder) :=
  match readFromCurPos d 1 with
  | .error f => .error f
  | .ok (v, d1) => .ok (v.getD 0 0, d1)

/-- Conversion of an `int` to `unsigned short`. -/
def toUShort (i : Int) : Nat := (i % 65536).toNat

/-- Conversion of an `int` to `unsigned char`. -/
def toUChar (i : Int) : Nat := (i % 256).toNat

/-- Conversion of a non-negative `int` to `short`. -/
def toShort (n : Nat) : Int :=
  if n % 65536 < 32768 then ((n % 65536 : Nat) : Int) else ((n % 65536 : Nat) : Int) - 65536

/-- Method `readShort`:
`((unsigned short) off[0] << 8) | ((unsigned char) off[1])`, returned as `short`. -/
def readShort (sgn : Bool) (d : AbxDecoder) : Except Fault (Int × AbxDecoder) :=
  match readFromCurPos d 2 with
  | .error f => .error f
  | .ok (off, d1) =>
    .ok (toShort ((toUShort (charVal sgn (off.getD 0 0)) <<< 8)
          ||| toUChar (charVal sgn (off.getD 1 0))), d1)

/-- Method `readString`. -/
def readString (sgn : Bool) (d : AbxDecoder) : Except Fault (List Nat × AbxDecoder) :=
  match readShort sgn d with
  | .error f => .error f
  | .ok (len, d1) =>
    if len < 1 then .ok ([], d1)
    else
      match readFromCurPos d1 len.toNat with
      | .error f => .error f
      | .ok (ret, d2) => .ok (ret ++ [0], d2)

/-- Method `readInternedString`. -/
def readInternedString (sgn : Bool) (d : AbxDecoder) : Except Fault (List Nat × AbxDecoder) :=
  match readShort sgn d with
  | .error f => .error f
  | .ok (idx, d1) =>
    if idx < 0 then
      match readString sgn d1 with
      | .error f => .error f
      | .ok (str, d2) => .ok (str, { d2 with internedStrings := d2.internedStrings ++ [str] })
    else
      match d1.internedStrings[idx.toNat]? with
      | none => .error .internOutOfRange
      | some s => .ok (s, d1)

/-- The element `elementStack.back()` points to. -/
def AbxDecoder.back (d : AbxDecoder) : Except Fault (Nat × XMLElement) :=
  match d.elementStack.getLast? with
  | none => .error .emptyStack
  | some p =>
    match d.heap[p]? with
    | none => .error .dangling
    | some e => .ok (p, e)

/-- A statement `elementStack.back()->...` that changes the element pointed to. -/
def AbxDecoder.updateBack (d : AbxDecoder) (f : XMLElement → XMLElement) :
    Except Fault AbxDecoder :=
  match d.back with
  | .error f => .error f
  | .ok (p, e) => .ok { d with heap := d.heap.set p (f e) }

/-- Method `addElementToStack(new XMLElement(tagName))`: the new element is
allocated at the end of the heap. -/
def addElementToStack (d : AbxDecoder) (element : XMLElement) : Except Fault AbxDecoder :=
  let p := d.heap.length
  let d1 := { d with heap := d.heap ++ [element] }
  if 0 < d1.elementStack.length then
    match d1.updateBack (fun lastElement =>
        { lastElement with subElements := lastElement.subElements ++ [p] }) with
    | .error f => .error f
    | .ok d2 => .ok { d2 with elementStack := d2.elementStack ++ [p] }
  else .ok { d1 with elementStack := d1.elementStack ++ [p] }

/-- The string literal `"null"`. -/
def strNull : List Nat := [110, 117, 108, 108]

/-- The string literal `"false"`. -/
def strFalse : List Nat := [102, 97, 108, 115, 101]

/-- The string literal `"true"`. -/
def strTrue : List Nat := [116, 114, 117, 101]

/-- The statement `value.insert(value.begin(), chr, chr + strlen(chr) - 1)` on
the empty `value`. -/
def insertLiteral (chr : List Nat) : List Nat := chr.take (chr.length - 1)

/-- The inner `switch (dType)` of the `TOKEN_ATTRIBUTE` case: the value of the
attribute.  The switch has no `default`: an unlisted `dType` leaves `value`
empty and goes on to `finishReadAttr`. -/
def readAttrValue (k : Const) (sgn : Bool) (dType : Nat) (d : AbxDecoder) :
    Except Fault (List Nat × AbxDecoder) :=
  if dType = k.DATA_NULL then .ok (insertLiteral strNull, d)
  else if dType = k.DATA_BOOLEAN_FALSE then .ok (insertLiteral strFalse, d)
  else if dType = k.DATA_BOOLEAN_TRUE then .ok (insertLiteral strTrue, d)
  else if dType = k.DATA_STRING ∨ dType = k.DATA_BYTES_HEX ∨ dType = k.DATA_BYTES_BASE64 then
    readString sgn d
  else if dType = k.DATA_STRING_INTERNED then readInternedString sgn d
  else if dType = k.DATA_INT ∨ dType = k.DATA_INT_HEX ∨ dType = k.DATA_FLOAT then
    readFromCurPos d 4
  else if dType = k.DATA_LONG ∨ dType = k.DATA_LONG_HEX ∨ dType = k.DATA_DOUBLE then
    readFromCurPos d 8
  else .ok ([], d)

/-- Case `TOKEN_ATTRIBUTE` of the loop body. -/
def stepAttribute (k : Const) (sgn : Bool) (tType dType : Nat) (d : AbxDecoder) :
    Except Fault (Option Bool × AbxDecoder) :=
  match readInternedString sgn d with
  | .error f => .error f
  | .ok (attrName, d1) =>
    match readAttrValue k sgn dType d1 with
    | .error f => .error f
    | .ok (value, d2) =>
      match d2.updateBack
          (fun e => e.pushAttribute sgn attrName (XMLAttribute.new tType value)) with
      | .error f => .error f
      | .ok d3 => .ok (none, d3)

/-- Case `TOKEN_START_TAG` of the loop body. -/
def stepStartTag (sgn : Bool) (d : AbxDecoder) : Except Fault (Option Bool × AbxDecoder) :=
  match readInternedString sgn d with
  | .error f => .error f
  | .ok (tagName, d1) =>
    match addElementToStack d1 (XMLElement.new tagName) with
    | .error f => .error f
    | .ok d2 => .ok (none, d2)

/-- Case `TOKEN_END_TAG` of the loop body. -/
def stepEndTag (sgn : Bool) (d : AbxDecoder) : Except Fault (Option Bool × AbxDecoder) :=
  match readInternedString sgn d with
  | .error f => .error f
  | .ok (tagName, d1) =>
    match d1.back with
    | .error f => .error f
    | .ok (p, last) =>
      match strcmpVec tagName last.mTagName with
      | .error f => .error f
      | .ok same =>
        match (if same then .ok d1.cerr else
            match cstr tagName, cstr last.mTagName with
            | .ok a, .ok b => .ok (d1.cerr ++ [LogLine.mismatch a b])
            | .error f, _ => .error f
            | _, .error f => .error f : Except Fault (List LogLine)) with
        | .error f => .error f
        | .ok log =>
          let d2 := { d1 with cerr := log }
          if d2.elementStack.length = 1 then
            .ok (some true, { d2 with root := some p, docOpen := false, rootClosed := true })
          else .ok (none, { d2 with elementStack := d2.elementStack.dropLast })

/-- Cases `TOKEN_TEXT` to `TOKEN_IGNORABLE_WHITESPACE` of the loop body. -/
def stepText (sgn : Bool) (tType : Nat) (d : AbxDecoder) :
    Except Fault (Option Bool × AbxDecoder) :=
  match readString sgn d with
  | .error f => .error f
  | .ok (readVal, d1) =>
    match d1.updateBack (fun e =>
        { e with textSections := e.textSections ++ [XMLAttribute.new tType readVal] }) with
    | .error f => .error f
    | .ok d2 => .ok (none, d2)

/-- One pass through the body of `while (true)` in `parse`: `none` is
`continue`, `some b` is `return b`.  The masks `event & 0x0f` and
`event & 0xf0` of the promoted `char` keep bits of its low byte only, so they
are taken on the byte. -/
def parseStep (k : Const) (sgn : Bool) (d : AbxDecoder) :
    Except Fault (Option Bool × AbxDecoder) :=
  match readByte d with
  | .error f => .error f
  | .ok (event, d1) =>
    let tType := event &&& 0x0f
    let dType := event &&& 0xf0
    if tType = k.TOKEN_ATTRIBUTE then stepAttribute k sgn tType dType d1
    else if tType = k.TOKEN_START_DOCUMENT then .ok (none, { d1 with docOpen := true })
    else if tType = k.TOKEN_END_DOCUMENT then .ok (none, { d1 with docOpen := false })
    else if tType = k.TOKEN_START_TAG then stepStartTag sgn d1
    else if tType = k.TOKEN_END_TAG then stepEndTag sgn d1
    else if tType = k.TOKEN_TEXT ∨ tType = k.TOKEN_CDSECT
        ∨ tType = k.TOKEN_PROCESSING_INSTRUCTION ∨ tType = k.TOKEN_COMMENT
        ∨ tType = k.TOKEN_DOCDECL ∨ tType = k.TOKEN_IGNORABLE_WHITESPACE then
      stepText sgn tType d1
    else
      .ok (some false, { d1 with cerr := d1.cerr ++ [LogLine.unimplemented (tType >>> 4) dType] })

/-- What a call of `parse` does: it returns a `bool`, or its behaviour is
undefined.  `outOfFuel` is the embedding's bound on the loop being reached. -/
inductive Outcome where
  | returned (result : Bool) (d : AbxDecoder)
  | undefined (f : Fault)
  | outOfFuel
  deriving DecidableEq

/-- The loop `while (true)` of `parse`, for at most `fuel` passes. -/
def parseLoop (k : Const) (sgn : Bool) : Nat → AbxDecoder → Outcome
  | 0, _ => .outOfFuel
  | fuel + 1, d =>
    match parseStep k sgn d with
    | .error f => .undefined f
    | .ok (some b, d1) => .returned b d1
    | .ok (none, d1) => parseLoop k sgn fuel d1

/-- The statements of `parse` between the signature test and the loop: the
line written to `std::cerr` and the reset of the members. -/
def AbxDecoder.reset (d : AbxDecoder) : AbxDecoder :=
  { d with cerr := d.cerr ++ [LogLine.abxFound], docOpen := false, rootClosed := false,
           internedStrings := [], elementStack := [] }

/-- Method `AbxDecoder::parse`.  Every pass of the loop reads its header byte
inside the buffer, so the buffer length bounds the number of passes. -/
def AbxDecoder.parse (k : Const) (sgn : Bool) (d : AbxDecoder) : Outcome :=
  match isAbx k d with
  | .error f => .undefined f
  | .ok (false, d1) => .returned false d1
  | .ok (true, d1) =>
    parseLoop k sgn d1.mInput.length d1.reset

/-- The decoder after `n` passes of the loop that all ended in `continue`. -/
def loopState (k : Const) (sgn : Bool) : Nat → AbxDecoder → Option AbxDecoder
  | 0, d => some d
  | n + 1, d =>
    match parseStep k sgn d with
    | .ok (none, d1) => loopState k sgn n d1
    | _ => none

/-- The decoder at the first pass of the loop of `parse` on the buffer `input`
that passed the signature test. -/
def loopStart (input : List Nat) : AbxDecoder :=
  ({ AbxDecoder.new input with curPos := 4 }).reset

/-- A state of the loop of `parse` on the buffer `input` before the root is
closed: the cursor, the intern table, the element stack, the document-open
mark and the heap. -/
def loopAt (input : List Nat) (curPos : Nat) (table : List (List Nat)) (stack : List Nat)
    (docOpen : Bool) (heap : List XMLElement) : AbxDecoder :=
  ⟨curPos, input, table, stack, docOpen, false, none, heap, [LogLine.abxFound]⟩

/-- Relation between the decoder before and after cursor reads that took at
least `m` bytes: the cursor moved forward inside the buffer, the intern table
was extended at its end, and nothing else changed. -/
def Reads (m : Nat) (d d1 : AbxDecoder) : Prop :=
  ∃ c ext, d1 = { d with curPos := c, internedStrings := d.internedStrings ++ ext }
    ∧ d.curPos + m ≤ c ∧ c ≤ d.mInput.length

/-! ## Building input streams -/

/-- The bytes of an ASCII string. -/
def ascii (s : String) : List Nat := s.toList.map Char.toNat

/-- A 16-bit field, high byte first. -/
def beShort (n : Nat) : List Nat := [n / 256 % 256, n % 256]

/-- A length-prefixed string: the 16-bit length, then the bytes. -/
def lenPrefixed (s : List Nat) : List Nat := beShort s.length ++ s

/-- A name on first use: the negative index `-1`, then the length-prefixed literal. -/
def literalRef (s : List Nat) : List Nat := [255, 255] ++ lenPrefixed s

/-- A name on later use: the index of its entry in the intern table. -/
def backRef (i : Nat) : List Nat := beShort i

/-- The stream of the end-to-end scenario: signature, START_DOCUMENT,
START_TAG "packages", START_TAG "package", ATTRIBUTE "name" = STRING
"com.example", ATTRIBUTE "codePath" = STRING "/data/app/com.example-1",
END_TAG "package", END_TAG "packages". -/
def packagesStream (k : Const) : List Nat :=
  k.signature ++ [k.TOKEN_START_DOCUMENT]
  ++ [k.TOKEN_START_TAG] ++ literalRef (ascii "packages")
  ++ [k.TOKEN_START_TAG] ++ literalRef (ascii "package")
  ++ [k.DATA_STRING ||| k.TOKEN_ATTRIBUTE] ++ literalRef (ascii "name")
    ++ lenPrefixed (ascii "com.example")
  ++ [k.DATA_STRING ||| k.TOKEN_ATTRIBUTE] ++ literalRef (ascii "codePath")
    ++ lenPrefixed (ascii "/data/app/com.example-1")
  ++ [k.TOKEN_END_TAG] ++ backRef 1
  ++ [k.TOKEN_END_TAG] ++ backRef 0

/-- A stream with the three literal data kinds: signature, START_TAG "a",
ATTRIBUTE "n" of kind NULL, ATTRIBUTE "f" of kind BOOLEAN_FALSE, ATTRIBUTE "t"
of kind BOOLEAN_TRUE, END_TAG "a". -/
def literalsStream (k : Const) : List Nat :=
  k.signature
  ++ [k.TOKEN_START_TAG] ++ literalRef (ascii "a")
  ++ [k.DATA_NULL ||| k.TOKEN_ATTRIBUTE] ++ literalRef (ascii "n")
  ++ [k.DATA_BOOLEAN_FALSE ||| k.TOKEN_ATTRIBUTE] ++ literalRef (ascii "f")
  ++ [k.DATA_BOOLEAN_TRUE ||| k.TOKEN_ATTRIBUTE] ++ literalRef (ascii "t")
  ++ [k.TOKEN_END_TAG] ++ backRef 0

/-- A stream with attributes of three data kinds: signature, START_TAG "a",
ATTRIBUTE "s" = STRING "x", ATTRIBUTE "i" = INT with the bytes 0, 0, 0, 7,
ATTRIBUTE "b" of kind BOOLEAN_TRUE, END_TAG "a". -/
def kindsStream (k : Const) : List Nat :=
  k.signature
  ++ [k.TOKEN_START_TAG] ++ literalRef (ascii "a")
  ++ [k.DATA_STRING ||| k.TOKEN_ATTRIBUTE] ++ literalRef (ascii "s") ++ lenPrefixed (ascii "x")
  ++ [k.DATA_INT ||| k.TOKEN_ATTRIBUTE] ++ literalRef (ascii "i") ++ [0, 0, 0, 7]
  ++ [k.DATA_BOOLEAN_TRUE ||| k.TOKEN_ATTRIBUTE] ++ literalRef (ascii "b")
  ++ [k.TOKEN_END_TAG] ++ backRef 0

/-- A stream with an attribute whose data kind `dType` is given as is:
signature, START_TAG "a", ATTRIBUTE "b" of kind `dType`, END_TAG "a". -/
def kindStream (k : Const) (dType : Nat) : List Nat :=
  k.signature
  ++ [k.TOKEN_START_TAG] ++ literalRef (ascii "a")
  ++ [dType ||| k.TOKEN_ATTRIBUTE] ++ literalRef (ascii "b")
  ++ [k.TOKEN_END_TAG] ++ backRef 0

/-- The attribute names of an element in the iteration order of its map. -/
def XMLElement.names (e : XMLElement) : List (List Nat) := e.attributes.map Prod.fst

/-- The calls `pushAttribute(name, attr)` on an element for a sequence of
ATTRIBUTE tokens, in encounter order. -/
def pushAttributes (sgn : Bool) (e : XMLElement) (toks : List (List Nat × XMLAttribute)) :
    XMLElement :=
  toks.foldl (fun el t => el.pushAttribute sgn t.1 t.2) e

/-- A stream with two attribute names, one of them a byte above 127:
signature, START_TAG "a", ATTRIBUTE `[0x61]` of kind NULL, ATTRIBUTE `[0x80]`
of kind NULL, END_TAG "a". -/
def highByteStream (k : Const) : List Nat :=
  k.signature
  ++ [k.TOKEN_START_TAG] ++ literalRef (ascii "a")
  ++ [k.DATA_NULL ||| k.TOKEN_ATTRIBUTE] ++ literalRef [0x61]
  ++ [k.DATA_NULL ||| k.TOKEN_ATTRIBUTE] ++ literalRef [0x80]
  ++ [k.TOKEN_END_TAG] ++ backRef 0

/-- The intern table at the end of the end-to-end scenario. -/
def packagesTable : List (List Nat) :=
  [ascii "packages" ++ [0], ascii "package" ++ [0], ascii "name" ++ [0],
   ascii "codePath" ++ [0]]

/-- The elements allocated in the end-to-end scenario: the root "packages" at
address 0 and its child "package" at address 1, with the two attributes in the
order of the map. -/
def packagesHeap (k : Const) : List XMLElement :=
  [⟨ascii "packages" ++ [0], [], [], [1]⟩,
   ⟨ascii "package" ++ [0],
    [(ascii "codePath" ++ [0], ⟨ascii "/data/app/com.example-1" ++ [0], k.TOKEN_ATTRIBUTE⟩),
     (ascii "name" ++ [0], ⟨ascii "com.example" ++ [0], k.TOKEN_ATTRIBUTE⟩)], [], []⟩]

/-- A stream whose intern table holds an empty name: signature, START_TAG "a",
ATTRIBUTE of kind NULL with the empty literal as its name, END_TAG with the
back-reference `i`.  The index 0 is the name "a" of the open element, the
index 1 the empty name. -/
def emptyNameStream (k : Const) (i : Nat) : List Nat :=
  k.signature
  ++ [k.TOKEN_START_TAG] ++ literalRef (ascii "a")
  ++ [k.DATA_NULL ||| k.TOKEN_ATTRIBUTE] ++ literalRef []
  ++ [k.TOKEN_END_TAG] ++ backRef i

/-- The bytes of `v` before its first zero byte: the C string at `v.data()` when
`v` holds a terminator. -/
def cstrOf (v : List Nat) : List Nat := v.takeWhile (fun b => b != 0)

/-- A stream that spells the name "a" as a literal twice: signature,
START_TAG "a", START_TAG "a", and two END_TAG tokens with the back-reference 0. -/
def repeatStream (k : Const) : List Nat :=
  k.signature
  ++ [k.TOKEN_START_TAG] ++ literalRef (ascii "a")
  ++ [k.TOKEN_START_TAG] ++ literalRef (ascii "a")
  ++ [k.TOKEN_END_TAG] ++ backRef 0
  ++ [k.TOKEN_END_TAG] ++ backRef 0

/-- A stream cut short inside a string: signature, START_DOCUMENT, and a
START_TAG whose literal name announces five bytes where one is left in the
buffer. -/
def truncatedStream (k : Const) : List Nat :=
  k.signature ++ [k.TOKEN_START_DOCUMENT] ++ [k.TOKEN_START_TAG] ++ [255, 255, 0, 5, 97]

/-- The decoder `d` with the bytes `t` added at the end of its buffer. -/
def AbxDecoder.withTail (d : AbxDecoder) (t : List Nat) : AbxDecoder :=
  { d with mInput := d.mInput ++ t }

/-- The decoder after `n` passes of the loop that all ended in `continue`,
with the number of START_TAG tokens and the number of END_TAG tokens these
passes processed, added to `s` and `e`. -/
def loopCount (k : Const) (sgn : Bool) :
    Nat → AbxDecoder → Nat → Nat → Option (AbxDecoder × Nat × Nat)
  | 0, d, s, e => some (d, s, e)
  | n + 1, d, s, e =>
    match readByte d, parseStep k sgn d with
    | .ok (event, _), .ok (none, d1) =>
      loopCount k sgn n d1 (if event &&& 0x0f = k.TOKEN_START_TAG then s + 1 else s)
        (if event &&& 0x0f = k.TOKEN_END_TAG then e + 1 else e)
    | _, _ => none

/-- The element `c` is the child appended last to the element `a`. -/
def lastChild (heap : List XMLElement) (a c : Nat) : Prop :=
  ∃ x, heap[a]? = some x ∧ x.subElements.getLast? = some c

/-- The relation between the element stack, the heap and the numbers `s` of
START_TAG and `e` of END_TAG tokens processed that holds at the head of every
pass of the loop: the depth is `s - e`, one element was allocated for each
START_TAG, the stack lists elements in the order of their allocation, each
entry is the last child of the entry below it, and the bottom entry is the
element allocated first. -/
def StackInv (d : AbxDecoder) (s e : Nat) : Prop :=
  d.elementStack.length + e = s ∧ d.heap.length = s
  ∧ (∀ (i j a c : Nat), i < j → d.elementStack[i]? = some a → d.elementStack[j]? = some c →
      a < c)
  ∧ (∀ (i a : Nat), d.elementStack[i]? = some a → a < d.heap.length)
  ∧ (∀ (i a c : Nat), d.elementStack[i]? = some a → d.elementStack[i + 1]? = some c →
      lastChild d.heap a c)
  ∧ (0 < s → d.elementStack[0]? = some 0)

/-- The smallest document: signature, START_TAG "a", END_TAG with the
back-reference 0. -/
def singleStream (k : Const) : List Nat :=
  k.signature ++ [k.TOKEN_START_TAG] ++ literalRef (ascii "a")
  ++ [k.TOKEN_END_TAG] ++ backRef 0

/-! ## Cursor reads -/

theorem readFromCurPos_ok {d : AbxDecoder} {n : Nat} (h : d.curPos + n ≤ d.mInput.length) :
    readFromCurPos d n
      = .ok ((d.mInput.drop d.curPos).take n, { d with curPos := d.curPos + n }) := by
  simp [readFromCurPos, h]

theorem readFromCurPos_error {d : AbxDecoder} {n : Nat} (h : d.mInput.length < d.curPos + n) :
    readFromCurPos d n = .error .readPastEnd := by
  simp [readFromCurPos, Nat.not_le.mpr h]

theorem readFromCurPos_inv {d d1 : AbxDecoder} {n : Nat} {v : List Nat}
    (h : readFromCurPos d n = .ok (v, d1)) :
    d.curPos + n ≤ d.mInput.length ∧ v = (d.mInput.drop d.curPos).take n
      ∧ d1 = { d with curPos := d.curPos + n } := by
  unfold readFromCurPos at h
  split at h
  · rename_i hle
    simp only [Except.ok.injEq, Prod.mk.injEq] at h
    exact ⟨hle, h.1.symm, h.2.symm⟩
  · simp at h

theorem Reads.refl (d : AbxDecoder) (h : d.curPos ≤ d.mInput.length) : Reads 0 d d :=
  ⟨d.curPos, [], by simp, by simp, h⟩

theorem Reads.trans {m n : Nat} {d d1 d2 : AbxDecoder} (h1 : Reads m d d1)
    (h2 : Reads n d1 d2) : Reads (m + n) d d2 := by
  obtain ⟨c1, e1, rfl, hc1, hl1⟩ := h1
  obtain ⟨c2, e2, rfl, hc2, hl2⟩ := h2
  refine ⟨c2, e1 ++ e2, by simp, ?_, hl2⟩
  simp only at hc2
  omega

theorem Reads.mono {m n : Nat} {d d1 : AbxDecoder} (h : Reads m d d1) (hn : n ≤ m) :
    Reads n d d1 := by
  obtain ⟨c, e, rfl, hc, hl⟩ := h
  exact ⟨c, e, rfl, by omega, hl⟩

theorem Reads.mInput {m : Nat} {d d1 : AbxDecoder} (h : Reads m d d1) :
    d1.mInput = d.mInput := by
  obtain ⟨c, e, rfl, -, -⟩ := h; rfl

theorem Reads.elementStack {m : Nat} {d d1 : AbxDecoder} (h : Reads m d d1) :
    d1.elementStack = d.elementStack := by
  obtain ⟨c, e, rfl, -, -⟩ := h; rfl

theorem Reads.heap {m : Nat} {d d1 : AbxDecoder} (h : Reads m d d1) : d1.heap = d.heap := by
  obtain ⟨c, e, rfl, -, -⟩ := h; rfl

theorem Reads.curPos {m : Nat} {d d1 : AbxDecoder} (h : Reads m d d1) :
    d.curPos + m ≤ d1.curPos ∧ d1.curPos ≤ d1.mInput.length := by
  obtain ⟨c, e, rfl, h1, h2⟩ := h; exact ⟨h1, h2⟩

theorem readFromCurPos_reads {d d1 : AbxDecoder} {n : Nat} {v : List Nat}
    (h : readFromCurPos d n = .ok (v, d1)) : Reads n d d1 := by
  obtain ⟨hle, -, rfl⟩ := readFromCurPos_inv h
  exact ⟨d.curPos + n, [], by simp, le_refl _, hle⟩

theorem readByte_reads {d d1 : AbxDecoder} {b : Nat} (h : readByte d = .ok (b, d1)) :
    Reads 1 d d1 := by
  unfold readByte at h
  split at h
  · simp at h
  · rename_i v d2 hr
    simp only [Except.ok.injEq, Prod.mk.injEq] at h
    exact h.2 ▸ readFromCurPos_reads hr

theorem readShort_reads {sgn : Bool} {d d1 : AbxDecoder} {x : Int}
    (h : readShort sgn d = .ok (x, d1)) : Reads 2 d d1 := by
  unfold readShort at h
  split at h
  · simp at h
  · rename_i v d2 hr
    simp only [Except.ok.injEq, Prod.mk.injEq] at h
    exact h.2 ▸ readFromCurPos_reads hr

theorem readString_reads {sgn : Bool} {d d1 : AbxDecoder} {v : List Nat}
    (h : readString sgn d = .ok (v, d1)) : Reads 2 d d1 := by
  unfold readString at h
  split at h
  · simp at h
  · rename_i len d2 hs
    have h2 := readShort_reads hs
    split at h
    · simp only [Except.ok.injEq, Prod.mk.injEq] at h
      exact h.2 ▸ h2
    · split at h
      · simp at h
      · rename_i ret d3 hr
        simp only [Except.ok.injEq, Prod.mk.injEq] at h
        exact h.2 ▸ (h2.trans (readFromCurPos_reads hr)).mono (by omega)

theorem readInternedString_reads {sgn : Bool} {d d1 : AbxDecoder} {v : List Nat}
    (h : readInternedString sgn d = .ok (v, d1)) : Reads 2 d d1 := by
  unfold readInternedString at h
  split at h
  · simp at h
  · rename_i idx d2 hs
    have h2 := readShort_reads hs
    split at h
    · split at h
      · simp at h
      · rename_i str d3 hr
        simp only [Except.ok.injEq, Prod.mk.injEq] at h
        obtain ⟨c, e, rfl, hc, hl⟩ := h2.trans (readString_reads hr)
        exact h.2 ▸ ⟨c, e ++ [str], by simp, by omega, hl⟩
    · split at h
      · simp at h
      · simp only [Except.ok.injEq, Prod.mk.injEq] at h
        exact h.2 ▸ h2

theorem readAttrValue_reads {k : Const} {sgn : Bool} {dType : Nat} {d d1 : AbxDecoder}
    {v : List Nat} (hd : d.curPos ≤ d.mInput.length)
    (h : readAttrValue k sgn dType d = .ok (v, d1)) : Reads 0 d d1 := by
  unfold readAttrValue at h
  repeat' split at h
  all_goals first
    | (simp only [Except.ok.injEq, Prod.mk.injEq] at h; exact h.2 ▸ Reads.refl d hd)
    | exact (readString_reads h).mono (by omega)
    | exact (readInternedString_reads h).mono (by omega)
    | exact (readFromCurPos_reads h).mono (by omega)

/-! ## The signature gate -/

theorem strcmpEq_magic (a b c e m1 m2 m3 : Nat) (h1 : m1 ≠ 0) (h2 : m2 ≠ 0) (h3 : m3 ≠ 0) :
    strcmpEq [a, b, c, e] [m1, m2, m3] = .ok (decide ([a, b, c, e] = [m1, m2, m3, 0])) := by
  simp only [strcmpEq]
  by_cases ha : a = m1 <;> by_cases hb : b = m2 <;> by_cases hc : c = m3 <;>
    by_cases he : e = 0 <;> simp_all

theorem isAbx_short (k : Const) (d : AbxDecoder) (h : d.mInput.length < 5) :
    isAbx k d = .ok (false, d) := by
  simp [isAbx, h]

theorem isAbx_long (k : Const) (hm : k.MagicOk) (d : AbxDecoder) (h : 5 ≤ d.mInput.length) :
    isAbx k d = .ok (decide (d.mInput.take 4 = k.signature), { d with curPos := 4 }) := by
  obtain ⟨hlen, hz⟩ := hm
  obtain ⟨curPos, mInput, tbl, stk, o, c, r, hp, lg⟩ := d
  match hmag : k.startMagic, hlen, hz with
  | [m1, m2, m3], _, hz =>
    match mInput, h with
    | a :: b :: c1 :: e :: x :: rest, _ =>
      have h1 : m1 ≠ 0 := fun h0 => hz (by simp [h0])
      have h2 : m2 ≠ 0 := fun h0 => hz (by simp [h0])
      have h3 : m3 ≠ 0 := fun h0 => hz (by simp [h0])
      simp [isAbx, readFromCurPos, Const.signature, hmag, strcmpEq_magic _ _ _ _ _ _ _ h1 h2 h3]


/-! ## The loop body moves the cursor forward -/

theorem updateBack_inv {d d1 : AbxDecoder} {g : XMLElement → XMLElement}
    (h : d.updateBack g = .ok d1) :
    ∃ p e, d.back = .ok (p, e) ∧ d1 = { d with heap := d.heap.set p (g e) } := by
  unfold AbxDecoder.updateBack at h
  split at h
  · simp at h
  · rename_i p e hb
    simp only [Except.ok.injEq] at h
    exact ⟨p, e, hb, h.symm⟩

theorem back_of_empty {d : AbxDecoder} (h : d.elementStack = []) :
    d.back = .error .emptyStack := by
  simp [AbxDecoder.back, h]

theorem updateBack_of_empty {d : AbxDecoder} (g : XMLElement → XMLElement)
    (h : d.elementStack = []) : d.updateBack g = .error .emptyStack := by
  simp [AbxDecoder.updateBack, back_of_empty h]

theorem addElementToStack_cursor {d d1 : AbxDecoder} {el : XMLElement}
    (h : addElementToStack d el = .ok d1) :
    d1.mInput = d.mInput ∧ d1.curPos = d.curPos := by
  unfold addElementToStack at h
  simp only at h
  split at h
  · split at h
    · simp at h
    · rename_i d2 hu
      obtain ⟨p, e, -, rfl⟩ := updateBack_inv hu
      simp only [Except.ok.injEq] at h
      subst h
      exact ⟨rfl, rfl⟩
  · simp only [Except.ok.injEq] at h
    subst h
    exact ⟨rfl, rfl⟩

/-- The cursor after a pass of the loop: same buffer, at least one byte further,
still inside the buffer. -/
theorem parseStep_advances {k : Const} {sgn : Bool} {d d1 : AbxDecoder} {r : Option Bool}
    (h : parseStep k sgn d = .ok (r, d1)) :
    d1.mInput = d.mInput ∧ d.curPos + 1 ≤ d1.curPos ∧ d1.curPos ≤ d1.mInput.length := by
  unfold parseStep at h
  split at h
  · simp at h
  · rename_i event d0 hb
    have hr := readByte_reads hb
    have hm := hr.mInput
    have hc := hr.curPos
    simp only at h
    split at h
    · -- attribute
      unfold stepAttribute at h
      split at h
      · simp at h
      · rename_i attrName d2 hn
        have hr2 := readInternedString_reads hn
        split at h
        · simp at h
        · rename_i value d3 hv
          have hr3 := readAttrValue_reads hr2.curPos.2 hv
          split at h
          · simp at h
          · rename_i d4 hu
            obtain ⟨p, e, -, rfl⟩ := updateBack_inv hu
            simp only [Except.ok.injEq, Prod.mk.injEq] at h
            obtain ⟨-, rfl⟩ := h
            have a := hr2.mInput; have b := hr2.curPos
            have a3 := hr3.mInput; have b3 := hr3.curPos
            simp only
            refine ⟨by rw [a3, a, hm], by omega, b3.2⟩
    · split at h
      · simp only [Except.ok.injEq, Prod.mk.injEq] at h
        obtain ⟨-, rfl⟩ := h
        exact ⟨hm, hc.1, hc.2⟩
      · split at h
        · simp only [Except.ok.injEq, Prod.mk.injEq] at h
          obtain ⟨-, rfl⟩ := h
          exact ⟨hm, hc.1, hc.2⟩
        · split at h
          · -- start tag
            unfold stepStartTag at h
            split at h
            · simp at h
            · rename_i tagName d2 hn
              have hr2 := readInternedString_reads hn
              split at h
              · simp at h
              · rename_i d3 ha
                obtain ⟨a3, b3⟩ := addElementToStack_cursor ha
                simp only [Except.ok.injEq, Prod.mk.injEq] at h
                obtain ⟨-, rfl⟩ := h
                have a := hr2.mInput; have b := hr2.curPos
                refine ⟨by rw [a3, a, hm], by omega, by rw [b3, a3]; exact b.2⟩
          · split at h
            · -- end tag
              unfold stepEndTag at h
              split at h
              · simp at h
              · rename_i tagName d2 hn
                have hr2 := readInternedString_reads hn
                have a := hr2.mInput; have b := hr2.curPos
                split at h
                · simp at h
                · split at h
                  · simp at h
                  · split at h
                    · simp at h
                    · simp only at h
                      split at h
                      · simp only [Except.ok.injEq, Prod.mk.injEq] at h
                        obtain ⟨-, rfl⟩ := h
                        exact ⟨by simp only; rw [a, hm], by simp only; omega, b.2⟩
                      · simp only [Except.ok.injEq, Prod.mk.injEq] at h
                        obtain ⟨-, rfl⟩ := h
                        exact ⟨by simp only; rw [a, hm], by simp only; omega, b.2⟩
            · split at h
              · -- text
                unfold stepText at h
                split at h
                · simp at h
                · rename_i readVal d2 hn
                  have hr2 := readString_reads hn
                  have a := hr2.mInput; have b := hr2.curPos
                  split at h
                  · simp at h
                  · rename_i d3 hu
                    obtain ⟨p, e, -, rfl⟩ := updateBack_inv hu
                    simp only [Except.ok.injEq, Prod.mk.injEq] at h
                    obtain ⟨-, rfl⟩ := h
                    exact ⟨by simp only; rw [a, hm], by simp only; omega, b.2⟩
              · simp only [Except.ok.injEq, Prod.mk.injEq] at h
                obtain ⟨-, rfl⟩ := h
                exact ⟨hm, hc.1, hc.2⟩

theorem loopState_advances {k : Const} {sgn : Bool} :
    ∀ (n : Nat) {d d1 : AbxDecoder}, loopState k sgn n d = some d1 →
      d1.mInput = d.mInput ∧ d.curPos + n ≤ d1.curPos
        ∧ (0 < n → d1.curPos ≤ d1.mInput.length)
  | 0, d, d1, h => by
    simp only [loopState, Option.some.injEq] at h
    subst h
    exact ⟨rfl, by omega, by omega⟩
  | n + 1, d, d1, h => by
    simp only [loopState] at h
    split at h
    · rename_i d2 hs
      obtain ⟨a, b, c⟩ := parseStep_advances hs
      obtain ⟨a1, b1, c1⟩ := loopState_advances n h
      refine ⟨by rw [a1, a], by omega, fun _ => ?_⟩
      rcases Nat.eq_zero_or_pos n with h0 | hpos
      · subst h0
        simp only [loopState, Option.some.injEq] at h
        subst h
        exact c
      · exact c1 hpos
    · simp at h

theorem parseLoop_of_loopState {k : Const} {sgn : Bool} :
    ∀ (n m : Nat) {d d1 : AbxDecoder}, loopState k sgn n d = some d1 →
      parseLoop k sgn (n + m) d = parseLoop k sgn m d1
  | 0, m, d, d1, h => by
    simp only [loopState, Option.some.injEq] at h
    subst h
    simp
  | n + 1, m, d, d1, h => by
    simp only [loopState] at h
    split at h
    · rename_i d2 hs
      have := parseLoop_of_loopState n m h
      rw [show n + 1 + m = (n + m) + 1 by omega]
      simp only [parseLoop, hs]
      exact this
    · simp at h

/-- The passes of the loop that `parse` allows are enough to reach every state
of the loop: a state reached after `n` passes lies less than `input.length`
passes from the start. -/
theorem loopState_lt_fuel {k : Const} {sgn : Bool} {input : List Nat} {n : Nat}
    {d1 : AbxDecoder} (hlen : 5 ≤ input.length)
    (h : loopState k sgn n (loopStart input) = some d1) : n < input.length := by
  obtain ⟨a, b, c⟩ := loopState_advances n h
  rcases Nat.eq_zero_or_pos n with h0 | hpos
  · omega
  · have := c hpos
    rw [a] at this
    simp only [loopStart, AbxDecoder.reset, AbxDecoder.new] at this b
    omega

theorem parse_eq_parseLoop {k : Const} {sgn : Bool} {input : List Nat} (hm : k.MagicOk)
    (hlen : 5 ≤ input.length) (hsig : input.take 4 = k.signature) :
    (AbxDecoder.new input).parse k sgn = parseLoop k sgn input.length (loopStart input) := by
  have h5 : 5 ≤ (AbxDecoder.new input).mInput.length := hlen
  have heq2 : (AbxDecoder.new input).mInput.take 4 = k.signature := hsig
  simp only [AbxDecoder.parse, isAbx_long k hm _ h5, heq2, decide_True]
  rfl

/-- A pass of the loop whose behaviour is undefined makes the call of `parse`
undefined: `parse` does not return. -/
theorem parse_undefined_of_step {k : Const} {sgn : Bool} {input : List Nat} {n : Nat}
    {d1 : AbxDecoder} {f : Fault} (hm : k.MagicOk)
    (hlen : 5 ≤ input.length) (hsig : input.take 4 = k.signature)
    (h : loopState k sgn n (loopStart input) = some d1)
    (hf : parseStep k sgn d1 = .error f) :
    (AbxDecoder.new input).parse k sgn = .undefined f := by
  have hlt := loopState_lt_fuel hlen h
  rw [parse_eq_parseLoop hm hlen hsig,
    show input.length = n + ((input.length - n - 1) + 1) by omega,
    parseLoop_of_loopState n _ h]
  simp [parseLoop, hf]

/-! ## The inner switch on the data kind -/

theorem readAttrValue_string {k : Const} (hk : k.LabelsOk) (sgn : Bool) (d : AbxDecoder)
    {dType : Nat} (h : dType ∈ [k.DATA_STRING, k.DATA_BYTES_HEX, k.DATA_BYTES_BASE64]) :
    readAttrValue k sgn dType d = readString sgn d := by
  obtain ⟨-, hd, -, -⟩ := hk
  simp only [Const.dataKinds, List.nodup_cons, List.mem_cons, List.mem_singleton, not_or,
    List.not_mem_nil, not_false_eq_true, List.nodup_nil, and_true, or_false] at hd h
  rcases h with rfl | rfl | rfl <;> simp [readAttrValue, Ne.symm, *]

theorem readAttrValue_interned {k : Const} (hk : k.LabelsOk) (sgn : Bool) (d : AbxDecoder) :
    readAttrValue k sgn k.DATA_STRING_INTERNED d = readInternedString sgn d := by
  obtain ⟨-, hd, -, -⟩ := hk
  simp only [Const.dataKinds, List.nodup_cons, List.mem_cons, List.mem_singleton, not_or,
    List.not_mem_nil, not_false_eq_true, List.nodup_nil, and_true] at hd
  simp [readAttrValue, Ne.symm, *]

theorem readAttrValue_four {k : Const} (hk : k.LabelsOk) (sgn : Bool) (d : AbxDecoder)
    {dType : Nat} (h : dType ∈ [k.DATA_INT, k.DATA_INT_HEX, k.DATA_FLOAT]) :
    readAttrValue k sgn dType d = readFromCurPos d 4 := by
  obtain ⟨-, hd, -, -⟩ := hk
  simp only [Const.dataKinds, List.nodup_cons, List.mem_cons, List.mem_singleton, not_or,
    List.not_mem_nil, not_false_eq_true, List.nodup_nil, and_true, or_false] at hd h
  rcases h with rfl | rfl | rfl <;> simp [readAttrValue, Ne.symm, *]

theorem readAttrValue_eight {k : Const} (hk : k.LabelsOk) (sgn : Bool) (d : AbxDecoder)
    {dType : Nat} (h : dType ∈ [k.DATA_LONG, k.DATA_LONG_HEX, k.DATA_DOUBLE]) :
    readAttrValue k sgn dType d = readFromCurPos d 8 := by
  obtain ⟨-, hd, -, -⟩ := hk
  simp only [Const.dataKinds, List.nodup_cons, List.mem_cons, List.mem_singleton, not_or,
    List.not_mem_nil, not_false_eq_true, List.nodup_nil, and_true, or_false] at hd h
  rcases h with rfl | rfl | rfl <;> simp [readAttrValue, Ne.symm, *]

theorem readAttrValue_unlisted (k : Const) (sgn : Bool) (d : AbxDecoder) {dType : Nat}
    (h : dType ∉ k.dataKinds) : readAttrValue k sgn dType d = .ok ([], d) := by
  simp only [Const.dataKinds, List.mem_cons, List.mem_singleton, not_or,
    List.not_mem_nil, not_false_eq_true, and_true] at h
  simp [readAttrValue, *]

/-! ## The 16-bit read -/

theorem shl8_or (a lo : Nat) (h2 : lo < 256) : (a <<< 8) ||| lo = a * 256 + lo := by
  rw [Nat.shiftLeft_eq, Nat.mul_comm a, show (2:Nat)^8 * a = 2^8 * a from rfl,
    ← Nat.mul_add_lt_is_or (by omega : lo < 2^8)]

theorem toUChar_charVal (sgn : Bool) (b : Nat) (h : b < 256) : toUChar (charVal sgn b) = b := by
  unfold toUChar charVal
  split <;> omega

theorem toUShort_charVal (sgn : Bool) (b : Nat) (h : b < 256) :
    toUShort (charVal sgn b) = b ∨ toUShort (charVal sgn b) = b + 65280 := by
  unfold toUShort charVal
  split <;> omega

theorem toShort_add (n : Nat) : toShort (n + 16711680) = toShort n := by
  unfold toShort
  have : (n + 16711680) % 65536 = n % 65536 := by omega
  rw [this]

theorem short_value (sgn : Bool) (hi lo : Nat) (h1 : hi < 256) (h2 : lo < 256) :
    toShort ((toUShort (charVal sgn hi) <<< 8) ||| toUChar (charVal sgn lo))
      = toShort (hi * 256 + lo) := by
  rw [toUChar_charVal sgn lo h2, shl8_or _ _ h2]
  rcases toUShort_charVal sgn hi h1 with h | h <;> rw [h]
  rw [← toShort_add (hi * 256 + lo),
    show (hi + 65280) * 256 + lo = hi * 256 + lo + 16711680 by omega]

theorem take_two_drop {l : List Nat} {i a b : Nat} (ha : l[i]? = some a) (hb : l[i+1]? = some b) :
    (l.drop i).take 2 = [a, b] := by
  obtain ⟨h1, rfl⟩ := List.getElem?_eq_some.mp ha
  obtain ⟨h2, rfl⟩ := List.getElem?_eq_some.mp hb
  rw [List.drop_eq_getElem_cons h1, List.drop_eq_getElem_cons h2]
  rfl

/-- The value of `readShort` on the bytes `hi`, `lo` at the cursor: the signed
16-bit number with high byte `hi` and low byte `lo`, whether `char` is signed
or not. -/
theorem readShort_bytes {sgn : Bool} {d : AbxDecoder} {hi lo : Nat}
    (hhi : d.mInput[d.curPos]? = some hi) (hlo : d.mInput[d.curPos + 1]? = some lo)
    (h1 : hi < 256) (h2 : lo < 256) :
    readShort sgn d = .ok (toShort (hi * 256 + lo), { d with curPos := d.curPos + 2 }) := by
  have hle : d.curPos + 2 ≤ d.mInput.length := by
    obtain ⟨h, -⟩ := List.getElem?_eq_some.mp hlo
    omega
  simp only [readShort, readFromCurPos_ok hle, take_two_drop hhi hlo]
  simp only [List.getD_cons_zero, List.getD_cons_succ, short_value sgn hi lo h1 h2]

/-! ## The outer switch on the token kind -/

theorem parseStep_attribute {k : Const} {sgn : Bool} {d d1 : AbxDecoder} {event : Nat}
    (hb : readByte d = .ok (event, d1)) (ht : event &&& 0x0f = k.TOKEN_ATTRIBUTE) :
    parseStep k sgn d = stepAttribute k sgn (event &&& 0x0f) (event &&& 0xf0) d1 := by
  simp only [parseStep, hb, ht, if_true]

theorem parseStep_startTag {k : Const} (hk : k.LabelsOk) {sgn : Bool} {d d1 : AbxDecoder}
    {event : Nat} (hb : readByte d = .ok (event, d1))
    (ht : event &&& 0x0f = k.TOKEN_START_TAG) : parseStep k sgn d = stepStartTag sgn d1 := by
  obtain ⟨hd, -, -, -⟩ := hk
  simp only [Const.tokenKinds, List.nodup_cons, List.mem_cons, List.mem_singleton, not_or,
    List.not_mem_nil, not_false_eq_true, List.nodup_nil, and_true] at hd
  simp [parseStep, hb, ht, Ne.symm, hd]

theorem parseStep_endTag {k : Const} (hk : k.LabelsOk) {sgn : Bool} {d d1 : AbxDecoder}
    {event : Nat} (hb : readByte d = .ok (event, d1))
    (ht : event &&& 0x0f = k.TOKEN_END_TAG) : parseStep k sgn d = stepEndTag sgn d1 := by
  obtain ⟨hd, -, -, -⟩ := hk
  simp only [Const.tokenKinds, List.nodup_cons, List.mem_cons, List.mem_singleton, not_or,
    List.not_mem_nil, not_false_eq_true, List.nodup_nil, and_true] at hd
  simp [parseStep, hb, ht, Ne.symm, hd]

theorem parseStep_text {k : Const} (hk : k.LabelsOk) {sgn : Bool} {d d1 : AbxDecoder}
    {event : Nat} (hb : readByte d = .ok (event, d1))
    (ht : event &&& 0x0f ∈ [k.TOKEN_TEXT, k.TOKEN_CDSECT, k.TOKEN_PROCESSING_INSTRUCTION,
      k.TOKEN_COMMENT, k.TOKEN_DOCDECL, k.TOKEN_IGNORABLE_WHITESPACE]) :
    parseStep k sgn d = stepText sgn (event &&& 0x0f) d1 := by
  obtain ⟨hd, -, -, -⟩ := hk
  simp only [Const.tokenKinds, List.nodup_cons, List.mem_cons, List.mem_singleton, not_or,
    List.not_mem_nil, not_false_eq_true, List.nodup_nil, and_true, or_false] at hd ht
  rcases ht with h | h | h | h | h | h <;> simp [parseStep, hb, h, Ne.symm, hd]

/-! ## The key order of the attribute map -/

theorem vecLt_irrefl (sgn : Bool) : ∀ a : List Nat, vecLt sgn a a = false
  | [] => rfl
  | x :: xs => by simp [vecLt, vecLt_irrefl sgn xs]

theorem vecLt_trans (sgn : Bool) :
    ∀ a b c : List Nat, vecLt sgn a b = true → vecLt sgn b c = true → vecLt sgn a c = true
  | [], [], _, h, _ => by simp [vecLt] at h
  | [], _ :: _, [], _, h => by simp [vecLt] at h
  | [], _ :: _, _ :: _, _, _ => rfl
  | _ :: _, [], _, h, _ => by simp [vecLt] at h
  | _ :: _, _ :: _, [], _, h => by simp [vecLt] at h
  | x :: xs, y :: ys, z :: zs, h1, h2 => by
    simp only [vecLt] at h1 h2 ⊢
    split at h1
    · split at h2
      · rw [if_pos (by omega)]
      · split at h2
        · simp at h2
        · rw [if_pos (by omega)]
    · split at h1
      · simp at h1
      · split at h2
        · rw [if_pos (by omega)]
        · split at h2
          · simp at h2
          · rw [if_neg (by omega), if_neg (by omega)]
            exact vecLt_trans sgn xs ys zs h1 h2

theorem vecLt_asymm (sgn : Bool) {a b : List Nat} (h : vecLt sgn a b = true) :
    vecLt sgn b a = false := by
  cases hba : vecLt sgn b a with
  | false => rfl
  | true =>
    have := vecLt_trans sgn a b a h hba
    rw [vecLt_irrefl] at this
    exact this.symm

theorem charVal_inj {sgn : Bool} {x y : Nat} (hx : x < 256) (hy : y < 256)
    (h : charVal sgn x = charVal sgn y) : x = y := by
  unfold charVal at h
  split at h <;> split at h <;> simp_all <;> omega

theorem vecLt_connected (sgn : Bool) :
    ∀ a b : List Nat, (∀ x ∈ a, x < 256) → (∀ y ∈ b, y < 256) →
      vecLt sgn a b = false → vecLt sgn b a = false → a = b
  | [], [], _, _, _, _ => rfl
  | [], _ :: _, _, _, h, _ => by simp [vecLt] at h
  | _ :: _, [], _, _, _, h => by simp [vecLt] at h
  | x :: xs, y :: ys, ha, hb, h1, h2 => by
    simp only [vecLt] at h1 h2
    split at h1
    · simp at h1
    · split at h1
      · rw [if_pos (by assumption)] at h2
        simp at h2
      · rw [if_neg (by assumption), if_neg (by assumption)] at h2
        have hxy : x = y :=
          @charVal_inj sgn x y (ha x (List.mem_cons_self _ _))
            (hb y (List.mem_cons_self _ _)) (by omega)
        have := vecLt_connected sgn xs ys (fun v hv => ha v (List.mem_cons_of_mem _ hv))
          (fun v hv => hb v (List.mem_cons_of_mem _ hv)) h1 h2
        rw [hxy, this]

/-- With an unsigned `char` the key order is the lexicographic order of the
byte values. -/
theorem vecLt_unsigned :
    ∀ a b : List Nat, vecLt false a b = true ↔ List.Lex (fun x y : Nat => x < y) a b
  | [], [] => by simp [vecLt]
  | [], y :: ys => by simp [vecLt, List.Lex.nil]
  | x :: xs, [] => by simp [vecLt]
  | x :: xs, y :: ys => by
    have ih := vecLt_unsigned xs ys
    simp only [vecLt, charVal, Bool.false_and, Bool.false_eq_true, if_false, Nat.cast_lt]
    constructor
    · intro h
      split at h
      · exact List.Lex.rel (by assumption)
      · split at h
        · simp at h
        · have hxy : x = y := by omega
          subst hxy
          exact List.Lex.cons (ih.mp h)
    · intro h
      cases h with
      | rel hlt => rw [if_pos hlt]
      | cons h3 => rw [if_neg (lt_irrefl _), if_neg (lt_irrefl _)]; exact ih.mpr h3

/-! ## The bound on the passes of the loop is never reached -/

theorem parseLoop_ne_outOfFuel {k : Const} {sgn : Bool} :
    ∀ (fuel : Nat) (d : AbxDecoder), d.mInput.length - d.curPos < fuel →
      parseLoop k sgn fuel d ≠ .outOfFuel
  | 0, _, h => by omega
  | fuel + 1, d, h => by
    simp only [parseLoop]
    split
    · exact fun hc => Outcome.noConfusion hc
    · exact fun hc => Outcome.noConfusion hc
    · rename_i d1 hs
      obtain ⟨a, b, c⟩ := parseStep_advances hs
      refine parseLoop_ne_outOfFuel fuel d1 ?_
      rw [a] at c ⊢
      omega

theorem isAbx_inv {k : Const} {d d1 : AbxDecoder} {b : Bool} (h : isAbx k d = .ok (b, d1)) :
    (d.mInput.length < 5 ∧ b = false ∧ d1 = d)
      ∨ (5 ≤ d.mInput.length ∧ d1 = { d with curPos := 4 }) := by
  unfold isAbx at h
  split at h
  · rename_i hlt
    simp only [Except.ok.injEq, Prod.mk.injEq] at h
    exact Or.inl ⟨hlt, h.1.symm, h.2.symm⟩
  · rename_i hge
    split at h
    · simp at h
    · rename_i headerV d2 hr
      obtain ⟨-, -, rfl⟩ := readFromCurPos_inv hr
      split at h
      · simp at h
      · simp only [Except.ok.injEq, Prod.mk.injEq] at h
        exact Or.inr ⟨Nat.le_of_not_lt hge, h.2.symm⟩

/-- The model of `parse` always has a result of the source: the fuel given to
the loop is never used up. -/
theorem parse_ne_outOfFuel (k : Const) (sgn : Bool) (d : AbxDecoder) :
    d.parse k sgn ≠ .outOfFuel := by
  unfold AbxDecoder.parse
  split
  · exact fun hc => Outcome.noConfusion hc
  · exact fun hc => Outcome.noConfusion hc
  · rename_i d1 hi
    rcases isAbx_inv hi with ⟨-, hb, -⟩ | ⟨hlen, rfl⟩
    · exact Bool.noConfusion hb
    · refine parseLoop_ne_outOfFuel _ _ ?_
      simp only [AbxDecoder.reset]
      omega

/-! ## The end-to-end scenario, pass by pass -/

theorem and15_of_lt : ∀ t, t < 16 → t &&& 15 = t := by decide
set_option maxRecDepth 100000 in
theorem or_and15_all :
    ∀ v, v < 256 → ∀ t, t < 16 → v % 16 = 0 → (v ||| t) &&& 15 = t := by
  decide
set_option maxRecDepth 100000 in
theorem or_and240_all :
    ∀ v, v < 256 → ∀ t, t < 16 → v % 16 = 0 → (v ||| t) &&& 240 = v := by
  decide

theorem parseLoop_continue {k : Const} {sgn : Bool} {n : Nat} {d d1 : AbxDecoder}
    (h : parseStep k sgn d = .ok (none, d1)) :
    parseLoop k sgn (n + 1) d = parseLoop k sgn n d1 := by
  simp only [parseLoop, h]

theorem parseLoop_return {k : Const} {sgn : Bool} {n : Nat} {d d1 : AbxDecoder} {b : Bool}
    (h : parseStep k sgn d = .ok (some b, d1)) :
    parseLoop k sgn (n + 1) d = .returned b d1 := by
  simp only [parseLoop, h]

theorem parseStep_startDocument {k : Const} (hk : k.LabelsOk) {sgn : Bool} {d d1 : AbxDecoder}
    {event : Nat} (hb : readByte d = .ok (event, d1))
    (ht : event &&& 0x0f = k.TOKEN_START_DOCUMENT) :
    parseStep k sgn d = .ok (none, { d1 with docOpen := true }) := by
  obtain ⟨hd, -, -, -⟩ := hk
  simp only [Const.tokenKinds, List.nodup_cons, List.mem_cons, List.mem_singleton, not_or,
    List.not_mem_nil, not_false_eq_true, List.nodup_nil, and_true] at hd
  simp [parseStep, hb, ht, Ne.symm, hd]

theorem stepAttribute_string {k : Const} (hk : k.LabelsOk) (sgn : Bool) (tType : Nat)
    {dType : Nat} (d : AbxDecoder)
    (hd : dType ∈ [k.DATA_STRING, k.DATA_BYTES_HEX, k.DATA_BYTES_BASE64]) :
    stepAttribute k sgn tType dType d =
      match readInternedString sgn d with
      | .error f => .error f
      | .ok (attrName, d1) =>
        match readString sgn d1 with
        | .error f => .error f
        | .ok (value, d2) =>
          match d2.updateBack
              (fun e => e.pushAttribute sgn attrName (XMLAttribute.new tType value)) with
          | .error f => .error f
          | .ok d3 => .ok (none, d3) := by
  unfold stepAttribute
  cases readInternedString sgn d with
  | error f => rfl
  | ok r =>
    obtain ⟨attrName, d1⟩ := r
    simp only [readAttrValue_string hk sgn d1 hd]

theorem parseStep_startTag_eq {k : Const} (hk : k.LabelsOk) {sgn : Bool} {d d1 : AbxDecoder}
    {event : Nat} {r : Except Fault (Option Bool × AbxDecoder)}
    (hb : readByte d = .ok (event, d1)) (ht : event &&& 0x0f = k.TOKEN_START_TAG)
    (hr : stepStartTag sgn d1 = r) : parseStep k sgn d = r :=
  (parseStep_startTag hk hb ht).trans hr

theorem parseStep_endTag_eq {k : Const} (hk : k.LabelsOk) {sgn : Bool} {d d1 : AbxDecoder}
    {event : Nat} {r : Except Fault (Option Bool × AbxDecoder)}
    (hb : readByte d = .ok (event, d1)) (ht : event &&& 0x0f = k.TOKEN_END_TAG)
    (hr : stepEndTag sgn d1 = r) : parseStep k sgn d = r :=
  (parseStep_endTag hk hb ht).trans hr

theorem parseStep_attribute_string_eq {k : Const} (hk : k.LabelsOk) {sgn : Bool}
    {d d1 : AbxDecoder} {event : Nat} {r : Except Fault (Option Bool × AbxDecoder)}
    (hb : readByte d = .ok (event, d1)) (ht : event &&& 0x0f = k.TOKEN_ATTRIBUTE)
    (hd : event &&& 0xf0 ∈ [k.DATA_STRING, k.DATA_BYTES_HEX, k.DATA_BYTES_BASE64])
    (hr : (match readInternedString sgn d1 with
      | .error f => .error f
      | .ok (attrName, d2) =>
        match readString sgn d2 with
        | .error f => .error f
        | .ok (value, d3) =>
          match d3.updateBack (fun e =>
              e.pushAttribute sgn attrName (XMLAttribute.new (event &&& 0x0f) value)) with
          | .error f => .error f
          | .ok d4 => .ok (none, d4)) = r) : parseStep k sgn d = r :=
  ((parseStep_attribute hb ht).trans (stepAttribute_string hk _ _ _ hd)).trans hr

theorem packagesStream_eq (k : Const) (m1 m2 m3 : Nat) (hmag : k.startMagic = [m1, m2, m3]) :
    packagesStream k =
      [m1, m2, m3, 0, k.TOKEN_START_DOCUMENT, k.TOKEN_START_TAG, 255, 255, 0, 8, 112, 97,
       99, 107, 97, 103, 101, 115, k.TOKEN_START_TAG, 255, 255, 0, 7, 112, 97, 99, 107, 97,
       103, 101, k.DATA_STRING ||| k.TOKEN_ATTRIBUTE, 255, 255, 0, 4, 110, 97, 109, 101, 0,
       11, 99, 111, 109, 46, 101, 120, 97, 109, 112, 108, 101, k.DATA_STRING |||
       k.TOKEN_ATTRIBUTE, 255, 255, 0, 8, 99, 111, 100, 101, 80, 97, 116, 104, 0, 23, 47,
       100, 97, 116, 97, 47, 97, 112, 112, 47, 99, 111, 109, 46, 101, 120, 97, 109, 112,
       108, 101, 45, 49, k.TOKEN_END_TAG, 0, 1, k.TOKEN_END_TAG, 0, 0] := by
  simp only [packagesStream, Const.signature, hmag]
  rfl


theorem ascii_packages : ascii "packages" = [112, 97, 99, 107, 97, 103, 101, 115] := rfl
theorem ascii_package : ascii "package" = [112, 97, 99, 107, 97, 103, 101] := rfl
theorem ascii_name : ascii "name" = [110, 97, 109, 101] := rfl
theorem ascii_codePath : ascii "codePath" = [99, 111, 100, 101, 80, 97, 116, 104] := rfl
theorem ascii_example :
    ascii "com.example" = [99, 111, 109, 46, 101, 120, 97, 109, 112, 108, 101] := rfl
theorem ascii_path :
    ascii "/data/app/com.example-1" = [47, 100, 97, 116, 97, 47, 97, 112, 112, 47, 99, 111,
      109, 46, 101, 120, 97, 109, 112, 108, 101, 45, 49] := rfl


set_option maxHeartbeats 4000000 in
set_option maxRecDepth 100000 in
/-- The call of `parse` on the stream of the end-to-end scenario, for all
constants: it returns `true` with the root "packages" at address 0. -/
theorem packages_parse (k : Const) (sgn : Bool) (hk : k.LabelsOk) (hm : k.MagicOk) :
    (AbxDecoder.new (packagesStream k)).parse k sgn = .returned true
      ⟨96, packagesStream k, packagesTable, [0], false, true, some 0, packagesHeap k,
        [LogLine.abxFound]⟩ := by
  have hk0 := hk
  obtain ⟨hd, hdd, hlt, hdl⟩ := hk
  simp only [Const.tokenKinds, Const.dataKinds, List.mem_cons, List.mem_singleton,
    List.not_mem_nil, or_false, forall_eq_or_imp, forall_eq] at hlt hdl
  have eSD := and15_of_lt _ hlt.2.1
  have eST := and15_of_lt _ hlt.2.2.2.1
  have eET := and15_of_lt _ hlt.2.2.2.2.1
  have eA := or_and15_all _ hdl.2.2.2.1.1 _ hlt.1 hdl.2.2.2.1.2
  have eS := or_and240_all _ hdl.2.2.2.1.1 _ hlt.1 hdl.2.2.2.1.2
  have hS : (k.DATA_STRING ||| k.TOKEN_ATTRIBUTE) &&& 0xf0
      ∈ [k.DATA_STRING, k.DATA_BYTES_HEX, k.DATA_BYTES_BASE64] := by
    rw [eS]; exact List.mem_cons_self _ _
  clear hd hdd hlt hdl
  have hlen : 5 ≤ (packagesStream k).length := by
    simp only [packagesStream, List.length_append, List.length_singleton]
    omega
  have hsig : (packagesStream k).take 4 = k.signature := by
    have h4 : k.signature.length = 4 := by simp [Const.signature, hm.1]
    simp only [packagesStream, List.append_assoc]
    rw [← h4, List.take_left]
  rw [parse_eq_parseLoop hm hlen hsig]
  obtain ⟨hlen3, hz⟩ := hm
  match hmag : k.startMagic, hlen3, hz with
  | [m1, m2, m3], _, _ =>
    have hL := packagesStream_eq k m1 m2 m3 hmag
    have hfuel : (packagesStream k).length = 89 + 7 := by rw [hL]; rfl
    rw [hfuel]
    generalize hSdef : packagesStream k = S at hL ⊢
    have s1 : parseStep k sgn (loopStart S) = .ok (none, loopAt S 5 [] [] true []) :=
      parseStep_startDocument hk0
        (show readByte (loopStart S) = .ok (k.TOKEN_START_DOCUMENT, loopAt S 5 [] [] false [])
          by simp [readByte, readFromCurPos, loopStart, loopAt, AbxDecoder.reset,
            AbxDecoder.new, hL]) eSD
    have s2 : parseStep k sgn (loopAt S 5 [] [] true [])
        = .ok (none, loopAt S 18 [ascii "packages" ++ [0]] [0] true
            [XMLElement.new (ascii "packages" ++ [0])]) :=
      parseStep_startTag_eq hk0
        (show readByte (loopAt S 5 [] [] true [])
            = .ok (k.TOKEN_START_TAG, loopAt S 6 [] [] true [])
          by simp [readByte, readFromCurPos, loopAt, hL]) eST
        (by cases sgn <;> simp [stepStartTag, readInternedString, readString, readShort,
            readFromCurPos, loopAt, hL, addElementToStack, toShort, toUShort, toUChar, charVal,
            ascii_packages])
    have s3 : parseStep k sgn (loopAt S 18 [ascii "packages" ++ [0]] [0] true
          [XMLElement.new (ascii "packages" ++ [0])])
        = .ok (none, loopAt S 30 [ascii "packages" ++ [0], ascii "package" ++ [0]] [0, 1] true
            [⟨ascii "packages" ++ [0], [], [], [1]⟩, XMLElement.new (ascii "package" ++ [0])]) :=
      parseStep_startTag_eq hk0
        (show readByte (loopAt S 18 [ascii "packages" ++ [0]] [0] true
            [XMLElement.new (ascii "packages" ++ [0])])
          = .ok (k.TOKEN_START_TAG, loopAt S 19 [ascii "packages" ++ [0]] [0] true
            [XMLElement.new (ascii "packages" ++ [0])])
          by simp [readByte, readFromCurPos, loopAt, hL]) eST
        (by cases sgn <;> simp [stepStartTag, readInternedString, readString, readShort,
            readFromCurPos, loopAt, hL, addElementToStack, AbxDecoder.updateBack,
            AbxDecoder.back, XMLElement.new, toShort, toUShort, toUChar, charVal,
            ascii_packages, ascii_package])
    have s4 : parseStep k sgn (loopAt S 30 [ascii "packages" ++ [0], ascii "package" ++ [0]]
          [0, 1] true
          [⟨ascii "packages" ++ [0], [], [], [1]⟩, XMLElement.new (ascii "package" ++ [0])])
        = .ok (none, loopAt S 52
            [ascii "packages" ++ [0], ascii "package" ++ [0], ascii "name" ++ [0]] [0, 1] true
            [⟨ascii "packages" ++ [0], [], [], [1]⟩,
             ⟨ascii "package" ++ [0],
              [(ascii "name" ++ [0], ⟨ascii "com.example" ++ [0], k.TOKEN_ATTRIBUTE⟩)],
              [], []⟩]) :=
      parseStep_attribute_string_eq hk0
        (show readByte (loopAt S 30 [ascii "packages" ++ [0], ascii "package" ++ [0]]
            [0, 1] true
            [⟨ascii "packages" ++ [0], [], [], [1]⟩, XMLElement.new (ascii "package" ++ [0])])
          = .ok (k.DATA_STRING ||| k.TOKEN_ATTRIBUTE,
              loopAt S 31 [ascii "packages" ++ [0], ascii "package" ++ [0]] [0, 1] true
              [⟨ascii "packages" ++ [0], [], [], [1]⟩, XMLElement.new (ascii "package" ++ [0])])
          by simp [readByte, readFromCurPos, loopAt, hL]) eA hS
        (by cases sgn <;> simp [readInternedString, readString, readShort,
            readFromCurPos, loopAt, hL, AbxDecoder.updateBack,
            AbxDecoder.back, XMLElement.new, XMLAttribute.new, XMLElement.pushAttribute,
            mapEmplace, toShort, toUShort, toUChar, charVal, eA,
            ascii_packages, ascii_package, ascii_name, ascii_example])
    have s5 : parseStep k sgn (loopAt S 52
            [ascii "packages" ++ [0], ascii "package" ++ [0], ascii "name" ++ [0]] [0, 1] true
            [⟨ascii "packages" ++ [0], [], [], [1]⟩,
             ⟨ascii "package" ++ [0],
              [(ascii "name" ++ [0], ⟨ascii "com.example" ++ [0], k.TOKEN_ATTRIBUTE⟩)],
              [], []⟩])
        = .ok (none, loopAt S 90
            packagesTable [0, 1] true
            (packagesHeap k)) :=
      parseStep_attribute_string_eq hk0
        (show readByte (loopAt S 52
            [ascii "packages" ++ [0], ascii "package" ++ [0], ascii "name" ++ [0]] [0, 1] true
            [⟨ascii "packages" ++ [0], [], [], [1]⟩,
             ⟨ascii "package" ++ [0],
              [(ascii "name" ++ [0], ⟨ascii "com.example" ++ [0], k.TOKEN_ATTRIBUTE⟩)],
              [], []⟩])
          = .ok (k.DATA_STRING ||| k.TOKEN_ATTRIBUTE, loopAt S 53
            [ascii "packages" ++ [0], ascii "package" ++ [0], ascii "name" ++ [0]] [0, 1] true
            [⟨ascii "packages" ++ [0], [], [], [1]⟩,
             ⟨ascii "package" ++ [0],
              [(ascii "name" ++ [0], ⟨ascii "com.example" ++ [0], k.TOKEN_ATTRIBUTE⟩)],
              [], []⟩])
          by simp [readByte, readFromCurPos, loopAt, hL]) eA hS
        (by cases sgn <;> simp [readInternedString, readString, readShort,
            readFromCurPos, loopAt, hL, AbxDecoder.updateBack,
            AbxDecoder.back, XMLElement.new, XMLAttribute.new, XMLElement.pushAttribute,
            mapEmplace, vecLt, toShort, toUShort, toUChar, charVal, eA,
            ascii_packages, ascii_package, ascii_name, ascii_example, ascii_codePath,
            ascii_path, packagesTable, packagesHeap])
    have s6 : parseStep k sgn (loopAt S 90
            packagesTable [0, 1] true
            (packagesHeap k))
        = .ok (none, loopAt S 93
            packagesTable [0] true
            (packagesHeap k)) :=
      parseStep_endTag_eq hk0
        (show readByte (loopAt S 90
            packagesTable [0, 1] true
            (packagesHeap k))
          = .ok (k.TOKEN_END_TAG, loopAt S 91
            packagesTable [0, 1] true
            (packagesHeap k))
          by simp [readByte, readFromCurPos, loopAt, hL]) eET
        (by cases sgn <;> simp [stepEndTag, readInternedString, readString, readShort,
            readFromCurPos, loopAt, hL, AbxDecoder.back, strcmpVec, toShort, toUShort, toUChar,
            charVal, ascii_packages, ascii_package, ascii_name, ascii_codePath, packagesTable,
            packagesHeap])
    have s7 : parseStep k sgn (loopAt S 93
            packagesTable [0] true
            (packagesHeap k))
        = .ok (some true, { loopAt S 96
            packagesTable [0] false
            (packagesHeap k) with root := some 0, rootClosed := true }) :=
      parseStep_endTag_eq hk0
        (show readByte (loopAt S 93
            packagesTable [0] true
            (packagesHeap k))
          = .ok (k.TOKEN_END_TAG, loopAt S 94
            packagesTable [0] true
            (packagesHeap k))
          by simp [readByte, readFromCurPos, loopAt, hL]) eET
        (by cases sgn <;> simp [stepEndTag, readInternedString, readString, readShort,
            readFromCurPos, loopAt, hL, AbxDecoder.back, strcmpVec, toShort, toUShort, toUChar,
            charVal, ascii_packages, ascii_package, ascii_name, ascii_codePath, packagesTable,
            packagesHeap])
    rw [parseLoop_continue s1, parseLoop_continue s2, parseLoop_continue s3,
      parseLoop_continue s4, parseLoop_continue s5, parseLoop_continue s6,
      parseLoop_return s7]
    rfl

/-! ## What a pass of the loop does to the stack, the heap and the intern table -/

theorem Reads.back {m : Nat} {d d1 : AbxDecoder} (h : Reads m d d1) : d1.back = d.back := by
  obtain ⟨c, ext, rfl, -, -⟩ := h
  rfl

theorem Reads.table {m : Nat} {d d1 : AbxDecoder} (h : Reads m d d1) :
    ∃ ext, d1.internedStrings = d.internedStrings ++ ext := by
  obtain ⟨c, ext, rfl, -, -⟩ := h
  exact ⟨ext, rfl⟩

theorem Reads.root {m : Nat} {d d1 : AbxDecoder} (h : Reads m d d1) : d1.root = d.root := by
  obtain ⟨c, ext, rfl, -, -⟩ := h
  rfl

theorem addElementToStack_inv {d d2 : AbxDecoder} {el : XMLElement}
    (h : addElementToStack d el = .ok d2) :
    d2.elementStack = d.elementStack ++ [d.heap.length]
    ∧ d2.internedStrings = d.internedStrings ∧ d2.root = d.root
    ∧ ((d.elementStack = [] ∧ d2.heap = d.heap ++ [el])
      ∨ (∃ p e, d.elementStack.getLast? = some p ∧ (d.heap ++ [el])[p]? = some e
          ∧ d2.heap = (d.heap ++ [el]).set p
              { e with subElements := e.subElements ++ [d.heap.length] })) := by
  unfold addElementToStack at h
  simp only at h
  split at h
  · split at h
    · simp at h
    · rename_i d3 hu
      obtain ⟨p, e, hb, rfl⟩ := updateBack_inv hu
      simp only [Except.ok.injEq] at h
      subst h
      refine ⟨rfl, rfl, rfl, Or.inr ⟨p, e, ?_, ?_, rfl⟩⟩
      · unfold AbxDecoder.back at hb
        simp only at hb
        split at hb
        · simp at hb
        · rename_i q hq
          split at hb
          · simp at hb
          · simp only [Except.ok.injEq, Prod.mk.injEq] at hb
            rw [hq, hb.1]
      · unfold AbxDecoder.back at hb
        simp only at hb
        split at hb
        · simp at hb
        · rename_i q hq
          split at hb
          · simp at hb
          · rename_i e2 he
            simp only [Except.ok.injEq, Prod.mk.injEq] at hb
            rw [← hb.1, ← hb.2, he]
  · rename_i hlen
    simp only [Except.ok.injEq] at h
    subst h
    refine ⟨rfl, rfl, rfl, Or.inl ⟨?_, rfl⟩⟩
    exact List.length_eq_zero.mp (by simpa using hlen)

theorem stepAttribute_inv {k : Const} {sgn : Bool} {tType dType : Nat} {d d3 : AbxDecoder}
    {r : Option Bool}
    (h : stepAttribute k sgn tType dType d = .ok (r, d3)) :
    r = none ∧ ∃ d2 p e e1, Reads 2 d d2 ∧ d.back = .ok (p, e)
      ∧ e1.subElements = e.subElements ∧ d3 = { d2 with heap := d2.heap.set p e1 } := by
  unfold stepAttribute at h
  split at h
  · simp at h
  · rename_i attrName d1 hn
    have h1 := readInternedString_reads hn
    split at h
    · simp at h
    · rename_i value d2 hv
      have h2 := readAttrValue_reads (h1.curPos.2.trans (le_of_eq (by rw [h1.mInput]))) hv
      have h12 := h1.trans h2
      split at h
      · simp at h
      · rename_i d4 hu
        obtain ⟨p, e, hb, rfl⟩ := updateBack_inv hu
        simp only [Except.ok.injEq, Prod.mk.injEq] at h
        refine ⟨h.1.symm, d2, p, e, _, h12.mono (by omega), h12.back ▸ hb, ?_, h.2.symm⟩
        rfl

theorem stepText_inv {sgn : Bool} {tType : Nat} {d d3 : AbxDecoder} {r : Option Bool}
    (h : stepText sgn tType d = .ok (r, d3)) :
    r = none ∧ ∃ d2 p e e1, Reads 2 d d2 ∧ d.back = .ok (p, e)
      ∧ e1.subElements = e.subElements ∧ d3 = { d2 with heap := d2.heap.set p e1 } := by
  unfold stepText at h
  split at h
  · simp at h
  · rename_i readVal d1 hn
    have h1 := readString_reads hn
    split at h
    · simp at h
    · rename_i d4 hu
      obtain ⟨p, e, hb, rfl⟩ := updateBack_inv hu
      simp only [Except.ok.injEq, Prod.mk.injEq] at h
      refine ⟨h.1.symm, d1, p, e, _, h1, h1.back ▸ hb, ?_, h.2.symm⟩
      rfl

theorem stepStartTag_inv {sgn : Bool} {d d3 : AbxDecoder} {r : Option Bool}
    (h : stepStartTag sgn d = .ok (r, d3)) :
    r = none ∧ ∃ tagName d1, readInternedString sgn d = .ok (tagName, d1)
      ∧ addElementToStack d1 (XMLElement.new tagName) = .ok d3 := by
  unfold stepStartTag at h
  split at h
  · simp at h
  · rename_i tagName d1 hn
    split at h
    · simp at h
    · rename_i d2 ha
      simp only [Except.ok.injEq, Prod.mk.injEq] at h
      exact ⟨h.1.symm, tagName, d1, hn, h.2 ▸ ha⟩

theorem stepEndTag_inv {sgn : Bool} {d d3 : AbxDecoder} {r : Option Bool}
    (h : stepEndTag sgn d = .ok (r, d3)) :
    ∃ tagName d1 p last log, readInternedString sgn d = .ok (tagName, d1)
      ∧ d.back = .ok (p, last)
      ∧ ((d.elementStack.length = 1 ∧ r = some true
            ∧ d3 = { d1 with cerr := log, root := some p, docOpen := false,
                             rootClosed := true })
        ∨ (d.elementStack.length ≠ 1 ∧ r = none
            ∧ d3 = { d1 with cerr := log, elementStack := d1.elementStack.dropLast })) := by
  unfold stepEndTag at h
  split at h
  · simp at h
  · rename_i tagName d1 hn
    have h1 := readInternedString_reads hn
    split at h
    · simp at h
    · rename_i p last hb
      split at h
      · simp at h
      · rename_i same hsame
        split at h
        · simp at h
        · rename_i log hlog
          simp only at h
          split at h
          · rename_i hlen
            simp only [Except.ok.injEq, Prod.mk.injEq] at h
            refine ⟨tagName, d1, p, last, log, hn, h1.back ▸ hb, Or.inl ⟨?_, h.1.symm, h.2.symm⟩⟩
            rw [← h1.elementStack]
            exact hlen
          · rename_i hlen
            simp only [Except.ok.injEq, Prod.mk.injEq] at h
            refine ⟨tagName, d1, p, last, log, hn, h1.back ▸ hb, Or.inr ⟨?_, h.1.symm, h.2.symm⟩⟩
            rw [← h1.elementStack]
            exact hlen

theorem labels_distinct {k : Const} (hk : k.LabelsOk) :
    k.TOKEN_ATTRIBUTE ≠ k.TOKEN_START_TAG ∧ k.TOKEN_ATTRIBUTE ≠ k.TOKEN_END_TAG
    ∧ k.TOKEN_START_DOCUMENT ≠ k.TOKEN_START_TAG ∧ k.TOKEN_START_DOCUMENT ≠ k.TOKEN_END_TAG
    ∧ k.TOKEN_END_DOCUMENT ≠ k.TOKEN_START_TAG ∧ k.TOKEN_END_DOCUMENT ≠ k.TOKEN_END_TAG
    ∧ k.TOKEN_START_TAG ≠ k.TOKEN_END_TAG
    ∧ (∀ t ∈ [k.TOKEN_TEXT, k.TOKEN_CDSECT, k.TOKEN_PROCESSING_INSTRUCTION, k.TOKEN_COMMENT,
          k.TOKEN_DOCDECL, k.TOKEN_IGNORABLE_WHITESPACE],
        t ≠ k.TOKEN_START_TAG ∧ t ≠ k.TOKEN_END_TAG) := by
  obtain ⟨hd, -, -, -⟩ := hk
  simp only [Const.tokenKinds, List.nodup_cons, List.mem_cons, List.mem_singleton, not_or,
    List.not_mem_nil, not_false_eq_true, List.nodup_nil, and_true, or_false] at hd
  simp only [List.mem_cons, List.mem_singleton, List.not_mem_nil, or_false, forall_eq_or_imp,
    forall_eq]
  simp [Ne.symm, hd]

/-- The effect of a pass of the loop that does not fault, by the kind of its
token: a START_TAG pushes a new element, an END_TAG pops the stack or closes
the root, a pass of another kind leaves the stack as it is and changes at most
the element at its top, without touching the children of that element. -/
theorem parseStep_shape {k : Const} {sgn : Bool} {d d1 : AbxDecoder} {r : Option Bool}
    (h : parseStep k sgn d = .ok (r, d1)) :
    ∃ event d0, readByte d = .ok (event, d0)
      ∧ (∃ ext, d1.internedStrings = d.internedStrings ++ ext)
      ∧ (((k.LabelsOk → event &&& 0x0f ≠ k.TOKEN_START_TAG ∧ event &&& 0x0f ≠ k.TOKEN_END_TAG)
            ∧ r ≠ some true ∧ d1.elementStack = d.elementStack
            ∧ (d1.heap = d.heap ∨ ∃ p e e1, d.back = .ok (p, e)
                ∧ e1.subElements = e.subElements ∧ d1.heap = d.heap.set p e1))
        ∨ (event &&& 0x0f = k.TOKEN_START_TAG ∧ r = none
            ∧ d1.elementStack = d.elementStack ++ [d.heap.length]
            ∧ ∃ el, (d.elementStack = [] ∧ d1.heap = d.heap ++ [el])
              ∨ (∃ p e, d.elementStack.getLast? = some p ∧ (d.heap ++ [el])[p]? = some e
                  ∧ d1.heap = (d.heap ++ [el]).set p
                      { e with subElements := e.subElements ++ [d.heap.length] }))
        ∨ (event &&& 0x0f = k.TOKEN_END_TAG ∧ d1.heap = d.heap
            ∧ ∃ p e, d.back = .ok (p, e)
              ∧ ((d.elementStack.length = 1 ∧ r = some true
                    ∧ d1.elementStack = d.elementStack ∧ d1.root = some p)
                ∨ (d.elementStack.length ≠ 1 ∧ r = none
                    ∧ d1.elementStack = d.elementStack.dropLast ∧ d1.root = d.root)))) := by
  unfold parseStep at h
  split at h
  · simp at h
  · rename_i event d0 hb
    have hr := readByte_reads hb
    refine ⟨event, d0, hb, ?_⟩
    simp only at h
    split at h
    · -- attribute
      rename_i ht
      obtain ⟨rfl, d2, p, e, e1, h2, hbk, he, rfl⟩ := stepAttribute_inv h
      have h02 := hr.trans h2
      refine ⟨h02.table, Or.inl ⟨fun hk => ?_, by simp, h02.elementStack,
        Or.inr ⟨p, e, e1, hr.back ▸ hbk, he, ?_⟩⟩⟩
      · rw [ht]
        exact ⟨(labels_distinct hk).1, (labels_distinct hk).2.1⟩
      · show d2.heap.set p e1 = d.heap.set p e1
        rw [h02.heap]
    · split at h
      · rename_i ht
        simp only [Except.ok.injEq, Prod.mk.injEq] at h
        obtain ⟨rfl, rfl⟩ := h
        refine ⟨hr.table, Or.inl ⟨fun hk => ?_, by simp, hr.elementStack, Or.inl hr.heap⟩⟩
        rw [ht]
        exact ⟨(labels_distinct hk).2.2.1, (labels_distinct hk).2.2.2.1⟩
      · split at h
        · rename_i ht
          simp only [Except.ok.injEq, Prod.mk.injEq] at h
          obtain ⟨rfl, rfl⟩ := h
          refine ⟨hr.table, Or.inl ⟨fun hk => ?_, by simp, hr.elementStack, Or.inl hr.heap⟩⟩
          rw [ht]
          exact ⟨(labels_distinct hk).2.2.2.2.1, (labels_distinct hk).2.2.2.2.2.1⟩
        · split at h
          · -- start tag
            rename_i ht
            obtain ⟨rfl, tagName, d2, hn, ha⟩ := stepStartTag_inv h
            have h02 := hr.trans (readInternedString_reads hn)
            obtain ⟨hs, ht2, -, hcase⟩ := addElementToStack_inv ha
            obtain ⟨ext, hext⟩ := h02.table
            refine ⟨⟨ext, by rw [ht2, hext]⟩, Or.inr (Or.inl ⟨ht, rfl, ?_, XMLElement.new tagName, ?_⟩)⟩
            · rw [hs, h02.elementStack, h02.heap]
            · rw [h02.elementStack, h02.heap] at hcase
              exact hcase
          · split at h
            · -- end tag
              rename_i ht
              obtain ⟨tagName, d2, p, last, log, hn, hbk, hcase⟩ := stepEndTag_inv h
              have h02 := hr.trans (readInternedString_reads hn)
              obtain ⟨ext, hext⟩ := h02.table
              rw [hr.back] at hbk
              rw [hr.elementStack] at hcase
              rcases hcase with ⟨hl, rfl, rfl⟩ | ⟨hl, rfl, rfl⟩
              · exact ⟨⟨ext, hext⟩, Or.inr (Or.inr ⟨ht, h02.heap, p, last, hbk,
                  Or.inl ⟨hl, rfl, h02.elementStack, rfl⟩⟩)⟩
              · refine ⟨⟨ext, hext⟩, Or.inr (Or.inr ⟨ht, h02.heap, p, last, hbk,
                  Or.inr ⟨hl, rfl, ?_, h02.root⟩⟩)⟩
                show d2.elementStack.dropLast = d.elementStack.dropLast
                rw [h02.elementStack]
            · split at h
              · -- text
                rename_i ht
                obtain ⟨rfl, d2, p, e, e1, h2, hbk, he, rfl⟩ := stepText_inv h
                have h02 := hr.trans h2
                refine ⟨h02.table, Or.inl ⟨fun hk => ?_, by simp, h02.elementStack,
                  Or.inr ⟨p, e, e1, hr.back ▸ hbk, he, ?_⟩⟩⟩
                · exact (labels_distinct hk).2.2.2.2.2.2.2 _ (by
                    simp only [List.mem_cons, List.mem_singleton, List.not_mem_nil, or_false]
                    tauto)
                · show d2.heap.set p e1 = d.heap.set p e1
                  rw [h02.heap]
              · rename_i h1 h2 h3 h4 h5 h6
                simp only [Except.ok.injEq, Prod.mk.injEq] at h
                obtain ⟨rfl, rfl⟩ := h
                exact ⟨hr.table, Or.inl ⟨fun _ => ⟨h4, h5⟩, by simp, hr.elementStack,
                  Or.inl hr.heap⟩⟩

/-! ## Bytes after the ones a pass reads do not change the pass -/

theorem readFromCurPos_tail {d d1 : AbxDecoder} {n : Nat} {v : List Nat} (t : List Nat)
    (h : readFromCurPos d n = .ok (v, d1)) :
    readFromCurPos (d.withTail t) n = .ok (v, d1.withTail t) := by
  obtain ⟨hle, rfl, rfl⟩ := readFromCurPos_inv h
  have hle2 : (d.withTail t).curPos + n ≤ (d.withTail t).mInput.length := by
    simp only [AbxDecoder.withTail, List.length_append]
    omega
  rw [readFromCurPos_ok hle2]
  have hd : d.curPos ≤ d.mInput.length := by omega
  have : ((d.mInput ++ t).drop d.curPos).take n = (d.mInput.drop d.curPos).take n := by
    rw [List.drop_append_of_le_length hd, List.take_append_of_le_length]
    rw [List.length_drop]
    omega
  simp only [AbxDecoder.withTail, this]

theorem readByte_tail {d d1 : AbxDecoder} {b : Nat} (t : List Nat)
    (h : readByte d = .ok (b, d1)) : readByte (d.withTail t) = .ok (b, d1.withTail t) := by
  unfold readByte at h
  split at h
  · simp at h
  · rename_i v d2 hr
    simp only [Except.ok.injEq, Prod.mk.injEq] at h
    obtain ⟨rfl, rfl⟩ := h
    simp only [readByte, readFromCurPos_tail t hr]

theorem readShort_tail {sgn : Bool} {d d1 : AbxDecoder} {x : Int} (t : List Nat)
    (h : readShort sgn d = .ok (x, d1)) :
    readShort sgn (d.withTail t) = .ok (x, d1.withTail t) := by
  unfold readShort at h
  split at h
  · simp at h
  · rename_i v d2 hr
    simp only [Except.ok.injEq, Prod.mk.injEq] at h
    obtain ⟨rfl, rfl⟩ := h
    simp only [readShort, readFromCurPos_tail t hr]

theorem readString_tail {sgn : Bool} {d d1 : AbxDecoder} {v : List Nat} (t : List Nat)
    (h : readString sgn d = .ok (v, d1)) :
    readString sgn (d.withTail t) = .ok (v, d1.withTail t) := by
  unfold readString at h
  split at h
  · simp at h
  · rename_i len d2 hs
    split at h
    · rename_i hlt
      simp only [Except.ok.injEq, Prod.mk.injEq] at h
      obtain ⟨rfl, rfl⟩ := h
      simp only [readString, readShort_tail t hs, hlt, if_true]
    · rename_i hlt
      split at h
      · simp at h
      · rename_i ret d3 hr
        simp only [Except.ok.injEq, Prod.mk.injEq] at h
        obtain ⟨rfl, rfl⟩ := h
        simp only [readString, readShort_tail t hs, hlt, if_false, readFromCurPos_tail t hr]

theorem readInternedString_tail {sgn : Bool} {d d1 : AbxDecoder} {v : List Nat} (t : List Nat)
    (h : readInternedString sgn d = .ok (v, d1)) :
    readInternedString sgn (d.withTail t) = .ok (v, d1.withTail t) := by
  unfold readInternedString at h
  split at h
  · simp at h
  · rename_i idx d2 hs
    split at h
    · rename_i hneg
      split at h
      · simp at h
      · rename_i str d3 hr
        simp only [Except.ok.injEq, Prod.mk.injEq] at h
        obtain ⟨rfl, rfl⟩ := h
        simp only [readInternedString, readShort_tail t hs, hneg, if_true,
          readString_tail t hr]
        rfl
    · rename_i hneg
      split at h
      · simp at h
      · rename_i s hget
        simp only [Except.ok.injEq, Prod.mk.injEq] at h
        obtain ⟨rfl, rfl⟩ := h
        have hget2 : (d2.withTail t).internedStrings[idx.toNat]? = some s := hget
        simp only [readInternedString, readShort_tail t hs, hneg, if_false, hget2]

theorem readAttrValue_tail {k : Const} {sgn : Bool} {dType : Nat} {d d1 : AbxDecoder}
    {v : List Nat} (t : List Nat) (h : readAttrValue k sgn dType d = .ok (v, d1)) :
    readAttrValue k sgn dType (d.withTail t) = .ok (v, d1.withTail t) := by
  unfold readAttrValue at h ⊢
  split_ifs at h ⊢
  all_goals first
    | (simp only [Except.ok.injEq, Prod.mk.injEq] at h
       obtain ⟨rfl, rfl⟩ := h
       rfl)
    | exact readString_tail t h
    | exact readInternedString_tail t h
    | exact readFromCurPos_tail t h

theorem updateBack_tail {d d1 : AbxDecoder} {g : XMLElement → XMLElement} (t : List Nat)
    (h : d.updateBack g = .ok d1) : (d.withTail t).updateBack g = .ok (d1.withTail t) := by
  obtain ⟨p, e, hb, rfl⟩ := updateBack_inv h
  have hb2 : (d.withTail t).back = .ok (p, e) := hb
  simp only [AbxDecoder.updateBack, hb2]
  rfl

theorem addElementToStack_tail {d d1 : AbxDecoder} {el : XMLElement} (t : List Nat)
    (h : addElementToStack d el = .ok d1) :
    addElementToStack (d.withTail t) el = .ok (d1.withTail t) := by
  unfold addElementToStack at h ⊢
  simp only at h ⊢
  split at h
  · rename_i hlen
    split at h
    · simp at h
    · rename_i d2 hu
      simp only [Except.ok.injEq] at h
      subst h
      have hlen2 : 0 < (d.withTail t).elementStack.length := hlen
      have hu2 := updateBack_tail t hu
      simp only [AbxDecoder.withTail] at hu2 hlen2 ⊢
      simp only [hlen2, if_true, hu2]
  · rename_i hlen
    simp only [Except.ok.injEq] at h
    subst h
    have hlen2 : ¬ 0 < (d.withTail t).elementStack.length := hlen
    simp only [AbxDecoder.withTail] at hlen2 ⊢
    simp only [hlen2, if_false]

theorem stepAttribute_tail {k : Const} {sgn : Bool} {tType dType : Nat} {d d1 : AbxDecoder}
    {r : Option Bool} (t : List Nat) (h : stepAttribute k sgn tType dType d = .ok (r, d1)) :
    stepAttribute k sgn tType dType (d.withTail t) = .ok (r, d1.withTail t) := by
  unfold stepAttribute at h
  split at h
  · simp at h
  · rename_i attrName d2 hn
    split at h
    · simp at h
    · rename_i value d3 hv
      split at h
      · simp at h
      · rename_i d4 hu
        simp only [Except.ok.injEq, Prod.mk.injEq] at h
        obtain ⟨rfl, rfl⟩ := h
        simp only [stepAttribute, readInternedString_tail t hn, readAttrValue_tail t hv,
          updateBack_tail t hu]

theorem stepStartTag_tail {sgn : Bool} {d d1 : AbxDecoder} {r : Option Bool} (t : List Nat)
    (h : stepStartTag sgn d = .ok (r, d1)) :
    stepStartTag sgn (d.withTail t) = .ok (r, d1.withTail t) := by
  obtain ⟨rfl, tagName, d2, hn, ha⟩ := stepStartTag_inv h
  simp only [stepStartTag, readInternedString_tail t hn, addElementToStack_tail t ha]

theorem stepText_tail {sgn : Bool} {tType : Nat} {d d1 : AbxDecoder} {r : Option Bool}
    (t : List Nat) (h : stepText sgn tType d = .ok (r, d1)) :
    stepText sgn tType (d.withTail t) = .ok (r, d1.withTail t) := by
  unfold stepText at h
  split at h
  · simp at h
  · rename_i readVal d2 hn
    split at h
    · simp at h
    · rename_i d4 hu
      simp only [Except.ok.injEq, Prod.mk.injEq] at h
      obtain ⟨rfl, rfl⟩ := h
      simp only [stepText, readString_tail t hn, updateBack_tail t hu]

theorem stepEndTag_tail {sgn : Bool} {d d1 : AbxDecoder} {r : Option Bool} (t : List Nat)
    (h : stepEndTag sgn d = .ok (r, d1)) :
    stepEndTag sgn (d.withTail t) = .ok (r, d1.withTail t) := by
  unfold stepEndTag at h
  split at h
  · simp at h
  · rename_i tagName d2 hn
    split at h
    · simp at h
    · rename_i p last hb
      have hb2 : (d2.withTail t).back = .ok (p, last) := hb
      split at h
      · simp at h
      · rename_i same hsame
        split at h
        · simp at h
        · rename_i log hlog
          simp only at h
          split at h
          · rename_i hlen
            simp only [Except.ok.injEq, Prod.mk.injEq] at h
            obtain ⟨rfl, rfl⟩ := h
            simp only [stepEndTag, readInternedString_tail t hn, hb2, hsame]
            simp only [AbxDecoder.withTail]
            simp only [hlog, hlen, if_true]
          · rename_i hlen
            simp only [Except.ok.injEq, Prod.mk.injEq] at h
            obtain ⟨rfl, rfl⟩ := h
            simp only [stepEndTag, readInternedString_tail t hn, hb2, hsame]
            simp only [AbxDecoder.withTail]
            simp only [hlog, hlen, if_false]

/-- A pass of the loop that does not fault does the same on a buffer with more
bytes at its end. -/
theorem parseStep_tail {k : Const} {sgn : Bool} {d d1 : AbxDecoder} {r : Option Bool}
    (t : List Nat) (h : parseStep k sgn d = .ok (r, d1)) :
    parseStep k sgn (d.withTail t) = .ok (r, d1.withTail t) := by
  unfold parseStep at h ⊢
  split at h
  · simp at h
  · rename_i event d0 hb
    rw [readByte_tail t hb]
    simp only at h ⊢
    split_ifs at h ⊢
    · exact stepAttribute_tail t h
    · simp only [Except.ok.injEq, Prod.mk.injEq] at h ⊢
      obtain ⟨rfl, rfl⟩ := h
      exact ⟨rfl, rfl⟩
    · simp only [Except.ok.injEq, Prod.mk.injEq] at h ⊢
      obtain ⟨rfl, rfl⟩ := h
      exact ⟨rfl, rfl⟩
    · exact stepStartTag_tail t h
    · exact stepEndTag_tail t h
    · exact stepText_tail t h
    · simp only [Except.ok.injEq, Prod.mk.injEq] at h ⊢
      obtain ⟨rfl, rfl⟩ := h
      exact ⟨rfl, rfl⟩

theorem parseLoop_tail {k : Const} {sgn : Bool} (t : List Nat) :
    ∀ (fuel extra : Nat) {d d1 : AbxDecoder} {b : Bool},
      parseLoop k sgn fuel d = .returned b d1 →
      parseLoop k sgn (fuel + extra) (d.withTail t) = .returned b (d1.withTail t)
  | 0, _, d, d1, b, h => by simp [parseLoop] at h
  | fuel + 1, extra, d, d1, b, h => by
    rw [show fuel + 1 + extra = (fuel + extra) + 1 by omega]
    simp only [parseLoop] at h ⊢
    split at h
    · simp at h
    · rename_i c d2 hs
      simp only [Outcome.returned.injEq] at h
      obtain ⟨rfl, rfl⟩ := h
      simp only [parseStep_tail t hs]
    · rename_i d2 hs
      simp only [parseStep_tail t hs]
      exact parseLoop_tail t fuel extra h

/-- A `return` of the loop comes from a pass that returned, after passes that
continued. -/
theorem parseLoop_returned_inv {k : Const} {sgn : Bool} :
    ∀ (fuel : Nat) {d d1 : AbxDecoder} {b : Bool}, parseLoop k sgn fuel d = .returned b d1 →
      ∃ n dn, n < fuel ∧ loopState k sgn n d = some dn ∧ parseStep k sgn dn = .ok (some b, d1)
  | 0, d, d1, b, h => by simp [parseLoop] at h
  | fuel + 1, d, d1, b, h => by
    simp only [parseLoop] at h
    split at h
    · simp at h
    · rename_i c d2 hs
      simp only [Outcome.returned.injEq] at h
      obtain ⟨rfl, rfl⟩ := h
      exact ⟨0, d, by omega, rfl, hs⟩
    · rename_i d2 hs
      obtain ⟨n, dn, hn, hl, hp⟩ := parseLoop_returned_inv fuel h
      exact ⟨n + 1, dn, by omega, by simp only [loopState, hs]; exact hl, hp⟩

/-- A call of `parse` that returns `true` passed the signature test and ran
the loop from its start state. -/
theorem parse_true_inv {k : Const} {sgn : Bool} {input : List Nat} {d : AbxDecoder}
    (h : (AbxDecoder.new input).parse k sgn = .returned true d) :
    5 ≤ input.length
    ∧ isAbx k (AbxDecoder.new input) = .ok (true, { AbxDecoder.new input with curPos := 4 })
    ∧ parseLoop k sgn input.length (loopStart input) = .returned true d := by
  unfold AbxDecoder.parse at h
  split at h
  · simp at h
  · simp at h
  · rename_i d1 hi
    rcases isAbx_inv hi with ⟨-, hb, -⟩ | ⟨hlen, rfl⟩
    · exact Bool.noConfusion hb
    · exact ⟨hlen, hi, h⟩

/-! ## The element stack and the tree -/

theorem lt_of_getElem? {α : Type} {l : List α} {i : Nat} {a : α} (h : l[i]? = some a) :
    i < l.length := by
  by_contra hc
  rw [List.getElem?_eq_none (Nat.le_of_not_lt hc)] at h
  exact Option.noConfusion h

theorem back_inv {d : AbxDecoder} {p : Nat} {e : XMLElement} (h : d.back = .ok (p, e)) :
    d.elementStack.getLast? = some p ∧ d.heap[p]? = some e := by
  unfold AbxDecoder.back at h
  split at h
  · simp at h
  · rename_i q hq
    split at h
    · simp at h
    · rename_i e2 he
      simp only [Except.ok.injEq, Prod.mk.injEq] at h
      obtain ⟨rfl, rfl⟩ := h
      exact ⟨hq, he⟩

theorem getLast?_index {l : List Nat} {p : Nat} (h : l.getLast? = some p) :
    0 < l.length ∧ l[l.length - 1]? = some p := by
  rw [List.getLast?_eq_getElem?] at h
  have := lt_of_getElem? h
  exact ⟨by omega, h⟩

theorem lastChild_set {heap : List XMLElement} {p a c : Nat} {e e1 : XMLElement}
    (hp : heap[p]? = some e) (he : e1.subElements = e.subElements)
    (h : lastChild heap a c) : lastChild (heap.set p e1) a c := by
  obtain ⟨x, hx, hc⟩ := h
  by_cases hap : p = a
  · subst hap
    rw [hp] at hx
    simp only [Option.some.injEq] at hx
    subst hx
    exact ⟨e1, by simp [List.getElem?_set, lt_of_getElem? hp], by rw [he]; exact hc⟩
  · exact ⟨x, by simp [List.getElem?_set, hap, hx], hc⟩

/-- A pass of the loop that continues keeps the relation between the stack,
the heap and the numbers of START_TAG and END_TAG tokens processed. -/
theorem stackInv_step {k : Const} (hk : k.LabelsOk) {sgn : Bool} {d d0 d1 : AbxDecoder}
    {event s e : Nat} (hinv : StackInv d s e) (hb : readByte d = .ok (event, d0))
    (hs : parseStep k sgn d = .ok (none, d1)) :
    StackInv d1 (if event &&& 0x0f = k.TOKEN_START_TAG then s + 1 else s)
      (if event &&& 0x0f = k.TOKEN_END_TAG then e + 1 else e) := by
  obtain ⟨ev, d0x, hb2, -, hcase⟩ := parseStep_shape hs
  rw [hb] at hb2
  simp only [Except.ok.injEq, Prod.mk.injEq] at hb2
  obtain ⟨rfl, rfl⟩ := hb2
  obtain ⟨i1, i2, i3, i4, i5, i6⟩ := hinv
  have hse := (labels_distinct hk).2.2.2.2.2.2.1
  rcases hcase with ⟨hkind, -, hst, hheap⟩ | ⟨hkind, -, hst, el, hheap⟩
      | ⟨hkind, hheap, p, last, hbk, hc⟩
  · -- a pass of another kind
    obtain ⟨hn1, hn2⟩ := hkind hk
    rw [if_neg hn1, if_neg hn2]
    rcases hheap with hheap | ⟨p, x, x1, hbk, hx, hheap⟩
    · unfold StackInv
      rw [hst, hheap]
      exact ⟨i1, i2, i3, i4, i5, i6⟩
    · obtain ⟨-, hp⟩ := back_inv hbk
      unfold StackInv
      rw [hst, hheap, List.length_set]
      exact ⟨i1, i2, i3, i4, fun i a c ha hc => lastChild_set hp hx (i5 i a c ha hc), i6⟩
  · -- START_TAG
    have hne : ¬ (event &&& 0x0f = k.TOKEN_END_TAG) := by rw [hkind]; exact hse
    rw [if_pos hkind, if_neg hne]
    have hlen1 : d1.heap.length = d.heap.length + 1 := by
      rcases hheap with ⟨-, hh⟩ | ⟨p, x, -, -, hh⟩
      · rw [hh]; simp
      · rw [hh]; simp
    have hold : ∀ (i a : Nat), i < d.elementStack.length → d1.elementStack[i]? = some a →
        d.elementStack[i]? = some a := by
      intro i a hi ha
      rw [hst, List.getElem?_append, if_pos hi] at ha
      exact ha
    have hnew : ∀ (i a : Nat), d.elementStack.length ≤ i → d1.elementStack[i]? = some a →
        i = d.elementStack.length ∧ a = d.heap.length := by
      intro i a hi ha
      have hlt := lt_of_getElem? ha
      rw [hst] at hlt ha
      simp only [List.length_append, List.length_singleton] at hlt
      have hi2 : i = d.elementStack.length := by omega
      subst hi2
      simp at ha
      exact ⟨rfl, ha.symm⟩
    refine ⟨?_, by rw [hlen1, i2], ?_, ?_, ?_, ?_⟩
    · rw [hst]
      simp only [List.length_append, List.length_singleton]
      omega
    · intro i j a c hij ha hc
      have hj := lt_of_getElem? hc
      rw [hst] at hj
      simp only [List.length_append, List.length_singleton] at hj
      have hi : i < d.elementStack.length := by omega
      have ha2 := hold i a hi ha
      by_cases hjl : j < d.elementStack.length
      · exact i3 i j a c hij ha2 (hold j c hjl hc)
      · obtain ⟨-, rfl⟩ := hnew j c (Nat.le_of_not_lt hjl) hc
        exact i4 i a ha2
    · intro i a ha
      rw [hlen1]
      by_cases hil : i < d.elementStack.length
      · have := i4 i a (hold i a hil ha)
        omega
      · obtain ⟨-, rfl⟩ := hnew i a (Nat.le_of_not_lt hil) ha
        omega
    · intro i a c ha hc
      have hj := lt_of_getElem? hc
      rw [hst] at hj
      simp only [List.length_append, List.length_singleton] at hj
      have hi : i < d.elementStack.length := by omega
      have ha2 := hold i a hi ha
      have hal := i4 i a ha2
      rcases hheap with ⟨hempty, -⟩ | ⟨p, x, hlast, hx, hh⟩
      · rw [hempty] at hi
        simp at hi
      · obtain ⟨hpos, hpi⟩ := getLast?_index hlast
        have hpl := i4 _ p hpi
        have hx2 : d.heap[p]? = some x := by
          rw [List.getElem?_append, if_pos hpl] at hx
          exact hx
        by_cases hjl : i + 1 < d.elementStack.length
        · have hc2 := hold (i + 1) c hjl hc
          obtain ⟨y, hy, hyc⟩ := i5 i a c ha2 hc2
          have hap : a < p := i3 i (d.elementStack.length - 1) a p (by omega) ha2 hpi
          refine ⟨y, ?_, hyc⟩
          rw [hh, List.getElem?_set, if_neg (by omega), List.getElem?_append, if_pos hal]
          exact hy
        · obtain ⟨-, rfl⟩ := hnew (i + 1) c (Nat.le_of_not_lt hjl) hc
          have hil : i = d.elementStack.length - 1 := by omega
          subst hil
          rw [hpi] at ha2
          simp only [Option.some.injEq] at ha2
          subst ha2
          refine ⟨{ x with subElements := x.subElements ++ [d.heap.length] }, ?_, ?_⟩
          · rw [hh, List.getElem?_set, if_pos rfl, if_pos (by simp; omega)]
          · simp
    · intro _
      rcases hheap with ⟨hempty, -⟩ | ⟨p, x, hlast, -, -⟩
      · rw [hst, hempty]
        have : d.heap.length = 0 := by
          by_contra hc
          have h0 := i6 (by rw [← i2]; exact Nat.pos_of_ne_zero hc)
          rw [hempty] at h0
          simp at h0
        simp [this]
      · obtain ⟨hpos, -⟩ := getLast?_index hlast
        have h0 : d.elementStack[0]? = some 0 := i6 (by omega)
        rw [hst, List.getElem?_append, if_pos hpos]
        exact h0
  · -- END_TAG
    have hne : ¬ (event &&& 0x0f = k.TOKEN_START_TAG) := by rw [hkind]; exact hse.symm
    rw [if_neg hne, if_pos hkind]
    rcases hc with ⟨-, hr, -⟩ | ⟨hl, -, hst, -⟩
    · exact Option.noConfusion hr
    · obtain ⟨hlast, -⟩ := back_inv hbk
      obtain ⟨hpos, -⟩ := getLast?_index hlast
      have hold : ∀ (i a : Nat), d1.elementStack[i]? = some a →
          d.elementStack[i]? = some a ∧ i < d.elementStack.length - 1 := by
        intro i a ha
        rw [hst, List.getElem?_dropLast] at ha
        split at ha
        · rename_i hi
          exact ⟨ha, hi⟩
        · exact Option.noConfusion ha
      refine ⟨?_, by rw [hheap]; exact i2, ?_, ?_, ?_, ?_⟩
      · rw [hst, List.length_dropLast]
        omega
      · intro i j a c hij ha hc
        exact i3 i j a c hij (hold i a ha).1 (hold j c hc).1
      · intro i a ha
        rw [hheap]
        exact i4 i a (hold i a ha).1
      · intro i a c ha hc
        rw [hheap]
        exact i5 i a c (hold i a ha).1 (hold (i + 1) c hc).1
      · intro hs0
        rw [hst, List.getElem?_dropLast, if_pos (by omega)]
        exact i6 hs0

/-! ## C1: the end-to-end scenario -/

/-- Claim C1, as amended. End-to-end scenario.  On the stream signature,
START_DOCUMENT, START_TAG "packages", START_TAG "package", ATTRIBUTE "name" =
STRING "com.example", ATTRIBUTE "codePath" = STRING "/data/app/com.example-1",
END_TAG "package", END_TAG "packages", `parse` returns `true`; the tag name of
the root is "packages" and the root has exactly one child, of tag "package";
`findAttribute` for "name" and "codePath" on that child returns the attributes
whose values are "com.example" and "/data/app/com.example-1".  Each of these
byte strings is stored with one zero byte appended after its last byte, and
read as a C string it is the literal.  This holds for all constants of
`const.h` that are distinct labels fitting their nibble and a signature of
three non-zero bytes, and whether `char` is signed or not. -/
theorem c1_end_to_end (k : Const) (sgn : Bool) (hk : k.LabelsOk) (hm : k.MagicOk) :
    ∃ d root child nameAttr codePathAttr,
      (AbxDecoder.new (packagesStream k)).parse k sgn = .returned true d
      ∧ d.root = some 0 ∧ d.heap[0]? = some root
      ∧ root.mTagName = ascii "packages" ++ [0]
      ∧ cstr root.mTagName = .ok (ascii "packages")
      ∧ root.subElements = [1] ∧ d.heap[1]? = some child
      ∧ child.mTagName = ascii "package" ++ [0]
      ∧ cstr child.mTagName = .ok (ascii "package")
      ∧ child.findAttribute (ascii "name") = .ok (some nameAttr)
      ∧ nameAttr.mValue = ascii "com.example" ++ [0]
      ∧ cstr nameAttr.mValue = .ok (ascii "com.example")
      ∧ child.findAttribute (ascii "codePath") = .ok (some codePathAttr)
      ∧ codePathAttr.mValue = ascii "/data/app/com.example-1" ++ [0]
      ∧ cstr codePathAttr.mValue = .ok (ascii "/data/app/com.example-1") :=
  ⟨_, _, _, _, _, packages_parse k sgn hk hm, rfl, rfl, rfl, rfl, rfl, rfl, rfl, rfl, rfl, rfl,
    rfl, rfl, rfl, rfl⟩

/-- Claim C1, witness: the scenario with the constants of the Android wire format. -/
theorem c1_end_to_end_witness :
    ∃ d root child nameAttr codePathAttr,
      (AbxDecoder.new (packagesStream abxConst)).parse abxConst false = .returned true d
      ∧ d.root = some 0 ∧ d.heap[0]? = some root
      ∧ root.mTagName = ascii "packages" ++ [0]
      ∧ cstr root.mTagName = .ok (ascii "packages")
      ∧ root.subElements = [1] ∧ d.heap[1]? = some child
      ∧ child.mTagName = ascii "package" ++ [0]
      ∧ cstr child.mTagName = .ok (ascii "package")
      ∧ child.findAttribute (ascii "name") = .ok (some nameAttr)
      ∧ nameAttr.mValue = ascii "com.example" ++ [0]
      ∧ cstr nameAttr.mValue = .ok (ascii "com.example")
      ∧ child.findAttribute (ascii "codePath") = .ok (some codePathAttr)
      ∧ codePathAttr.mValue = ascii "/data/app/com.example-1" ++ [0]
      ∧ cstr codePathAttr.mValue = .ok (ascii "/data/app/com.example-1") :=
  c1_end_to_end abxConst false (by decide) (by decide)

/-- Claim C1, counterexample. On the stream of the scenario the attribute that
`findAttribute` returns for "name" on the child has a value of 12 bytes, which
is not the 11-byte string "com.example", and the one returned for "codePath"
has 24 bytes, not the 23 of "/data/app/com.example-1". -/
theorem c1_values_are_not_the_literals :
    ∃ d child nameAttr codePathAttr,
      (AbxDecoder.new (packagesStream abxConst)).parse abxConst false = .returned true d
      ∧ d.heap[1]? = some child
      ∧ child.findAttribute (ascii "name") = .ok (some nameAttr)
      ∧ nameAttr.mValue ≠ ascii "com.example" ∧ nameAttr.mValue.length = 12
      ∧ child.findAttribute (ascii "codePath") = .ok (some codePathAttr)
      ∧ codePathAttr.mValue ≠ ascii "/data/app/com.example-1"
      ∧ codePathAttr.mValue.length = 24 :=
  ⟨_, _, _, _, rfl, rfl, rfl, by decide, rfl, rfl, by decide, rfl⟩

/-! ## C2: the signature gate -/

/-- Claim C2. Signature gate.  For a signature of three non-zero bytes and the
terminator: on every buffer shorter than 5 bytes, or whose first 4 bytes are not
the signature, `parse` returns `false` and leaves `root` unassigned with no
element allocated; and on every buffer of at least 5 bytes whose first 4 bytes
are the signature, `isAbx` answers `true`, so the gate lets it through. -/
theorem c2_signature_gate (k : Const) (sgn : Bool) (input : List Nat) (hm : k.MagicOk) :
    ((input.length < 5 ∨ input.take 4 ≠ k.signature) →
      ∃ d, (AbxDecoder.new input).parse k sgn = .returned false d
        ∧ d.root = none ∧ d.heap = []) ∧
    ((5 ≤ input.length ∧ input.take 4 = k.signature) →
      isAbx k (AbxDecoder.new input) = .ok (true, { AbxDecoder.new input with curPos := 4 })) := by
  constructor
  · intro h
    by_cases hlen : input.length < 5
    · refine ⟨AbxDecoder.new input, ?_, rfl, rfl⟩
      simp [AbxDecoder.parse, isAbx_short k (AbxDecoder.new input) hlen]
    · have hne : input.take 4 ≠ k.signature := h.resolve_left hlen
      refine ⟨{ AbxDecoder.new input with curPos := 4 }, ?_, rfl, rfl⟩
      have h5 : 5 ≤ (AbxDecoder.new input).mInput.length := Nat.le_of_not_lt hlen
      have hne2 : (AbxDecoder.new input).mInput.take 4 ≠ k.signature := hne
      simp [AbxDecoder.parse, isAbx_long k hm _ h5, hne2]
  · rintro ⟨hlen, heq⟩
    have h5 : 5 ≤ (AbxDecoder.new input).mInput.length := hlen
    have heq2 : (AbxDecoder.new input).mInput.take 4 = k.signature := heq
    simp [isAbx_long k hm _ h5, heq2]

/-- Claim C2, witness: a 6-byte buffer whose fourth byte is not the terminator is
rejected, and the signature followed by one byte passes the gate. -/
theorem c2_signature_gate_witness :
    (∃ d, (AbxDecoder.new [65, 66, 88, 1, 0, 0]).parse abxConst false = .returned false d
        ∧ d.root = none ∧ d.heap = []) ∧
    isAbx abxConst (AbxDecoder.new [65, 66, 88, 0, 0])
      = .ok (true, { AbxDecoder.new [65, 66, 88, 0, 0] with curPos := 4 }) :=
  ⟨(c2_signature_gate abxConst false [65, 66, 88, 1, 0, 0] (by decide)).1 (by decide),
   (c2_signature_gate abxConst false [65, 66, 88, 0, 0] (by decide)).2 (by decide)⟩

/-! ## C3: reads at the end of the buffer -/

theorem readByte_error {d : AbxDecoder} (h : d.mInput.length < d.curPos + 1) :
    readByte d = .error .readPastEnd := by
  simp [readByte, readFromCurPos_error h]

theorem readShort_error {sgn : Bool} {d : AbxDecoder} (h : d.mInput.length < d.curPos + 2) :
    readShort sgn d = .error .readPastEnd := by
  simp [readShort, readFromCurPos_error h]

theorem readShort_inv {sgn : Bool} {d d1 : AbxDecoder} {x : Int}
    (h : readShort sgn d = .ok (x, d1)) :
    d.curPos + 2 ≤ d.mInput.length ∧ d1 = { d with curPos := d.curPos + 2 }
      ∧ x = toShort ((toUShort (charVal sgn (((d.mInput.drop d.curPos).take 2).getD 0 0)) <<< 8)
            ||| toUChar (charVal sgn (((d.mInput.drop d.curPos).take 2).getD 1 0))) := by
  unfold readShort at h
  split at h
  · simp at h
  · rename_i v d2 hv
    obtain ⟨hle, rfl, rfl⟩ := readFromCurPos_inv hv
    simp only [Except.ok.injEq, Prod.mk.injEq] at h
    exact ⟨hle, h.2.symm, h.1.symm⟩

theorem readString_body_error {sgn : Bool} {d d1 : AbxDecoder} {len : Int}
    (hs : readShort sgn d = .ok (len, d1)) (hlen : 1 ≤ len)
    (h : d.mInput.length < d.curPos + 2 + len.toNat) :
    readString sgn d = .error .readPastEnd := by
  obtain ⟨-, rfl, -⟩ := readShort_inv hs
  have hnot : ¬ len < 1 := by omega
  have hover : ({ d with curPos := d.curPos + 2 } : AbxDecoder).mInput.length
      < ({ d with curPos := d.curPos + 2 } : AbxDecoder).curPos + len.toNat := h
  simp only [readString, hs, hnot, if_false, readFromCurPos_error hover]

/-- Claim C3, as amended. Cursor reads.  A read of `n` bytes whose range
`[curPos, curPos + n)` lies in the buffer returns exactly the `n` buffer bytes
at these offsets, in order, and moves the cursor by `n`: no byte from outside
the buffer and no fill value.  When `curPos + n` exceeds the buffer length the
source makes no test: the read (`readFromCurPos`, and with it `readByte`,
`readShort`, the body of a string, the 4-byte and 8-byte blocks) is an access
outside the buffer with undefined behaviour.  A call of `parse` that reaches
such a pass of the loop is undefined: it does not return `false`. -/
theorem c3_reads_are_unchecked (k : Const) (sgn : Bool) (d : AbxDecoder) (n : Nat) :
    (d.curPos + n ≤ d.mInput.length →
      ∃ v, readFromCurPos d n = .ok (v, { d with curPos := d.curPos + n })
        ∧ v.length = n
        ∧ ∀ i, i < n → ∃ b, v[i]? = some b ∧ d.mInput[d.curPos + i]? = some b) ∧
    (d.mInput.length < d.curPos + n → readFromCurPos d n = .error .readPastEnd) ∧
    (d.mInput.length < d.curPos + 1 →
      readByte d = .error .readPastEnd ∧ parseStep k sgn d = .error .readPastEnd) ∧
    (d.mInput.length < d.curPos + 2 → readShort sgn d = .error .readPastEnd) ∧
    (∀ len d1, readShort sgn d = .ok (len, d1) → 1 ≤ len →
      d.mInput.length < d.curPos + 2 + len.toNat → readString sgn d = .error .readPastEnd) ∧
    (k.LabelsOk → d.mInput.length < d.curPos + 4 →
      ∀ dType ∈ [k.DATA_INT, k.DATA_INT_HEX, k.DATA_FLOAT],
        readAttrValue k sgn dType d = .error .readPastEnd) ∧
    (k.LabelsOk → d.mInput.length < d.curPos + 8 →
      ∀ dType ∈ [k.DATA_LONG, k.DATA_LONG_HEX, k.DATA_DOUBLE],
        readAttrValue k sgn dType d = .error .readPastEnd) ∧
    (∀ input m f, k.MagicOk → 5 ≤ input.length → input.take 4 = k.signature →
      loopState k sgn m (loopStart input) = some d → parseStep k sgn d = .error f →
      (AbxDecoder.new input).parse k sgn = .undefined f
        ∧ ∀ d1, (AbxDecoder.new input).parse k sgn ≠ .returned false d1) := by
  refine ⟨fun h => ⟨_, readFromCurPos_ok h, ?_, ?_⟩, readFromCurPos_error, fun h => ?_,
    readShort_error, fun len d1 hs hl h => readString_body_error hs hl h,
    fun hk h dType hd => ?_, fun hk h dType hd => ?_, fun input m f hm hlen hsig hl hf => ?_⟩
  · simp only [List.length_take, List.length_drop]
    omega
  · intro i hi
    have hlt : d.curPos + i < d.mInput.length := by omega
    refine ⟨d.mInput[d.curPos + i], ?_, List.getElem?_eq_getElem hlt⟩
    rw [List.getElem?_take_of_lt hi, List.getElem?_drop, List.getElem?_eq_getElem hlt]
  · exact ⟨readByte_error h, by simp [parseStep, readByte_error h]⟩
  · rw [readAttrValue_four hk sgn d hd]
    exact readFromCurPos_error h
  · rw [readAttrValue_eight hk sgn d hd]
    exact readFromCurPos_error h
  · have hp := parse_undefined_of_step hm hlen hsig hl hf
    exact ⟨hp, fun d1 hc => by rw [hp] at hc; exact Outcome.noConfusion hc⟩

/-- Claim C3, witness: reads at the end of the buffers signature + 1 byte and
signature alone, a string body and numeric blocks cut short, and `parse` on
signature + START_TAG. -/
theorem c3_reads_are_unchecked_witness :
    (∃ v, readFromCurPos (loopStart [65, 66, 88, 0, 2]) 1
          = .ok (v, { loopStart [65, 66, 88, 0, 2] with curPos := 4 + 1 })
        ∧ v.length = 1
        ∧ ∀ i, i < 1 → ∃ b, v[i]? = some b ∧ [65, 66, 88, 0, 2][4 + i]? = some b) ∧
    readFromCurPos (loopStart [65, 66, 88, 0, 2]) 2 = .error .readPastEnd ∧
    (readByte (loopStart [65, 66, 88, 0]) = .error .readPastEnd
      ∧ parseStep abxConst false (loopStart [65, 66, 88, 0]) = .error .readPastEnd) ∧
    readShort false (loopStart [65, 66, 88, 0, 2]) = .error .readPastEnd ∧
    readString false (loopStart [65, 66, 88, 0, 0, 2, 104]) = .error .readPastEnd ∧
    (∀ dType ∈ [abxConst.DATA_INT, abxConst.DATA_INT_HEX, abxConst.DATA_FLOAT],
      readAttrValue abxConst false dType (loopStart [65, 66, 88, 0, 1, 2, 3])
        = .error .readPastEnd) ∧
    (∀ dType ∈ [abxConst.DATA_LONG, abxConst.DATA_LONG_HEX, abxConst.DATA_DOUBLE],
      readAttrValue abxConst false dType (loopStart [65, 66, 88, 0, 1, 2, 3, 4, 5, 6, 7])
        = .error .readPastEnd) ∧
    ((AbxDecoder.new [65, 66, 88, 0, 2]).parse abxConst false = .undefined .readPastEnd
      ∧ ∀ d1, (AbxDecoder.new [65, 66, 88, 0, 2]).parse abxConst false
          ≠ .returned false d1) :=
  ⟨(c3_reads_are_unchecked abxConst false (loopStart [65, 66, 88, 0, 2]) 1).1 (by decide),
   (c3_reads_are_unchecked abxConst false (loopStart [65, 66, 88, 0, 2]) 2).2.1 (by decide),
   (c3_reads_are_unchecked abxConst false (loopStart [65, 66, 88, 0]) 0).2.2.1 (by decide),
   (c3_reads_are_unchecked abxConst false (loopStart [65, 66, 88, 0, 2]) 0).2.2.2.1 (by decide),
   (c3_reads_are_unchecked abxConst false (loopStart [65, 66, 88, 0, 0, 2, 104]) 0).2.2.2.2.1
     2 { loopStart [65, 66, 88, 0, 0, 2, 104] with curPos := 6 } rfl (by decide) (by decide),
   (c3_reads_are_unchecked abxConst false (loopStart [65, 66, 88, 0, 1, 2, 3]) 0).2.2.2.2.2.1
     (by decide) (by decide),
   (c3_reads_are_unchecked abxConst false
     (loopStart [65, 66, 88, 0, 1, 2, 3, 4, 5, 6, 7]) 0).2.2.2.2.2.2.1 (by decide) (by decide),
   (c3_reads_are_unchecked abxConst false (loopStart [65, 66, 88, 0, 2]) 0).2.2.2.2.2.2.2
     [65, 66, 88, 0, 2] 0 .readPastEnd (by decide) (by decide) (by decide) rfl rfl⟩

/-- Claim C3, counterexample. On the 5-byte buffer made of the signature and a
START_TAG header byte, the read of the 2-byte name index leaves the buffer.
The call of `parse` is undefined there: it is not a `return false`. -/
theorem c3_truncated_buffer_is_undefined :
    readShort false { loopStart (abxConst.signature ++ [abxConst.TOKEN_START_TAG])
                        with curPos := 5 } = .error .readPastEnd
    ∧ (AbxDecoder.new (abxConst.signature ++ [abxConst.TOKEN_START_TAG])).parse abxConst false
        = .undefined .readPastEnd
    ∧ ¬ ∃ d, (AbxDecoder.new (abxConst.signature ++ [abxConst.TOKEN_START_TAG])).parse
        abxConst false = .returned false d :=
  ⟨rfl, rfl, by
    rintro ⟨d, h⟩
    have h2 : (AbxDecoder.new (abxConst.signature ++ [abxConst.TOKEN_START_TAG])).parse
        abxConst false = .undefined .readPastEnd := rfl
    rw [h2] at h
    exact Outcome.noConfusion h⟩

/-! ## C4: length-prefixed strings -/

theorem readString_empty {sgn : Bool} {d d1 : AbxDecoder} {len : Int}
    (hs : readShort sgn d = .ok (len, d1)) (hlen : len < 1) :
    readString sgn d = .ok ([], d1) := by
  simp only [readString, hs, hlen, if_true]

theorem readString_body {sgn : Bool} {d : AbxDecoder} {len : Int}
    (hs : readShort sgn d = .ok (len, { d with curPos := d.curPos + 2 })) (hlen : 1 ≤ len)
    (h : d.curPos + 2 + len.toNat ≤ d.mInput.length) :
    readString sgn d = .ok ((d.mInput.drop (d.curPos + 2)).take len.toNat ++ [0],
      { d with curPos := d.curPos + 2 + len.toNat }) := by
  have hnot : ¬ len < 1 := by omega
  have hin : ({ d with curPos := d.curPos + 2 } : AbxDecoder).curPos + len.toNat
      ≤ ({ d with curPos := d.curPos + 2 } : AbxDecoder).mInput.length := h
  simp only [readString, hs, hnot, if_false, readFromCurPos_ok hin]

/-- Claim C4, as amended. Length-prefixed string rule.  With the bytes `hi`, `lo`
at the cursor, `readShort` gives the signed 16-bit number `len` of high byte
`hi` and low byte `lo`.  If `len < 1`, `readString` returns the empty byte
string and takes the 2 length bytes only.  Otherwise, when the next `len`
bytes lie in the buffer, it returns these `len` raw bytes followed by one zero
byte appended by the decoder, a byte string of length `len + 1`, and moves the
cursor by `2 + len`.  This string, zero byte included, is the value stored for
an attribute of kind STRING, BYTES_HEX or BYTES_BASE64 and for a text or markup
token. -/
theorem c4_length_prefixed_string (k : Const) (sgn : Bool) (d : AbxDecoder) (hi lo : Nat)
    (len : Int) (hhi : d.mInput[d.curPos]? = some hi) (hlo : d.mInput[d.curPos + 1]? = some lo)
    (h1 : hi < 256) (h2 : lo < 256) (hlen : len = toShort (hi * 256 + lo)) :
    readShort sgn d = .ok (len, { d with curPos := d.curPos + 2 }) ∧
    (len < 1 → readString sgn d = .ok ([], { d with curPos := d.curPos + 2 })) ∧
    (1 ≤ len → d.curPos + 2 + len.toNat ≤ d.mInput.length →
      readString sgn d = .ok ((d.mInput.drop (d.curPos + 2)).take len.toNat ++ [0],
        { d with curPos := d.curPos + 2 + len.toNat })
      ∧ ((d.mInput.drop (d.curPos + 2)).take len.toNat ++ [0]).length = len.toNat + 1) ∧
    (∀ d0 attrName tType dType v d1 p e, k.LabelsOk →
      readInternedString sgn d0 = .ok (attrName, d) →
      dType ∈ [k.DATA_STRING, k.DATA_BYTES_HEX, k.DATA_BYTES_BASE64] →
      readString sgn d = .ok (v, d1) → d1.back = .ok (p, e) →
      stepAttribute k sgn tType dType d0 = .ok (none,
        { d1 with heap := (d1.heap.set p
            (e.pushAttribute sgn attrName (XMLAttribute.new tType v))) })) ∧
    (∀ tType v d1 p e, readString sgn d = .ok (v, d1) → d1.back = .ok (p, e) →
      stepText sgn tType d = .ok (none,
        { d1 with heap := (d1.heap.set p
            { e with textSections := e.textSections ++ [XMLAttribute.new tType v] }) })) := by
  have hs : readShort sgn d = .ok (len, { d with curPos := d.curPos + 2 }) :=
    hlen ▸ readShort_bytes hhi hlo h1 h2
  refine ⟨hs, readString_empty hs, fun hl hin => ⟨readString_body hs hl hin, ?_⟩,
    fun d0 attrName tType dType v d1 p e hk hn hd hv hb => ?_,
    fun tType v d1 p e hv hb => ?_⟩
  · simp only [List.length_append, List.length_take, List.length_drop, List.length_singleton]
    omega
  · simp only [stepAttribute, hn, readAttrValue_string hk sgn d hd, hv,
      AbxDecoder.updateBack, hb]
  · simp only [stepText, hv, AbxDecoder.updateBack, hb]

/-- Claim C4, witness: the length 0, the length 2 with the bytes `104, 105`, and
the same string as the value of a STRING attribute and of a TEXT token. -/
theorem c4_length_prefixed_string_witness :
    (readShort false (AbxDecoder.new [0, 0, 7])
        = .ok (0, { AbxDecoder.new [0, 0, 7] with curPos := 2 })
      ∧ readString false (AbxDecoder.new [0, 0, 7])
        = .ok ([], { AbxDecoder.new [0, 0, 7] with curPos := 2 })) ∧
    (readString false (AbxDecoder.new [0, 2, 104, 105, 7])
        = .ok ([104, 105, 0], { AbxDecoder.new [0, 2, 104, 105, 7] with curPos := 4 })
      ∧ [104, 105, 0].length = 2 + 1) ∧
    stepAttribute abxConst false 15 32
        ⟨0, [0, 0, 0, 2, 104, 105], [[110, 0]], [0], false, false, none,
          [XMLElement.new [97, 0]], []⟩
      = .ok (none, ⟨6, [0, 0, 0, 2, 104, 105], [[110, 0]], [0], false, false, none,
          [⟨[97, 0], [([110, 0], ⟨[104, 105, 0], 15⟩)], [], []⟩], []⟩) ∧
    stepText false 4
        ⟨0, [0, 2, 104, 105], [], [0], false, false, none, [XMLElement.new [97, 0]], []⟩
      = .ok (none, ⟨4, [0, 2, 104, 105], [], [0], false, false, none,
          [⟨[97, 0], [], [⟨[104, 105, 0], 4⟩], []⟩], []⟩) :=
  ⟨⟨(c4_length_prefixed_string abxConst false (AbxDecoder.new [0, 0, 7]) 0 0 0
        rfl rfl (by decide) (by decide) (by decide)).1,
    (c4_length_prefixed_string abxConst false (AbxDecoder.new [0, 0, 7]) 0 0 0
        rfl rfl (by decide) (by decide) (by decide)).2.1 (by decide)⟩,
   (c4_length_prefixed_string abxConst false (AbxDecoder.new [0, 2, 104, 105, 7]) 0 2 2
        rfl rfl (by decide) (by decide) (by decide)).2.2.1 (by decide) (by decide),
   (c4_length_prefixed_string abxConst false
        ⟨2, [0, 0, 0, 2, 104, 105], [[110, 0]], [0], false, false, none,
          [XMLElement.new [97, 0]], []⟩ 0 2 2
        rfl rfl (by decide) (by decide) (by decide)).2.2.2.1
      ⟨0, [0, 0, 0, 2, 104, 105], [[110, 0]], [0], false, false, none,
          [XMLElement.new [97, 0]], []⟩ [110, 0] 15 32 [104, 105, 0]
      ⟨6, [0, 0, 0, 2, 104, 105], [[110, 0]], [0], false, false, none,
          [XMLElement.new [97, 0]], []⟩ 0 (XMLElement.new [97, 0])
      (by decide) rfl (by decide) rfl rfl,
   (c4_length_prefixed_string abxConst false
        ⟨0, [0, 2, 104, 105], [], [0], false, false, none, [XMLElement.new [97, 0]], []⟩ 0 2 2
        rfl rfl (by decide) (by decide) (by decide)).2.2.2.2 4 [104, 105, 0]
      ⟨4, [0, 2, 104, 105], [], [0], false, false, none, [XMLElement.new [97, 0]], []⟩
      0 (XMLElement.new [97, 0]) rfl rfl⟩

/-- Claim C4, counterexample. With the length bytes `0, 2` and the bytes `104,
105` at the cursor, `readString` returns the three bytes `104, 105, 0`: a zero
byte has been added to the two raw bytes, and the result is not the byte string
of length 2 the rule promises.  With only one of the two bytes left in the
buffer it returns nothing: the read leaves the buffer. -/
theorem c4_readString_appends_zero :
    readString false (AbxDecoder.new [0, 2, 104, 105])
        = .ok ([104, 105, 0], { AbxDecoder.new [0, 2, 104, 105] with curPos := 4 })
    ∧ ([104, 105, 0] : List Nat) ≠ [104, 105]
    ∧ ([104, 105, 0] : List Nat).length ≠ 2
    ∧ readString false (AbxDecoder.new [0, 2, 104]) = .error .readPastEnd :=
  ⟨rfl, by decide, by decide, rfl⟩

/-! ## C5, C6, C7: what an ATTRIBUTE token stores -/

/-- Claim C5, the code at the failing input. On the stream START_TAG "a",
ATTRIBUTE "n" of kind NULL, ATTRIBUTE "f" of kind BOOLEAN_FALSE, ATTRIBUTE "t"
of kind BOOLEAN_TRUE, END_TAG "a", `parse` returns `true` and the values
stored for "f", "n" and "t" are the byte strings "fals", "nul" and "tru": each
literal without its last byte, so none of them is "false", "null" or "true".
The cursor stops right after the END_TAG, at the end of the stream: the three
tokens took no byte beyond their header byte and name. -/
theorem c5_literals_lose_last_byte :
    ∃ d root,
      (AbxDecoder.new (literalsStream abxConst)).parse abxConst false = .returned true d
      ∧ d.heap[0]? = some root
      ∧ root.attributes.map (fun p => (p.1, p.2.mValue))
          = [(ascii "f" ++ [0], ascii "fals"), (ascii "n" ++ [0], ascii "nul"),
             (ascii "t" ++ [0], ascii "tru")]
      ∧ ascii "fals" ≠ ascii "false" ∧ ascii "nul" ≠ ascii "null"
      ∧ ascii "tru" ≠ ascii "true"
      ∧ readAttrValue abxConst false abxConst.DATA_NULL d = .ok (ascii "nul", d)
      ∧ readAttrValue abxConst false abxConst.DATA_BOOLEAN_FALSE d = .ok (ascii "fals", d)
      ∧ readAttrValue abxConst false abxConst.DATA_BOOLEAN_TRUE d = .ok (ascii "tru", d)
      ∧ d.curPos = (literalsStream abxConst).length :=
  ⟨_, _, rfl, rfl, rfl, by decide, by decide, by decide, rfl, rfl, rfl, rfl⟩

/-- Claim C6, the code at the failing input. On the stream START_TAG "a",
ATTRIBUTE "s" = STRING "x", ATTRIBUTE "i" = INT 0 0 0 7, ATTRIBUTE "b" of kind
BOOLEAN_TRUE, END_TAG "a", `parse` returns `true` and the three attributes
carry the same tag `mDataType`: the token kind ATTRIBUTE, not their data kinds
BOOLEAN_TRUE, INT and STRING. -/
theorem c6_tag_is_the_token_kind :
    ∃ d root,
      (AbxDecoder.new (kindsStream abxConst)).parse abxConst false = .returned true d
      ∧ d.heap[0]? = some root
      ∧ root.attributes.map (fun p => (p.1, p.2.mDataType))
          = [(ascii "b" ++ [0], abxConst.TOKEN_ATTRIBUTE),
             (ascii "i" ++ [0], abxConst.TOKEN_ATTRIBUTE),
             (ascii "s" ++ [0], abxConst.TOKEN_ATTRIBUTE)]
      ∧ abxConst.TOKEN_ATTRIBUTE ≠ abxConst.DATA_BOOLEAN_TRUE
      ∧ abxConst.TOKEN_ATTRIBUTE ≠ abxConst.DATA_INT
      ∧ abxConst.TOKEN_ATTRIBUTE ≠ abxConst.DATA_STRING :=
  ⟨_, _, rfl, rfl, rfl, by decide, by decide, by decide⟩

/-- Claim C7, the code at the failing input. The header byte `0x0F` has token
kind ATTRIBUTE and data kind 0, which is none of the thirteen data kinds.  On
the stream START_TAG "a", that header with the name "b", END_TAG "a", `parse`
returns `true`, and the attribute "b" has been inserted into the element with
an empty value. -/
theorem c7_unlisted_kind_is_accepted :
    ∃ d root,
      (0x0f &&& 0x0f = abxConst.TOKEN_ATTRIBUTE) ∧ (0x0f &&& 0xf0) ∉ abxConst.dataKinds
      ∧ kindStream abxConst 0 = abxConst.signature
          ++ [abxConst.TOKEN_START_TAG] ++ literalRef (ascii "a")
          ++ [0x0f] ++ literalRef (ascii "b") ++ [abxConst.TOKEN_END_TAG] ++ backRef 0
      ∧ (AbxDecoder.new (kindStream abxConst 0)).parse abxConst false = .returned true d
      ∧ d.root = some 0 ∧ d.heap[0]? = some root
      ∧ root.attributes = [(ascii "b" ++ [0], XMLAttribute.new abxConst.TOKEN_ATTRIBUTE [])] :=
  ⟨_, _, by decide, by decide, rfl, rfl, rfl, rfl, rfl⟩

/-! ## C8: back-references into the intern table -/

theorem readInternedString_out_of_range {sgn : Bool} {d d1 : AbxDecoder} {idx : Int}
    (hs : readShort sgn d = .ok (idx, d1)) (h0 : 0 ≤ idx)
    (hn : d.internedStrings.length ≤ idx.toNat) :
    readInternedString sgn d = .error .internOutOfRange := by
  obtain ⟨-, rfl, -⟩ := readShort_inv hs
  have hnot : ¬ idx < 0 := by omega
  have hnone : d.internedStrings[idx.toNat]? = none := List.getElem?_eq_none hn
  simp only [readInternedString, hs, hnot, if_false, hnone]

/-- Claim C8, as amended. Back-reference out of range.  When the 16-bit index
`idx` read by `readInternedString` is non-negative and at least the size of the
intern table, the source makes no test: it advances `internedStrings.begin()`
by `idx` and dereferences the iterator, which is undefined behaviour.  No
string is returned.  This holds where the index is a tag name (START_TAG,
END_TAG), an attribute name, or the value of a STRING_INTERNED attribute; a
call of `parse` that reaches such a token is undefined and does not
return `false`. -/
theorem c8_back_reference_unchecked (k : Const) (sgn : Bool) (d d1 : AbxDecoder) (idx : Int)
    (hs : readShort sgn d = .ok (idx, d1)) (h0 : 0 ≤ idx)
    (hn : d.internedStrings.length ≤ idx.toNat) :
    readInternedString sgn d = .error .internOutOfRange ∧
    (∀ d0 event, k.LabelsOk → readByte d0 = .ok (event, d) →
      event &&& 0x0f ∈ [k.TOKEN_ATTRIBUTE, k.TOKEN_START_TAG, k.TOKEN_END_TAG] →
      parseStep k sgn d0 = .error .internOutOfRange) ∧
    (∀ d0 event dn attrName, k.LabelsOk → readByte d0 = .ok (event, dn) →
      event &&& 0x0f = k.TOKEN_ATTRIBUTE → event &&& 0xf0 = k.DATA_STRING_INTERNED →
      readInternedString sgn dn = .ok (attrName, d) →
      parseStep k sgn d0 = .error .internOutOfRange) ∧
    (∀ input m d0, k.MagicOk → 5 ≤ input.length → input.take 4 = k.signature →
      loopState k sgn m (loopStart input) = some d0 →
      parseStep k sgn d0 = .error .internOutOfRange →
      (AbxDecoder.new input).parse k sgn = .undefined .internOutOfRange
        ∧ ∀ b d2, (AbxDecoder.new input).parse k sgn ≠ .returned b d2) := by
  have hr := readInternedString_out_of_range hs h0 hn
  refine ⟨hr, fun d0 event hk hb ht => ?_, fun d0 event dn attrName hk hb ht hd hname => ?_,
    fun input m d0 hm hlen hsig hl hf => ?_⟩
  · simp only [List.mem_cons, List.mem_singleton, List.not_mem_nil, or_false] at ht
    rcases ht with h | h | h
    · rw [parseStep_attribute hb h]
      simp only [stepAttribute, hr]
    · rw [parseStep_startTag hk hb h]
      simp only [stepStartTag, hr]
    · rw [parseStep_endTag hk hb h]
      simp only [stepEndTag, hr]
  · rw [parseStep_attribute hb ht]
    simp only [stepAttribute, hname, hd, readAttrValue_interned hk, hr]
  · have hp := parse_undefined_of_step hm hlen hsig hl hf
    exact ⟨hp, fun b d2 hc => by rw [hp] at hc; exact Outcome.noConfusion hc⟩

/-- Claim C8, witness: the index 0 as a tag name with an empty table, and the
index 1 as a STRING_INTERNED value with a table of one entry. -/
theorem c8_back_reference_unchecked_witness :
    readInternedString false { loopStart [65, 66, 88, 0, 2, 0, 0] with curPos := 5 }
      = .error .internOutOfRange ∧
    parseStep abxConst false (loopStart [65, 66, 88, 0, 2, 0, 0]) = .error .internOutOfRange ∧
    parseStep abxConst false (loopStart [65, 66, 88, 0, 63, 255, 255, 0, 1, 110, 0, 1])
      = .error .internOutOfRange ∧
    ((AbxDecoder.new [65, 66, 88, 0, 2, 0, 0]).parse abxConst false
        = .undefined .internOutOfRange
      ∧ ∀ b d2, (AbxDecoder.new [65, 66, 88, 0, 2, 0, 0]).parse abxConst false
          ≠ .returned b d2) :=
  ⟨(c8_back_reference_unchecked abxConst false
      { loopStart [65, 66, 88, 0, 2, 0, 0] with curPos := 5 }
      { loopStart [65, 66, 88, 0, 2, 0, 0] with curPos := 7 } 0 rfl (by decide) (by decide)).1,
   (c8_back_reference_unchecked abxConst false
      { loopStart [65, 66, 88, 0, 2, 0, 0] with curPos := 5 }
      { loopStart [65, 66, 88, 0, 2, 0, 0] with curPos := 7 } 0 rfl (by decide)
      (by decide)).2.1 (loopStart [65, 66, 88, 0, 2, 0, 0]) 2 (by decide) rfl (by decide),
   (c8_back_reference_unchecked abxConst false
      { loopStart [65, 66, 88, 0, 63, 255, 255, 0, 1, 110, 0, 1] with
          curPos := 10, internedStrings := [[110, 0]] }
      { loopStart [65, 66, 88, 0, 63, 255, 255, 0, 1, 110, 0, 1] with
          curPos := 12, internedStrings := [[110, 0]] } 1 rfl (by decide)
      (by decide)).2.2.1 (loopStart [65, 66, 88, 0, 63, 255, 255, 0, 1, 110, 0, 1]) 63
      { loopStart [65, 66, 88, 0, 63, 255, 255, 0, 1, 110, 0, 1] with curPos := 5 } [110, 0]
      (by decide) rfl (by decide) (by decide) rfl,
   (c8_back_reference_unchecked abxConst false
      { loopStart [65, 66, 88, 0, 2, 0, 0] with curPos := 5 }
      { loopStart [65, 66, 88, 0, 2, 0, 0] with curPos := 7 } 0 rfl (by decide)
      (by decide)).2.2.2 [65, 66, 88, 0, 2, 0, 0] 0 (loopStart [65, 66, 88, 0, 2, 0, 0])
      (by decide) (by decide) (by decide) rfl rfl⟩

/-- Claim C8, counterexample. On the signature followed by START_TAG and the
index 0, read while the intern table is empty, the call of `parse` is
undefined (no table entry exists at index 0): it does not return `false`. -/
theorem c8_index_into_empty_table_is_undefined :
    (loopStart (abxConst.signature ++ [abxConst.TOKEN_START_TAG] ++ backRef 0)).internedStrings
        = []
    ∧ (AbxDecoder.new (abxConst.signature ++ [abxConst.TOKEN_START_TAG] ++ backRef 0)).parse
        abxConst false = .undefined .internOutOfRange
    ∧ ¬ ∃ d, (AbxDecoder.new (abxConst.signature ++ [abxConst.TOKEN_START_TAG]
        ++ backRef 0)).parse abxConst false = .returned false d :=
  ⟨rfl, rfl, by
    rintro ⟨d, h⟩
    have h2 : (AbxDecoder.new (abxConst.signature ++ [abxConst.TOKEN_START_TAG]
        ++ backRef 0)).parse abxConst false = .undefined .internOutOfRange := rfl
    rw [h2] at h
    exact Outcome.noConfusion h⟩

/-! ## C9: attribute and text tokens outside an element -/

theorem stepAttribute_empty_stack {k : Const} {sgn : Bool} {tType dType : Nat}
    {d : AbxDecoder} (hstack : d.elementStack = []) :
    (∃ f, stepAttribute k sgn tType dType d = .error f) ∧
    (∀ attrName d1 value d2, readInternedString sgn d = .ok (attrName, d1) →
      readAttrValue k sgn dType d1 = .ok (value, d2) →
      stepAttribute k sgn tType dType d = .error .emptyStack) := by
  have key : ∀ attrName d1 value d2, readInternedString sgn d = .ok (attrName, d1) →
      readAttrValue k sgn dType d1 = .ok (value, d2) →
      stepAttribute k sgn tType dType d = .error .emptyStack := by
    intro attrName d1 value d2 hn hv
    have h1 := readInternedString_reads hn
    have h2 := readAttrValue_reads h1.curPos.2 hv
    have hs : d2.elementStack = [] := by rw [h2.elementStack, h1.elementStack, hstack]
    simp only [stepAttribute, hn, hv, updateBack_of_empty _ hs]
  refine ⟨?_, key⟩
  cases hn : readInternedString sgn d with
  | error f => exact ⟨f, by simp only [stepAttribute, hn]⟩
  | ok r =>
    obtain ⟨attrName, d1⟩ := r
    cases hv : readAttrValue k sgn dType d1 with
    | error f => exact ⟨f, by simp only [stepAttribute, hn, hv]⟩
    | ok r2 =>
      obtain ⟨value, d2⟩ := r2
      exact ⟨_, key attrName d1 value d2 hn hv⟩

theorem stepText_empty_stack {sgn : Bool} {tType : Nat} {d : AbxDecoder}
    (hstack : d.elementStack = []) :
    (∃ f, stepText sgn tType d = .error f) ∧
    (∀ readVal d1, readString sgn d = .ok (readVal, d1) →
      stepText sgn tType d = .error .emptyStack) := by
  have key : ∀ readVal d1, readString sgn d = .ok (readVal, d1) →
      stepText sgn tType d = .error .emptyStack := by
    intro readVal d1 hv
    have hs : d1.elementStack = [] := by rw [(readString_reads hv).elementStack, hstack]
    simp only [stepText, hv, updateBack_of_empty _ hs]
  refine ⟨?_, key⟩
  cases hv : readString sgn d with
  | error f => exact ⟨f, by simp only [stepText, hv]⟩
  | ok r =>
    obtain ⟨readVal, d1⟩ := r
    exact ⟨_, key readVal d1 hv⟩

/-- Claim C9, as amended. Attribute or text token outside an element.  When the
loop reads a header byte of token kind ATTRIBUTE, or TEXT, CDATA_SECTION,
PROCESSING_INSTRUCTION, COMMENT, DOC_DECL or IGNORABLE_WHITESPACE, while the
element stack is empty, the source makes no test: it reads the name and the
value of the token and calls `elementStack.back()` on the empty vector, which
is undefined behaviour.  The pass never completes and never returns: a call of
`parse` that reaches such a token is undefined, it does not return `false`,
and no document is produced. -/
theorem c9_token_outside_element (k : Const) (sgn : Bool) (d0 d : AbxDecoder) (event : Nat)
    (hk : k.LabelsOk) (hb : readByte d0 = .ok (event, d)) (hstack : d0.elementStack = [])
    (ht : event &&& 0x0f ∈ [k.TOKEN_ATTRIBUTE, k.TOKEN_TEXT, k.TOKEN_CDSECT,
      k.TOKEN_PROCESSING_INSTRUCTION, k.TOKEN_COMMENT, k.TOKEN_DOCDECL,
      k.TOKEN_IGNORABLE_WHITESPACE]) :
    (∃ f, parseStep k sgn d0 = .error f) ∧
    (∀ attrName d1 value d2, event &&& 0x0f = k.TOKEN_ATTRIBUTE →
      readInternedString sgn d = .ok (attrName, d1) →
      readAttrValue k sgn (event &&& 0xf0) d1 = .ok (value, d2) →
      parseStep k sgn d0 = .error .emptyStack) ∧
    (∀ readVal d1, event &&& 0x0f ≠ k.TOKEN_ATTRIBUTE →
      readString sgn d = .ok (readVal, d1) →
      parseStep k sgn d0 = .error .emptyStack) ∧
    (∀ input m, k.MagicOk → 5 ≤ input.length → input.take 4 = k.signature →
      loopState k sgn m (loopStart input) = some d0 →
      ∃ f, (AbxDecoder.new input).parse k sgn = .undefined f
        ∧ ∀ b d2, (AbxDecoder.new input).parse k sgn ≠ .returned b d2) := by
  have hr := readByte_reads hb
  have hs : d.elementStack = [] := by rw [hr.elementStack, hstack]
  have hstep : parseStep k sgn d0
      = (if event &&& 0x0f = k.TOKEN_ATTRIBUTE
          then stepAttribute k sgn (event &&& 0x0f) (event &&& 0xf0) d
          else stepText sgn (event &&& 0x0f) d) := by
    by_cases h : event &&& 0x0f = k.TOKEN_ATTRIBUTE
    · rw [if_pos h, parseStep_attribute hb h]
    · rw [if_neg h]
      refine parseStep_text hk hb ?_
      simp only [List.mem_cons, List.mem_singleton, List.not_mem_nil, or_false] at ht ⊢
      exact ht.resolve_left h
  have hex : ∃ f, parseStep k sgn d0 = .error f := by
    rw [hstep]
    split
    · exact (stepAttribute_empty_stack hs).1
    · exact (stepText_empty_stack hs).1
  refine ⟨hex, fun attrName d1 value d2 h hn hv => ?_, fun readVal d1 h hv => ?_,
    fun input m hm hlen hsig hl => ?_⟩
  · rw [hstep, if_pos h]
    exact (stepAttribute_empty_stack hs).2 attrName d1 value d2 hn hv
  · rw [hstep, if_neg h]
    exact (stepText_empty_stack hs).2 readVal d1 hv
  · obtain ⟨f, hf⟩ := hex
    have hp := parse_undefined_of_step hm hlen hsig hl hf
    exact ⟨f, hp, fun b d2 hc => by rw [hp] at hc; exact Outcome.noConfusion hc⟩

/-- Claim C9, witness: an ATTRIBUTE token of kind NULL and a TEXT token directly
after the signature. -/
theorem c9_token_outside_element_witness :
    (∃ f, parseStep abxConst false (loopStart [65, 66, 88, 0, 31, 255, 255, 0, 1, 97])
        = .error f) ∧
    parseStep abxConst false (loopStart [65, 66, 88, 0, 31, 255, 255, 0, 1, 97])
      = .error .emptyStack ∧
    parseStep abxConst false (loopStart [65, 66, 88, 0, 4, 0, 1, 120]) = .error .emptyStack ∧
    (∃ f, (AbxDecoder.new [65, 66, 88, 0, 4, 0, 1, 120]).parse abxConst false = .undefined f
      ∧ ∀ b d2, (AbxDecoder.new [65, 66, 88, 0, 4, 0, 1, 120]).parse abxConst false
          ≠ .returned b d2) :=
  ⟨(c9_token_outside_element abxConst false
      (loopStart [65, 66, 88, 0, 31, 255, 255, 0, 1, 97])
      { loopStart [65, 66, 88, 0, 31, 255, 255, 0, 1, 97] with curPos := 5 } 31
      (by decide) rfl rfl (by decide)).1,
   (c9_token_outside_element abxConst false
      (loopStart [65, 66, 88, 0, 31, 255, 255, 0, 1, 97])
      { loopStart [65, 66, 88, 0, 31, 255, 255, 0, 1, 97] with curPos := 5 } 31
      (by decide) rfl rfl (by decide)).2.1 [97, 0]
      { loopStart [65, 66, 88, 0, 31, 255, 255, 0, 1, 97] with
          curPos := 10, internedStrings := [[97, 0]] } [110, 117, 108]
      { loopStart [65, 66, 88, 0, 31, 255, 255, 0, 1, 97] with
          curPos := 10, internedStrings := [[97, 0]] } (by decide) rfl rfl,
   (c9_token_outside_element abxConst false (loopStart [65, 66, 88, 0, 4, 0, 1, 120])
      { loopStart [65, 66, 88, 0, 4, 0, 1, 120] with curPos := 5 } 4
      (by decide) rfl rfl (by decide)).2.2.1 [120, 0]
      { loopStart [65, 66, 88, 0, 4, 0, 1, 120] with curPos := 8 } (by decide) rfl,
   (c9_token_outside_element abxConst false (loopStart [65, 66, 88, 0, 4, 0, 1, 120])
      { loopStart [65, 66, 88, 0, 4, 0, 1, 120] with curPos := 5 } 4
      (by decide) rfl rfl (by decide)).2.2.2 [65, 66, 88, 0, 4, 0, 1, 120] 0
      (by decide) (by decide) (by decide) rfl⟩

/-- Claim C9, counterexample. Directly after the signature, an ATTRIBUTE token
of kind NULL with the name "a", and likewise a TEXT token "x" after
START_DOCUMENT, reach `elementStack.back()` with the stack empty.  The call of
`parse` is undefined there: it does not return `false`. -/
theorem c9_outside_element_is_undefined :
    (AbxDecoder.new (abxConst.signature
        ++ [abxConst.DATA_NULL ||| abxConst.TOKEN_ATTRIBUTE] ++ literalRef (ascii "a"))).parse
      abxConst false = .undefined .emptyStack
    ∧ (AbxDecoder.new (abxConst.signature ++ [abxConst.TOKEN_START_DOCUMENT]
        ++ [abxConst.TOKEN_TEXT] ++ lenPrefixed (ascii "x"))).parse
      abxConst false = .undefined .emptyStack
    ∧ ¬ ∃ d, (AbxDecoder.new (abxConst.signature
        ++ [abxConst.DATA_NULL ||| abxConst.TOKEN_ATTRIBUTE] ++ literalRef (ascii "a"))).parse
      abxConst false = .returned false d :=
  ⟨rfl, rfl, by
    rintro ⟨d, h⟩
    have h2 : (AbxDecoder.new (abxConst.signature
        ++ [abxConst.DATA_NULL ||| abxConst.TOKEN_ATTRIBUTE] ++ literalRef (ascii "a"))).parse
      abxConst false = .undefined .emptyStack := rfl
    rw [h2] at h
    exact Outcome.noConfusion h⟩

/-! ## C10: the order of the attributes of an element -/

theorem mapEmplace_keys_subset (sgn : Bool) (name : List Nat) (attr : XMLAttribute) :
    ∀ (m : List (List Nat × XMLAttribute)) (n : List Nat),
      n ∈ (mapEmplace sgn name attr m).map Prod.fst → n = name ∨ n ∈ m.map Prod.fst
  | [], n, h => by
    simp only [mapEmplace, List.map_cons, List.map_nil, List.mem_singleton] at h
    exact Or.inl h
  | (key, a) :: rest, n, h => by
    simp only [mapEmplace] at h
    split at h
    · simp only [List.map_cons, List.mem_cons] at h ⊢
      exact h
    · split at h
      · simp only [List.map_cons, List.mem_cons] at h ⊢
        rcases h with h | h
        · exact Or.inr (Or.inl h)
        · rcases mapEmplace_keys_subset sgn name attr rest n h with h | h
          · exact Or.inl h
          · exact Or.inr (Or.inr h)
      · exact Or.inr h

theorem mapEmplace_keys_superset (sgn : Bool) (name : List Nat) (attr : XMLAttribute) :
    ∀ (m : List (List Nat × XMLAttribute)) (n : List Nat),
      n ∈ m.map Prod.fst → n ∈ (mapEmplace sgn name attr m).map Prod.fst
  | [], n, h => by simp at h
  | (key, a) :: rest, n, h => by
    simp only [mapEmplace]
    split
    · simp only [List.map_cons, List.mem_cons] at h ⊢
      exact Or.inr h
    · split
      · simp only [List.map_cons, List.mem_cons] at h ⊢
        rcases h with h | h
        · exact Or.inl h
        · exact Or.inr (mapEmplace_keys_superset sgn name attr rest n h)
      · exact h

theorem mapEmplace_mem_name (sgn : Bool) (name : List Nat) (attr : XMLAttribute)
    (hname : ∀ b ∈ name, b < 256) :
    ∀ (m : List (List Nat × XMLAttribute)), (∀ n ∈ m.map Prod.fst, ∀ b ∈ n, b < 256) →
      name ∈ (mapEmplace sgn name attr m).map Prod.fst
  | [], _ => by simp [mapEmplace]
  | (key, a) :: rest, hm => by
    simp only [mapEmplace]
    split
    · simp
    · split
      · simp only [List.map_cons, List.mem_cons]
        exact Or.inr (mapEmplace_mem_name sgn name attr hname rest
          (fun n hn => hm n (by simp only [List.map_cons, List.mem_cons]; exact Or.inr hn)))
      · rename_i h1 h2
        have hk : ∀ b ∈ key, b < 256 := hm key (by simp)
        have := vecLt_connected sgn name key hname hk (by simpa using h1) (by simpa using h2)
        simp [this]

theorem mapEmplace_sorted (sgn : Bool) (name : List Nat) (attr : XMLAttribute) :
    ∀ (m : List (List Nat × XMLAttribute)),
      (m.map Prod.fst).Pairwise (fun a b => vecLt sgn a b = true) →
      ((mapEmplace sgn name attr m).map Prod.fst).Pairwise (fun a b => vecLt sgn a b = true)
  | [], _ => by simp [mapEmplace]
  | (key, a) :: rest, h => by
    simp only [List.map_cons, List.pairwise_cons] at h
    simp only [mapEmplace]
    split
    · rename_i hlt
      simp only [List.map_cons, List.pairwise_cons, List.mem_cons]
      refine ⟨?_, h.1, h.2⟩
      rintro n (rfl | hn)
      · exact hlt
      · exact vecLt_trans sgn _ _ _ hlt (h.1 n hn)
    · split
      · rename_i hlt
        simp only [List.map_cons, List.pairwise_cons]
        refine ⟨fun n hn => ?_, mapEmplace_sorted sgn name attr rest h.2⟩
        rcases mapEmplace_keys_subset sgn name attr rest n hn with rfl | hn
        · exact hlt
        · exact h.1 n hn
      · simp only [List.map_cons, List.pairwise_cons]
        exact h

theorem pushAttributes_cons (sgn : Bool) (e : XMLElement) (t : List Nat × XMLAttribute)
    (toks : List (List Nat × XMLAttribute)) :
    pushAttributes sgn e (t :: toks) = pushAttributes sgn (e.pushAttribute sgn t.1 t.2) toks :=
  rfl

theorem pushAttributes_sorted (sgn : Bool) :
    ∀ (toks : List (List Nat × XMLAttribute)) (e : XMLElement),
      e.names.Pairwise (fun a b => vecLt sgn a b = true) →
      (pushAttributes sgn e toks).names.Pairwise (fun a b => vecLt sgn a b = true)
  | [], _, h => h
  | t :: toks, e, h => by
    rw [pushAttributes_cons]
    exact pushAttributes_sorted sgn toks _ (mapEmplace_sorted sgn t.1 t.2 e.attributes h)

theorem pushAttributes_mem (sgn : Bool) :
    ∀ (toks : List (List Nat × XMLAttribute)) (e : XMLElement),
      (∀ n ∈ e.names ++ toks.map Prod.fst, ∀ b ∈ n, b < 256) →
      ∀ n, n ∈ (pushAttributes sgn e toks).names ↔ n ∈ e.names ∨ n ∈ toks.map Prod.fst
  | [], e, _, n => by simp [pushAttributes]
  | t :: toks, e, hb, n => by
    have hname : ∀ b ∈ t.1, b < 256 := hb t.1 (by simp)
    have hkeys : ∀ m ∈ e.attributes.map Prod.fst, ∀ b ∈ m, b < 256 :=
      fun m hm => hb m (List.mem_append_left _ hm)
    have hb2 : ∀ m ∈ (e.pushAttribute sgn t.1 t.2).names ++ toks.map Prod.fst,
        ∀ b ∈ m, b < 256 := by
      intro m hm
      rcases List.mem_append.mp hm with hm | hm
      · rcases mapEmplace_keys_subset sgn t.1 t.2 e.attributes m hm with rfl | hm
        · exact hname
        · exact hkeys m hm
      · exact hb m (List.mem_append_right _ (List.mem_cons_of_mem _ hm))
    rw [pushAttributes_cons, pushAttributes_mem sgn toks _ hb2 n]
    simp only [List.map_cons, List.mem_cons]
    constructor
    · rintro (h | h)
      · rcases mapEmplace_keys_subset sgn t.1 t.2 e.attributes n h with rfl | h
        · exact Or.inr (Or.inl rfl)
        · exact Or.inl h
      · exact Or.inr (Or.inr h)
    · rintro (h | rfl | h)
      · exact Or.inl (mapEmplace_keys_superset sgn t.1 t.2 e.attributes n h)
      · exact Or.inl (mapEmplace_mem_name sgn _ t.2 hname e.attributes hkeys)
      · exact Or.inr h

theorem sorted_nodup (sgn : Bool) {l : List (List Nat)}
    (h : l.Pairwise (fun a b => vecLt sgn a b = true)) : l.Nodup := by
  refine h.imp ?_
  intro a b hlt hab
  subst hab
  rw [vecLt_irrefl] at hlt
  exact Bool.noConfusion hlt

theorem sorted_ext (sgn : Bool) :
    ∀ l1 l2 : List (List Nat), l1.Pairwise (fun a b => vecLt sgn a b = true) →
      l2.Pairwise (fun a b => vecLt sgn a b = true) → (∀ n, n ∈ l1 ↔ n ∈ l2) → l1 = l2
  | [], [], _, _, _ => rfl
  | [], b :: l2, _, _, h => by simpa using (h b).mpr (List.mem_cons_self _ _)
  | a :: l1, [], _, _, h => by simpa using (h a).mp (List.mem_cons_self _ _)
  | a :: l1, b :: l2, h1, h2, h => by
    have n1 := sorted_nodup sgn h1
    have n2 := sorted_nodup sgn h2
    simp only [List.pairwise_cons] at h1 h2
    simp only [List.nodup_cons] at n1 n2
    have hab : a = b := by
      by_contra hne
      have ha : a ∈ l2 := by
        have := (h a).mp (List.mem_cons_self _ _)
        simp only [List.mem_cons] at this
        exact this.resolve_left hne
      have hb : b ∈ l1 := by
        have := (h b).mpr (List.mem_cons_self _ _)
        simp only [List.mem_cons] at this
        exact this.resolve_left (Ne.symm hne)
      have := vecLt_asymm sgn (h1.1 b hb)
      rw [h2.1 a ha] at this
      exact Bool.noConfusion this
    subst hab
    congr 1
    refine sorted_ext sgn l1 l2 h1.2 h2.2 (fun n => ?_)
    have := h n
    simp only [List.mem_cons] at this
    constructor
    · intro hn
      have hne : n ≠ a := fun hc => n1.1 (hc ▸ hn)
      exact (this.mp (Or.inr hn)).resolve_left hne
    · intro hn
      have hne : n ≠ a := fun hc => n2.1 (hc ▸ hn)
      exact (this.mpr (Or.inr hn)).resolve_left hne

/-- Claim C10, as amended. Attribute ordering.  Take an element whose attribute
map is in key order and apply to it any sequence of ATTRIBUTE tokens.
Iterating the map then yields names in strictly increasing lexicographic order
of their `char` values, as `std::vector<char>` compares them; where `char` is
unsigned this is the lexicographic order of the byte values.  The names
yielded are the names present before and the names of the tokens, so for
pairwise distinct names on an element without attributes they are these names
rearranged, and the order does not depend on the encounter order of the
tokens. -/
theorem c10_attribute_order (sgn : Bool) (e : XMLElement)
    (toks : List (List Nat × XMLAttribute))
    (hsorted : e.names.Pairwise (fun a b => vecLt sgn a b = true))
    (hbytes : ∀ n ∈ e.names ++ toks.map Prod.fst, ∀ b ∈ n, b < 256) :
    (pushAttributes sgn e toks).names.Pairwise (fun a b => vecLt sgn a b = true) ∧
    (sgn = false →
      (pushAttributes sgn e toks).names.Pairwise (List.Lex (fun x y : Nat => x < y))) ∧
    (∀ n, n ∈ (pushAttributes sgn e toks).names ↔ n ∈ e.names ∨ n ∈ toks.map Prod.fst) ∧
    (e.attributes = [] → (toks.map Prod.fst).Nodup →
      (pushAttributes sgn e toks).names.Perm (toks.map Prod.fst)) ∧
    (∀ toks2 : List (List Nat × XMLAttribute),
      (toks2.map Prod.fst).Perm (toks.map Prod.fst) →
      (pushAttributes sgn e toks2).names = (pushAttributes sgn e toks).names) := by
  have hs := pushAttributes_sorted sgn toks e hsorted
  have hmem := pushAttributes_mem sgn toks e hbytes
  refine ⟨hs, fun h0 => ?_, hmem, fun he hnd => ?_, fun toks2 hp => ?_⟩
  · subst h0
    exact hs.imp (fun h => (vecLt_unsigned _ _).mp h)
  · refine (List.perm_ext_iff_of_nodup (sorted_nodup sgn hs) hnd).mpr (fun n => ?_)
    rw [hmem n]
    simp [XMLElement.names, he]
  · have hbytes2 : ∀ n ∈ e.names ++ toks2.map Prod.fst, ∀ b ∈ n, b < 256 := by
      intro n hn
      rcases List.mem_append.mp hn with hn | hn
      · exact hbytes n (List.mem_append_left _ hn)
      · exact hbytes n (List.mem_append_right _ (hp.mem_iff.mp hn))
    refine sorted_ext sgn _ _ (pushAttributes_sorted sgn toks2 e hsorted) hs (fun n => ?_)
    rw [hmem n, pushAttributes_mem sgn toks2 e hbytes2 n, hp.mem_iff]

/-- Claim C10, witness: the names "zebra", "apple", "mango" in encounter order
are iterated as "apple", "mango", "zebra". -/
theorem c10_attribute_order_witness :
    (pushAttributes false (XMLElement.new (ascii "e" ++ [0]))
        [(ascii "zebra" ++ [0], XMLAttribute.new 15 []),
         (ascii "apple" ++ [0], XMLAttribute.new 15 []),
         (ascii "mango" ++ [0], XMLAttribute.new 15 [])]).names
      = [ascii "apple" ++ [0], ascii "mango" ++ [0], ascii "zebra" ++ [0]] ∧
    (pushAttributes false (XMLElement.new (ascii "e" ++ [0]))
        [(ascii "zebra" ++ [0], XMLAttribute.new 15 []),
         (ascii "apple" ++ [0], XMLAttribute.new 15 []),
         (ascii "mango" ++ [0], XMLAttribute.new 15 [])]).names.Pairwise
      (List.Lex (fun x y : Nat => x < y)) :=
  ⟨rfl, (c10_attribute_order false (XMLElement.new (ascii "e" ++ [0]))
      [(ascii "zebra" ++ [0], XMLAttribute.new 15 []),
       (ascii "apple" ++ [0], XMLAttribute.new 15 []),
       (ascii "mango" ++ [0], XMLAttribute.new 15 [])]
      List.Pairwise.nil (by decide)).2.1 rfl⟩

/-- Claim C10, counterexample. Where `char` is signed, the attribute names with
the bytes `0x61` and `0x80`, met in this order, are iterated as `0x80`, `0x61`:
the byte 128 is the `char` -128 and sorts first.  The names are not in
increasing lexicographic byte order. -/
theorem c10_signed_char_order :
    ∃ d root,
      (AbxDecoder.new (highByteStream abxConst)).parse abxConst true = .returned true d
      ∧ d.heap[0]? = some root
      ∧ root.names = [[0x80, 0], [0x61, 0]]
      ∧ ¬ root.names.Pairwise (List.Lex (fun x y : Nat => x < y))
      ∧ (pushAttributes true (XMLElement.new (ascii "a" ++ [0]))
          [([0x61, 0], XMLAttribute.new 15 (ascii "nul")),
           ([0x80, 0], XMLAttribute.new 15 (ascii "nul"))]).names = [[0x80, 0], [0x61, 0]] :=
  ⟨_, _, rfl, rfl, rfl, by decide, rfl⟩

/-! ## C11: END_TAG with another name than the open element -/

/-- Claim C11, the code at the failing input. After START_TAG "a" and an
ATTRIBUTE whose name is the empty literal, the element "a" is open at depth 1
and the intern table holds "a" at index 0 and the empty name at index 1.  The
END_TAG that names index 0, the tag of the open element, closes the root and
`parse` returns `true`.  The END_TAG that names index 1 does not do the same:
the empty name has no storage for `strcmp` to read, and the call of `parse` is
undefined. -/
theorem c11_empty_name_end_tag :
    ∃ d root,
      (AbxDecoder.new (emptyNameStream abxConst 0)).parse abxConst false = .returned true d
      ∧ d.root = some 0 ∧ d.elementStack = [0] ∧ d.heap[0]? = some root
      ∧ root.mTagName = ascii "a" ++ [0]
      ∧ d.internedStrings = [ascii "a" ++ [0], []]
      ∧ (AbxDecoder.new (emptyNameStream abxConst 1)).parse abxConst false
          = .undefined .unterminated
      ∧ strcmpVec [] (ascii "a" ++ [0]) = .error .unterminated :=
  ⟨_, _, rfl, rfl, rfl, rfl, rfl, rfl, rfl, rfl⟩

/-! ## C12: attribute lookup -/

theorem strcmpEq_cstrOf :
    ∀ (key q : List Nat), 0 ∈ key → 0 ∉ q → strcmpEq key q = .ok (decide (cstrOf key = q))
  | [], _, h, _ => by simp at h
  | x :: xs, [], _, _ => by
    by_cases hx : x = 0 <;> simp [strcmpEq, cstrOf, List.takeWhile_cons, hx]
  | x :: xs, y :: ys, hk, hq => by
    have hy : y ≠ 0 := fun h => hq (by simp [h])
    have hys : 0 ∉ ys := fun h => hq (List.mem_cons_of_mem _ h)
    by_cases hxy : x = y
    · subst hxy
      have hxs : 0 ∈ xs := by
        rcases List.mem_cons.mp hk with h | h
        · exact absurd h.symm hy
        · exact h
      have ih := strcmpEq_cstrOf xs ys hxs hys
      simp only [cstrOf] at ih
      simp [strcmpEq, cstrOf, List.takeWhile_cons, hy, ih]
    · by_cases hx : x = 0
      · subst hx
        simp [strcmpEq, cstrOf, List.takeWhile_cons, hxy]
      · simp [strcmpEq, cstrOf, List.takeWhile_cons, hx, hxy]

theorem findAttributeIn_eq (q : List Nat) (hq : 0 ∉ q) :
    ∀ m : List (List Nat × XMLAttribute), (∀ key ∈ m.map Prod.fst, 0 ∈ key) →
      findAttributeIn q m
        = .ok ((m.find? (fun p => decide (cstrOf p.1 = q))).map Prod.snd)
  | [], _ => rfl
  | (key, a) :: rest, h => by
    have hkey : 0 ∈ key := h key (by simp)
    have ih := findAttributeIn_eq q hq rest
      (fun x hx => h x (by simp only [List.map_cons, List.mem_cons]; exact Or.inr hx))
    by_cases hc : cstrOf key = q
    · simp [findAttributeIn, strcmpEq_cstrOf key q hkey hq, hc, List.find?]
    · simp [findAttributeIn, strcmpEq_cstrOf key q hkey hq, hc, List.find?, ih]

/-- Claim C12, as amended. Attribute lookup by name.  On an element all of
whose keys hold a zero byte (as every name decoded from a non-empty literal
does), `findAttribute(q)` compares with `strcmp`: it returns the attribute
stored under the first key, in the order of the map, whose bytes before its
first zero byte are the bytes of `q`, and `nullptr` exactly when no key is so.
The key `q` followed by its terminator is such a key, and so is a key that has
`q` followed by an embedded zero byte as a prefix. -/
theorem c12_lookup_by_c_string (e : XMLElement) (q : List Nat) (hq : 0 ∉ q)
    (hkeys : ∀ key ∈ e.names, 0 ∈ key) :
    e.findAttribute q
        = .ok ((e.attributes.find? (fun p => decide (cstrOf p.1 = q))).map Prod.snd)
    ∧ (e.findAttribute q = .ok none ↔ ∀ key ∈ e.names, cstrOf key ≠ q)
    ∧ (∀ tail, q ++ [0] ++ tail ∈ e.names → ∃ a, e.findAttribute q = .ok (some a))
    ∧ cstrOf (q ++ [0]) = q := by
  have hmain := findAttributeIn_eq q hq e.attributes hkeys
  have hcs : ∀ tail, cstrOf (q ++ [0] ++ tail) = q := by
    intro tail
    have : ∀ l : List Nat, 0 ∉ l → cstrOf (l ++ [0] ++ tail) = l := by
      intro l
      induction l with
      | nil => intro _; simp [cstrOf, List.takeWhile_cons]
      | cons x xs ih =>
        intro h
        have hx : x ≠ 0 := fun h0 => h (by simp [h0])
        have hxs : 0 ∉ xs := fun h0 => h (List.mem_cons_of_mem _ h0)
        have := ih hxs
        simp only [cstrOf, List.append_assoc, List.singleton_append] at this
        simp [cstrOf, List.takeWhile_cons, hx, this]
    exact this q hq
  refine ⟨hmain, ?_, fun tail ht => ?_, by simpa using hcs []⟩
  · unfold XMLElement.findAttribute
    rw [hmain]
    simp only [Except.ok.injEq, Option.map_eq_none', List.find?_eq_none, decide_eq_true_eq,
      XMLElement.names, List.mem_map, forall_exists_index, and_imp]
    constructor
    · intro h key p hp hk
      exact hk ▸ h p hp
    · intro h p hp
      exact h p.1 p hp rfl
  · unfold XMLElement.findAttribute
    rw [hmain]
    simp only [XMLElement.names, List.mem_map] at ht
    obtain ⟨p, hp, hk⟩ := ht
    cases hf : e.attributes.find? (fun p => decide (cstrOf p.1 = q)) with
    | some r => exact ⟨r.2, rfl⟩
    | none =>
      rw [List.find?_eq_none] at hf
      have := hf p hp
      simp only [hk, hcs tail, decide_True, not_true_eq_false] at this

/-- Claim C12, witness: the keys "id" and "name" with their terminators; the
lookup of "name" finds its attribute and the lookup of "nam" finds none. -/
theorem c12_lookup_by_c_string_witness :
    (⟨[97, 0], [([105, 100, 0], ⟨[49, 0], 15⟩), ([110, 97, 109, 101, 0], ⟨[50, 0], 15⟩)],
        [], []⟩ : XMLElement).findAttribute [110, 97, 109, 101]
      = .ok (some ⟨[50, 0], 15⟩) ∧
    (⟨[97, 0], [([105, 100, 0], ⟨[49, 0], 15⟩), ([110, 97, 109, 101, 0], ⟨[50, 0], 15⟩)],
        [], []⟩ : XMLElement).findAttribute [110, 97, 109] = .ok none :=
  ⟨(c12_lookup_by_c_string
      ⟨[97, 0], [([105, 100, 0], ⟨[49, 0], 15⟩), ([110, 97, 109, 101, 0], ⟨[50, 0], 15⟩)],
        [], []⟩ [110, 97, 109, 101] (by decide) (by decide)).1,
   ((c12_lookup_by_c_string
      ⟨[97, 0], [([105, 100, 0], ⟨[49, 0], 15⟩), ([110, 97, 109, 101, 0], ⟨[50, 0], 15⟩)],
        [], []⟩ [110, 97, 109] (by decide) (by decide)).2.1).mpr (by decide)⟩

/-- Claim C12, counterexample. The key with the bytes "na", a zero byte, "me"
and the terminator is not the byte string "na" over its full length, with or
without a terminator; `findAttribute("na")` returns the attribute stored under
it.  On an element with an empty key the lookup reads the key outside its
storage: the call is undefined. -/
theorem c12_prefix_up_to_zero_matches :
    (⟨[97, 0], [([110, 97, 0, 109, 101, 0], ⟨[49, 0], 15⟩)], [], []⟩ :
        XMLElement).findAttribute [110, 97] = .ok (some ⟨[49, 0], 15⟩)
    ∧ ([110, 97, 0, 109, 101, 0] : List Nat) ≠ [110, 97]
    ∧ ([110, 97, 0, 109, 101, 0] : List Nat) ≠ [110, 97, 0]
    ∧ (⟨[97, 0], [([], ⟨[49, 0], 15⟩), ([110, 97, 0], ⟨[50, 0], 15⟩)], [], []⟩ :
        XMLElement).findAttribute [110, 97] = .error .unterminated := by
  decide

/-! ## C13: child lookup by ordinal -/

/-- Claim C13, the code at the failing input. On an element with the two
children at the addresses 5 and 7, `subElementAt` returns the child at the
indices 0 and 1 and `nullptr` at the indices 3 and -1; at the index 2, the
number of children, the test `index > subElements.size()` lets the index
through and the past-the-end iterator is dereferenced: the call is undefined,
it does not return `nullptr`. -/
theorem c13_index_equal_to_size_is_undefined :
    (⟨[97, 0], [], [], [5, 7]⟩ : XMLElement).subElementAt 0 = .ok (some 5)
    ∧ (⟨[97, 0], [], [], [5, 7]⟩ : XMLElement).subElementAt 1 = .ok (some 7)
    ∧ (⟨[97, 0], [], [], [5, 7]⟩ : XMLElement).subElementAt 2 = .error .childOutOfRange
    ∧ (⟨[97, 0], [], [], [5, 7]⟩ : XMLElement).subElementAt 2 ≠ .ok none
    ∧ (⟨[97, 0], [], [], [5, 7]⟩ : XMLElement).subElementAt 3 = .ok none
    ∧ (⟨[97, 0], [], [], [5, 7]⟩ : XMLElement).subElementAt (-1) = .ok none
    ∧ (XMLElement.new [97, 0]).subElementAt 0 = .error .childOutOfRange := by
  decide

/-! ## C14: fixed-width payloads -/

theorem readFromCurPos_bytes {d : AbxDecoder} {n : Nat} (h : d.curPos + n ≤ d.mInput.length) :
    ((d.mInput.drop d.curPos).take n).length = n
      ∧ ∀ i, i < n → ∃ b, ((d.mInput.drop d.curPos).take n)[i]? = some b
          ∧ d.mInput[d.curPos + i]? = some b := by
  refine ⟨?_, fun i hi => ?_⟩
  · simp only [List.length_take, List.length_drop]
    omega
  · have hlt : d.curPos + i < d.mInput.length := by omega
    refine ⟨d.mInput[d.curPos + i], ?_, List.getElem?_eq_getElem hlt⟩
    rw [List.getElem?_take_of_lt hi, List.getElem?_drop, List.getElem?_eq_getElem hlt]

/-- Claim C14. Fixed-width payloads.  At the cursor state `d` right after the
attribute name: for the data kinds INT, INT_HEX and FLOAT with at least 4 bytes
left, the value decoded is exactly the next 4 buffer bytes in order and the
cursor moves by exactly 4; for LONG, LONG_HEX and DOUBLE with at least 8 bytes
left it is exactly the next 8 bytes and the cursor moves by exactly 8.  The
attribute that the ATTRIBUTE token hands to `pushAttribute` on the current
element has this block as its value. -/
theorem c14_fixed_width_payloads (k : Const) (sgn : Bool) (d : AbxDecoder) (hk : k.LabelsOk) :
    (∀ dType ∈ [k.DATA_INT, k.DATA_INT_HEX, k.DATA_FLOAT], d.curPos + 4 ≤ d.mInput.length →
      readAttrValue k sgn dType d
          = .ok ((d.mInput.drop d.curPos).take 4, { d with curPos := d.curPos + 4 })
        ∧ ((d.mInput.drop d.curPos).take 4).length = 4
        ∧ ∀ i, i < 4 → ∃ b, ((d.mInput.drop d.curPos).take 4)[i]? = some b
            ∧ d.mInput[d.curPos + i]? = some b) ∧
    (∀ dType ∈ [k.DATA_LONG, k.DATA_LONG_HEX, k.DATA_DOUBLE], d.curPos + 8 ≤ d.mInput.length →
      readAttrValue k sgn dType d
          = .ok ((d.mInput.drop d.curPos).take 8, { d with curPos := d.curPos + 8 })
        ∧ ((d.mInput.drop d.curPos).take 8).length = 8
        ∧ ∀ i, i < 8 → ∃ b, ((d.mInput.drop d.curPos).take 8)[i]? = some b
            ∧ d.mInput[d.curPos + i]? = some b) ∧
    (∀ d0 attrName tType dType value d1 p e,
      readInternedString sgn d0 = .ok (attrName, d) →
      readAttrValue k sgn dType d = .ok (value, d1) → d1.back = .ok (p, e) →
      stepAttribute k sgn tType dType d0 = .ok (none,
          { d1 with heap := (d1.heap.set p
              (e.pushAttribute sgn attrName (XMLAttribute.new tType value))) })
        ∧ (XMLAttribute.new tType value).mValue = value) := by
  refine ⟨fun dType hd h => ?_, fun dType hd h => ?_,
    fun d0 attrName tType dType value d1 p e hn hv hb => ⟨?_, rfl⟩⟩
  · rw [readAttrValue_four hk sgn d hd, readFromCurPos_ok h]
    exact ⟨rfl, readFromCurPos_bytes h⟩
  · rw [readAttrValue_eight hk sgn d hd, readFromCurPos_ok h]
    exact ⟨rfl, readFromCurPos_bytes h⟩
  · simp only [stepAttribute, hn, hv, AbxDecoder.updateBack, hb]

/-- Claim C14, witness: an INT attribute "i" with the bytes 1, 2, 3, 4 and a LONG
block of the bytes 1 to 8, each followed by one more byte. -/
theorem c14_fixed_width_payloads_witness :
    (∀ dType ∈ [abxConst.DATA_INT, abxConst.DATA_INT_HEX, abxConst.DATA_FLOAT],
      readAttrValue abxConst false dType
          ⟨2, [0, 0, 1, 2, 3, 4, 9], [[105, 0]], [0], false, false, none,
            [XMLElement.new [97, 0]], []⟩
        = .ok ([1, 2, 3, 4],
            ⟨6, [0, 0, 1, 2, 3, 4, 9], [[105, 0]], [0], false, false, none,
              [XMLElement.new [97, 0]], []⟩)) ∧
    (∀ dType ∈ [abxConst.DATA_LONG, abxConst.DATA_LONG_HEX, abxConst.DATA_DOUBLE],
      readAttrValue abxConst false dType (AbxDecoder.new [1, 2, 3, 4, 5, 6, 7, 8, 9])
        = .ok ([1, 2, 3, 4, 5, 6, 7, 8],
            { AbxDecoder.new [1, 2, 3, 4, 5, 6, 7, 8, 9] with curPos := 8 })) ∧
    stepAttribute abxConst false 15 96
        ⟨0, [0, 0, 1, 2, 3, 4, 9], [[105, 0]], [0], false, false, none,
          [XMLElement.new [97, 0]], []⟩
      = .ok (none, ⟨6, [0, 0, 1, 2, 3, 4, 9], [[105, 0]], [0], false, false, none,
          [⟨[97, 0], [([105, 0], ⟨[1, 2, 3, 4], 15⟩)], [], []⟩], []⟩) :=
  ⟨fun dType hd => ((c14_fixed_width_payloads abxConst false
      ⟨2, [0, 0, 1, 2, 3, 4, 9], [[105, 0]], [0], false, false, none,
        [XMLElement.new [97, 0]], []⟩ (by decide)).1 dType hd (by decide)).1,
   fun dType hd => ((c14_fixed_width_payloads abxConst false
      (AbxDecoder.new [1, 2, 3, 4, 5, 6, 7, 8, 9]) (by decide)).2.1 dType hd (by decide)).1,
   ((c14_fixed_width_payloads abxConst false
      ⟨2, [0, 0, 1, 2, 3, 4, 9], [[105, 0]], [0], false, false, none,
        [XMLElement.new [97, 0]], []⟩ (by decide)).2.2
      ⟨0, [0, 0, 1, 2, 3, 4, 9], [[105, 0]], [0], false, false, none,
        [XMLElement.new [97, 0]], []⟩ [105, 0] 15 96 [1, 2, 3, 4]
      ⟨6, [0, 0, 1, 2, 3, 4, 9], [[105, 0]], [0], false, false, none,
        [XMLElement.new [97, 0]], []⟩ 0 (XMLElement.new [97, 0]) rfl rfl rfl).1⟩

/-! ## C15: resolving a name through the intern table -/

/-- Claim C15. Intern resolve.  `readInternedString` reads the 16-bit raw
index `idx`.  If it is negative, the length-prefixed literal `s` that follows
is decoded, `s` is returned and the new table is the old table with `s`
appended as its last entry, also when `s` is empty.  If it is non-negative and
less than the size of the table, the entry at `idx` is returned, the table is
unchanged and only the 2 index bytes are consumed. -/
theorem c15_intern_resolve (sgn : Bool) (d d1 : AbxDecoder) (idx : Int)
    (hs : readShort sgn d = .ok (idx, d1)) :
    d1 = { d with curPos := d.curPos + 2 } ∧
    (idx < 0 → ∀ s d2, readString sgn d1 = .ok (s, d2) →
      readInternedString sgn d
        = .ok (s, { d2 with internedStrings := d.internedStrings ++ [s] })) ∧
    (idx < 0 → ∀ len d2, readShort sgn d1 = .ok (len, d2) → len < 1 →
      readInternedString sgn d
        = .ok ([], { d2 with internedStrings := d.internedStrings ++ [[]] })) ∧
    (0 ≤ idx → ∀ h : idx.toNat < d.internedStrings.length,
      readInternedString sgn d
        = .ok (d.internedStrings[idx.toNat], { d with curPos := d.curPos + 2 })) := by
  obtain ⟨-, hd1, -⟩ := readShort_inv hs
  have key : idx < 0 → ∀ s d2, readString sgn d1 = .ok (s, d2) →
      readInternedString sgn d
        = .ok (s, { d2 with internedStrings := d.internedStrings ++ [s] }) := by
    intro hneg s d2 hr
    have ht : d2.internedStrings = d.internedStrings := by
      obtain ⟨c, e, rfl, -, -⟩ := readString_reads hr
      obtain ⟨c1, e1, hc, -, -⟩ := readShort_reads hs
      have he : e = [] := by
        unfold readString at hr
        split at hr
        · simp at hr
        · rename_i len d3 hs2
          obtain ⟨-, rfl, -⟩ := readShort_inv hs2
          split at hr
          · simp only [Except.ok.injEq, Prod.mk.injEq] at hr
            have := congrArg AbxDecoder.internedStrings hr.2
            simpa using this.symm
          · split at hr
            · simp at hr
            · rename_i ret d4 hrd
              obtain ⟨-, -, rfl⟩ := readFromCurPos_inv hrd
              simp only [Except.ok.injEq, Prod.mk.injEq] at hr
              have := congrArg AbxDecoder.internedStrings hr.2
              simpa using this.symm
      subst he
      subst hd1
      simp
    simp only [readInternedString, hs, hneg, if_true, hr, ht]
  refine ⟨hd1, key, fun hneg len d2 hl hlt => ?_, fun hpos h => ?_⟩
  · exact key hneg [] d2 (readString_empty hl hlt)
  · have hnot : ¬ idx < 0 := by omega
    have hget : d1.internedStrings[idx.toNat]? = some d.internedStrings[idx.toNat] := by
      subst hd1
      exact List.getElem?_eq_getElem h
    simp only [readInternedString, hs, hnot, if_false, hget]
    rw [hd1]

/-- Claim C15, witness: a literal "hi" and an empty literal appended to a table
of one entry, and the index 0 resolved in that table. -/
theorem c15_intern_resolve_witness :
    readInternedString false
        ⟨0, [255, 255, 0, 2, 104, 105], [[97, 0]], [], false, false, none, [], []⟩
      = .ok ([104, 105, 0],
          ⟨6, [255, 255, 0, 2, 104, 105], [[97, 0], [104, 105, 0]], [], false, false, none,
            [], []⟩) ∧
    readInternedString false
        ⟨0, [255, 255, 0, 0], [[97, 0]], [], false, false, none, [], []⟩
      = .ok ([], ⟨4, [255, 255, 0, 0], [[97, 0], []], [], false, false, none, [], []⟩) ∧
    readInternedString false ⟨0, [0, 0, 9], [[97, 0]], [], false, false, none, [], []⟩
      = .ok ([97, 0], ⟨2, [0, 0, 9], [[97, 0]], [], false, false, none, [], []⟩) :=
  ⟨(c15_intern_resolve false
      ⟨0, [255, 255, 0, 2, 104, 105], [[97, 0]], [], false, false, none, [], []⟩
      ⟨2, [255, 255, 0, 2, 104, 105], [[97, 0]], [], false, false, none, [], []⟩ (-1)
      (by decide)).2.1 (by decide) [104, 105, 0]
      ⟨6, [255, 255, 0, 2, 104, 105], [[97, 0]], [], false, false, none, [], []⟩ rfl,
   (c15_intern_resolve false
      ⟨0, [255, 255, 0, 0], [[97, 0]], [], false, false, none, [], []⟩
      ⟨2, [255, 255, 0, 0], [[97, 0]], [], false, false, none, [], []⟩ (-1)
      (by decide)).2.2.1 (by decide) 0
      ⟨4, [255, 255, 0, 0], [[97, 0]], [], false, false, none, [], []⟩ rfl (by decide),
   (c15_intern_resolve false
      ⟨0, [0, 0, 9], [[97, 0]], [], false, false, none, [], []⟩
      ⟨2, [0, 0, 9], [[97, 0]], [], false, false, none, [], []⟩ 0
      rfl).2.2.2 (by decide) (by decide)⟩

/-! ## C16: the loop is bounded by the buffer -/

/-- Claim C16, as amended. Bound on the loop.  For every input buffer that
passes the signature test, every pass of the streaming loop either stops the
loop with a `return`, or has undefined behaviour (the source never compares a
read with the end of the buffer, so there is no failure on an out-of-bounds
read), or ends inside the buffer with the cursor at least one byte further.
So the passes with defined behaviour are fewer than the bytes of the buffer:
after `n` passes that continued the cursor is at offset `4 + n` or more, and
`n` is less than the buffer length.  A pass that starts with the cursor at the
end of the buffer is undefined.  A call of `parse` therefore either returns or
is undefined; it never loops for ever within defined behaviour. -/
theorem c16_loop_is_bounded (k : Const) (sgn : Bool) (input : List Nat) (n : Nat)
    (d : AbxDecoder) (hlen : 5 ≤ input.length)
    (h : loopState k sgn n (loopStart input) = some d) :
    n < input.length ∧ 4 + n ≤ d.curPos ∧ d.mInput = input
    ∧ (∀ r d1, parseStep k sgn d = .ok (r, d1) →
        d1.mInput = input ∧ d.curPos + 1 ≤ d1.curPos ∧ d1.curPos ≤ input.length)
    ∧ (input.length ≤ d.curPos → parseStep k sgn d = .error .readPastEnd)
    ∧ (AbxDecoder.new input).parse k sgn ≠ .outOfFuel
    ∧ ((∃ b d1, (AbxDecoder.new input).parse k sgn = .returned b d1)
        ∨ ∃ f, (AbxDecoder.new input).parse k sgn = .undefined f) := by
  obtain ⟨a, b, -⟩ := loopState_advances n h
  have hin : d.mInput = input := by rw [a]; rfl
  have hcur : 4 + n ≤ d.curPos := by
    simpa [loopStart, AbxDecoder.reset, AbxDecoder.new] using b
  refine ⟨loopState_lt_fuel hlen h, hcur, hin, fun r d1 hs => ?_, fun hend => ?_,
    parse_ne_outOfFuel k sgn _, ?_⟩
  · obtain ⟨x, y, z⟩ := parseStep_advances hs
    rw [x, hin] at z
    exact ⟨by rw [x, hin], y, z⟩
  · have : d.mInput.length < d.curPos + 1 := by rw [hin]; omega
    simp only [parseStep, readByte_error this]
  · cases hp : (AbxDecoder.new input).parse k sgn with
    | returned b d1 => exact Or.inl ⟨b, d1, rfl⟩
    | undefined f => exact Or.inr ⟨f, rfl⟩
    | outOfFuel => exact absurd hp (parse_ne_outOfFuel k sgn _)

/-- Claim C16, witness: the state after the START_DOCUMENT pass on the
truncated stream; one pass was made, the cursor is at offset 5 of 11 bytes. -/
theorem c16_loop_is_bounded_witness :
    loopState abxConst false 1 (loopStart (truncatedStream abxConst))
      = some (loopAt (truncatedStream abxConst) 5 [] [] true [])
    ∧ 1 < (truncatedStream abxConst).length
    ∧ 4 + 1 ≤ (loopAt (truncatedStream abxConst) 5 [] [] true []).curPos
    ∧ (AbxDecoder.new (truncatedStream abxConst)).parse abxConst false ≠ .outOfFuel :=
  ⟨rfl,
   (c16_loop_is_bounded abxConst false (truncatedStream abxConst) 1
      (loopAt (truncatedStream abxConst) 5 [] [] true []) (by decide) rfl).1,
   (c16_loop_is_bounded abxConst false (truncatedStream abxConst) 1
      (loopAt (truncatedStream abxConst) 5 [] [] true []) (by decide) rfl).2.1,
   (c16_loop_is_bounded abxConst false (truncatedStream abxConst) 1
      (loopAt (truncatedStream abxConst) 5 [] [] true []) (by decide) rfl).2.2.2.2.2.1⟩

/-- Claim C16, counterexample. On the truncated stream the first pass reads
START_DOCUMENT and continues; the second pass reads a START_TAG whose literal
name announces five bytes with one byte left.  The read leaves the buffer: the
pass neither stops the loop nor moves the cursor, its behaviour is undefined,
and so is the call of `parse`, which returns nothing. -/
theorem c16_truncated_stream_is_undefined :
    loopState abxConst false 1 (loopStart (truncatedStream abxConst))
      = some (loopAt (truncatedStream abxConst) 5 [] [] true [])
    ∧ parseStep abxConst false (loopAt (truncatedStream abxConst) 5 [] [] true [])
        = .error .readPastEnd
    ∧ (AbxDecoder.new (truncatedStream abxConst)).parse abxConst false
        = .undefined .readPastEnd
    ∧ ¬ ∃ b d, (AbxDecoder.new (truncatedStream abxConst)).parse abxConst false
        = .returned b d :=
  ⟨rfl, rfl, rfl, by
    rintro ⟨b, d, h⟩
    have h2 : (AbxDecoder.new (truncatedStream abxConst)).parse abxConst false
        = .undefined .readPastEnd := rfl
    rw [h2] at h
    exact Outcome.noConfusion h⟩

/-! ## C17: the element stack and the tree -/

theorem stackInv_loopCount {k : Const} (hk : k.LabelsOk) {sgn : Bool} :
    ∀ (n : Nat) {d d1 : AbxDecoder} {s e s1 e1 : Nat}, StackInv d s e →
      loopCount k sgn n d s e = some (d1, s1, e1) → StackInv d1 s1 e1
  | 0, d, d1, s, e, s1, e1, hinv, h => by
    simp only [loopCount, Option.some.injEq, Prod.mk.injEq] at h
    obtain ⟨rfl, rfl, rfl⟩ := h
    exact hinv
  | n + 1, d, d1, s, e, s1, e1, hinv, h => by
    simp only [loopCount] at h
    split at h
    · rename_i event d0 d2 hb hs
      exact stackInv_loopCount hk n (stackInv_step hk hinv hb hs) h
    · simp at h

theorem stackInv_start (input : List Nat) : StackInv (loopStart input) 0 0 := by
  refine ⟨rfl, rfl, ?_, ?_, ?_, fun h => absurd h (by decide)⟩
  · intro i j a c _ ha
    simp [loopStart, AbxDecoder.reset] at ha
  · intro i a ha
    simp [loopStart, AbxDecoder.reset] at ha
  · intro i a c ha
    simp [loopStart, AbxDecoder.reset] at ha

theorem loopCount_of_loopState {k : Const} {sgn : Bool} :
    ∀ (n : Nat) {d d1 : AbxDecoder} (s e : Nat), loopState k sgn n d = some d1 →
      ∃ s1 e1, loopCount k sgn n d s e = some (d1, s1, e1)
  | 0, d, d1, s, e, h => by
    simp only [loopState, Option.some.injEq] at h
    subst h
    exact ⟨s, e, rfl⟩
  | n + 1, d, d1, s, e, h => by
    simp only [loopState] at h
    split at h
    · rename_i d2 hs
      obtain ⟨event, d0, hb, -⟩ := parseStep_shape hs
      obtain ⟨s1, e1, hc⟩ := loopCount_of_loopState n
        (if event &&& 0x0f = k.TOKEN_START_TAG then s + 1 else s)
        (if event &&& 0x0f = k.TOKEN_END_TAG then e + 1 else e) h
      exact ⟨s1, e1, by simp only [loopCount, hb, hs]; exact hc⟩
    · simp at h

/-- A pass of the loop leaves every element but the one at the top of the
stack as it is. -/
theorem parseStep_other_elements {k : Const} {sgn : Bool} {d d1 : AbxDecoder}
    {r : Option Bool} (hs : parseStep k sgn d = .ok (r, d1)) {p : Nat} {x : XMLElement}
    (hx : d.heap[p]? = some x) (hp : d.elementStack.getLast? ≠ some p) :
    d1.heap[p]? = some x := by
  have hpl := lt_of_getElem? hx
  obtain ⟨event, d0, -, -, hcase⟩ := parseStep_shape hs
  rcases hcase with ⟨-, -, -, hheap⟩ | ⟨-, -, -, el, hheap⟩ | ⟨-, hheap, -⟩
  · rcases hheap with hheap | ⟨q, y, y1, hbk, -, hheap⟩
    · rw [hheap]
      exact hx
    · obtain ⟨hlast, -⟩ := back_inv hbk
      have hne : q ≠ p := fun hc => hp (hc ▸ hlast)
      rw [hheap, List.getElem?_set, if_neg hne]
      exact hx
  · rcases hheap with ⟨-, hheap⟩ | ⟨q, y, hlast, -, hheap⟩
    · rw [hheap, List.getElem?_append, if_pos hpl]
      exact hx
    · have hne : q ≠ p := fun hc => hp (hc ▸ hlast)
      rw [hheap, List.getElem?_set, if_neg hne, List.getElem?_append, if_pos hpl]
      exact hx
  · rw [hheap]
    exact hx

/-- Claim C17, as amended. Stack and tree.  In every state at the head of a
pass of the loop, reached from the start of a decode after `s` START_TAG and
`e` END_TAG tokens, the depth of the element stack plus `e` is `s`, the heap
holds the `s` elements the START_TAG tokens created, each stack entry above
the bottom is the child appended last to the entry below it, and a pass
changes no element but the one at the top of the stack (so attributes, text
segments and new children go to the innermost open element).  A pass returns
`true` only when its token is an END_TAG and the stack holds exactly the
element created by the first START_TAG; this element becomes `root`, and it is
left on the stack: in the state `parse` returns `true` in, the depth is 1
although as many END_TAG as START_TAG tokens were processed.  Every `true`
returned by `parse` comes from such a pass. -/
theorem c17_stack_and_tree (k : Const) (sgn : Bool) (input : List Nat) (hk : k.LabelsOk) :
    (∀ (n : Nat) (d : AbxDecoder) (s e : Nat),
      loopCount k sgn n (loopStart input) 0 0 = some (d, s, e) →
        d.elementStack.length + e = s ∧ d.heap.length = s
        ∧ (∀ (i a c : Nat), d.elementStack[i]? = some a → d.elementStack[i + 1]? = some c →
            ∃ x, d.heap[a]? = some x ∧ x.subElements.getLast? = some c)
        ∧ (∀ r d1 p x, parseStep k sgn d = .ok (r, d1) → d.heap[p]? = some x →
            d.elementStack.getLast? ≠ some p → d1.heap[p]? = some x)
        ∧ (∀ d1, parseStep k sgn d = .ok (some true, d1) →
            (∃ event d0, readByte d = .ok (event, d0) ∧ event &&& 0x0f = k.TOKEN_END_TAG)
            ∧ d.elementStack = [0] ∧ s = e + 1
            ∧ d1.root = some 0 ∧ d1.heap = d.heap ∧ d1.elementStack = [0]))
    ∧ (∀ d1, (AbxDecoder.new input).parse k sgn = .returned true d1 →
        ∃ n d s e, loopCount k sgn n (loopStart input) 0 0 = some (d, s, e)
          ∧ parseStep k sgn d = .ok (some true, d1)) := by
  refine ⟨fun n d s e hc => ?_, fun d1 hp => ?_⟩
  · obtain ⟨i1, i2, -, -, i5, i6⟩ := stackInv_loopCount hk n (stackInv_start input) hc
    refine ⟨i1, i2, i5, fun r d1 p x hs hx hp => parseStep_other_elements hs hx hp,
      fun d1 hs => ?_⟩
    obtain ⟨event, d0, hb, -, hcase⟩ := parseStep_shape hs
    rcases hcase with ⟨-, hr, -⟩ | ⟨-, hr, -⟩ | ⟨hkind, hheap, p, last, hbk, hcc⟩
    · exact absurd rfl hr
    · exact Option.noConfusion hr
    · rcases hcc with ⟨hl, -, hst, hroot⟩ | ⟨-, hr, -⟩
      · obtain ⟨hlast, -⟩ := back_inv hbk
        obtain ⟨-, hpi⟩ := getLast?_index hlast
        rw [hl] at hpi
        have h0 : d.elementStack[0]? = some 0 := i6 (by omega)
        have hp0 : p = 0 := by
          simp only [Nat.sub_self] at hpi
          rw [h0] at hpi
          exact (Option.some.inj hpi).symm
        subst hp0
        have hstack : d.elementStack = [0] := by
          match hd : d.elementStack, hl, h0 with
          | [q], _, h0 =>
            simp only [List.getElem?_cons_zero, Option.some.injEq] at h0
            rw [h0]
        exact ⟨⟨event, d0, hb, hkind⟩, hstack, by omega, hroot, hheap, by rw [hst, hstack]⟩
      · exact Option.noConfusion hr
  · obtain ⟨-, -, hl⟩ := parse_true_inv hp
    obtain ⟨n, dn, -, hn, hs⟩ := parseLoop_returned_inv _ hl
    obtain ⟨s, e, hc⟩ := loopCount_of_loopState n 0 0 hn
    exact ⟨n, dn, s, e, hc, hs⟩

/-- Claim C17, witness: the state after the two START_TAG passes on the stream
that spells the name "a" twice, with depth 2 and the second element as the last
child of the first; and the pass that makes `parse` return `true` there. -/
theorem c17_stack_and_tree_witness :
    loopCount abxConst false 2 (loopStart (repeatStream abxConst)) 0 0
      = some (loopAt (repeatStream abxConst) 16 [[97, 0], [97, 0]] [0, 1] false
          [⟨[97, 0], [], [], [1]⟩, XMLElement.new [97, 0]], 2, 0)
    ∧ ([0, 1] : List Nat).length + 0 = 2
    ∧ (∃ x, [(⟨[97, 0], [], [], [1]⟩ : XMLElement), XMLElement.new [97, 0]][0]? = some x
        ∧ x.subElements.getLast? = some 1)
    ∧ (AbxDecoder.new (repeatStream abxConst)).parse abxConst false
        = .returned true
            { loopAt (repeatStream abxConst) 22 [[97, 0], [97, 0]] [0] false
                [⟨[97, 0], [], [], [1]⟩, XMLElement.new [97, 0]] with
              root := some 0, rootClosed := true }
    ∧ (∃ n d s e,
        loopCount abxConst false n (loopStart (repeatStream abxConst)) 0 0 = some (d, s, e)
        ∧ parseStep abxConst false d
            = .ok (some true,
                { loopAt (repeatStream abxConst) 22 [[97, 0], [97, 0]] [0] false
                    [⟨[97, 0], [], [], [1]⟩, XMLElement.new [97, 0]] with
                  root := some 0, rootClosed := true })) :=
  ⟨rfl,
   ((c17_stack_and_tree abxConst false (repeatStream abxConst) (by decide)).1 2
      (loopAt (repeatStream abxConst) 16 [[97, 0], [97, 0]] [0, 1] false
        [⟨[97, 0], [], [], [1]⟩, XMLElement.new [97, 0]]) 2 0 rfl).1,
   ((c17_stack_and_tree abxConst false (repeatStream abxConst) (by decide)).1 2
      (loopAt (repeatStream abxConst) 16 [[97, 0], [97, 0]] [0, 1] false
        [⟨[97, 0], [], [], [1]⟩, XMLElement.new [97, 0]]) 2 0 rfl).2.2.1 0 0 1 rfl rfl,
   rfl,
   (c17_stack_and_tree abxConst false (repeatStream abxConst) (by decide)).2
      { loopAt (repeatStream abxConst) 22 [[97, 0], [97, 0]] [0] false
          [⟨[97, 0], [], [], [1]⟩, XMLElement.new [97, 0]] with
        root := some 0, rootClosed := true } rfl⟩

/-- Claim C17, counterexample. On the smallest document, START_TAG "a" then
END_TAG, the state at the head of the second pass has depth 1 after one
START_TAG.  The second pass processes the END_TAG and `parse` returns `true`:
one START_TAG and one END_TAG have been processed, and the element stack of
the state `parse` returns in still holds the root, at depth 1 and not 0. -/
theorem c17_root_stays_on_the_stack :
    ∃ d d1,
      loopCount abxConst false 1 (loopStart (singleStream abxConst)) 0 0 = some (d, 1, 0)
      ∧ readByte d = .ok (abxConst.TOKEN_END_TAG, { d with curPos := d.curPos + 1 })
      ∧ parseStep abxConst false d = .ok (some true, d1)
      ∧ (AbxDecoder.new (singleStream abxConst)).parse abxConst false = .returned true d1
      ∧ d1.elementStack = [0] ∧ d1.elementStack.length ≠ 1 - 1 :=
  ⟨_, _, rfl, rfl, rfl, rfl, rfl, by decide⟩

/-! ## C18: the intern table is only extended -/

theorem loopState_table {k : Const} {sgn : Bool} :
    ∀ (n : Nat) {d d1 : AbxDecoder}, loopState k sgn n d = some d1 →
      ∃ ext, d1.internedStrings = d.internedStrings ++ ext
  | 0, d, d1, h => by
    simp only [loopState, Option.some.injEq] at h
    subst h
    exact ⟨[], by simp⟩
  | n + 1, d, d1, h => by
    simp only [loopState] at h
    split at h
    · rename_i d2 hs
      obtain ⟨_, _, _, ⟨e1, h1⟩, _⟩ := parseStep_shape hs
      obtain ⟨e2, h2⟩ := loopState_table n h
      exact ⟨e1 ++ e2, by rw [h2, h1, List.append_assoc]⟩
    · simp at h

theorem readShort_table {sgn : Bool} {d d1 : AbxDecoder} {x : Int}
    (h : readShort sgn d = .ok (x, d1)) : d1.internedStrings = d.internedStrings := by
  obtain ⟨-, rfl, -⟩ := readShort_inv h
  rfl

theorem readString_table {sgn : Bool} {d d1 : AbxDecoder} {v : List Nat}
    (h : readString sgn d = .ok (v, d1)) : d1.internedStrings = d.internedStrings := by
  unfold readString at h
  split at h
  · simp at h
  · rename_i len d2 hs
    have h2 := readShort_table hs
    split at h
    · simp only [Except.ok.injEq, Prod.mk.injEq] at h
      exact h.2 ▸ h2
    · split at h
      · simp at h
      · rename_i ret d3 hr
        obtain ⟨-, -, rfl⟩ := readFromCurPos_inv hr
        simp only [Except.ok.injEq, Prod.mk.injEq] at h
        exact h.2 ▸ h2

theorem readInternedString_table {sgn : Bool} {d d1 d2 : AbxDecoder} {idx : Int}
    {s : List Nat} (hs : readShort sgn d = .ok (idx, d1))
    (h : readInternedString sgn d = .ok (s, d2)) :
    d2.internedStrings
      = if idx < 0 then d.internedStrings ++ [s] else d.internedStrings := by
  have h1 := readShort_table hs
  unfold readInternedString at h
  rw [hs] at h
  simp only at h
  split at h
  · rename_i hneg
    split at h
    · simp at h
    · rename_i str d3 hr
      have h3 := readString_table hr
      simp only [Except.ok.injEq, Prod.mk.injEq] at h
      obtain ⟨rfl, rfl⟩ := h
      simp only [hneg, if_true, h3, h1]
  · rename_i hnn
    split at h
    · simp at h
    · simp only [Except.ok.injEq, Prod.mk.injEq] at h
      obtain ⟨-, rfl⟩ := h
      simp only [hnn, if_false, h1]

/-- Claim C18, as amended. Interning monotonicity.  Through every decode the
intern table is only extended at its end: the table after a loop pass is the
table before it followed by the entries the pass appended, so its size never
decreases and existing entries are never modified or reordered, and the table
at the first pass is empty; so every table of a decode starts with each
earlier table of that decode.  The table grows by exactly one entry at every
name or value read as a literal (index field negative), whether or not the
same byte string is already in the table, and stays as it is at a
back-reference. -/
theorem c18_table_is_extended (k : Const) (sgn : Bool) (input : List Nat) (n : Nat)
    (d0 d1 d2 : AbxDecoder) (r : Option Bool)
    (h : loopState k sgn n d0 = some d1)
    (hs : parseStep k sgn d1 = .ok (r, d2)) :
    (loopStart input).internedStrings = []
    ∧ d0.internedStrings <+: d1.internedStrings
    ∧ d1.internedStrings <+: d2.internedStrings
    ∧ d1.internedStrings.length ≤ d2.internedStrings.length
    ∧ (∀ (i : Nat) (e : List Nat),
        d1.internedStrings[i]? = some e → d2.internedStrings[i]? = some e)
    ∧ (∀ (d da db : AbxDecoder) (idx : Int) (s : List Nat),
        readShort sgn d = .ok (idx, da) → readInternedString sgn d = .ok (s, db) →
        db.internedStrings
          = if idx < 0 then d.internedStrings ++ [s] else d.internedStrings) := by
  obtain ⟨_, _, _, ⟨ext, hext⟩, _⟩ := parseStep_shape hs
  obtain ⟨ext0, hext0⟩ := loopState_table n h
  refine ⟨rfl, ⟨ext0, hext0.symm⟩, ⟨ext, hext.symm⟩, by rw [hext]; simp, fun i e hi => ?_,
    fun d da db idx s h1 h2 => readInternedString_table h1 h2⟩
  rw [hext]
  have hlt : i < d1.internedStrings.length := by
    by_contra hc
    rw [List.getElem?_eq_none (Nat.le_of_not_lt hc)] at hi
    exact Option.noConfusion hi
  rw [List.getElem?_append_left hlt]
  exact hi

/-- Claim C18, witness: the second pass on the stream that spells the name "a"
twice extends the table of one entry to a table of two. -/
theorem c18_table_is_extended_witness :
    loopState abxConst false 1 (loopStart (repeatStream abxConst))
      = some (loopAt (repeatStream abxConst) 10 [[97, 0]] [0] false [XMLElement.new [97, 0]])
    ∧ ([[97, 0]] : List (List Nat)) <+: [[97, 0], [97, 0]]
    ∧ ([[97, 0], [97, 0]] : List (List Nat))[0]? = some [97, 0] :=
  ⟨rfl,
   (c18_table_is_extended abxConst false (repeatStream abxConst) 1
      (loopStart (repeatStream abxConst))
      (loopAt (repeatStream abxConst) 10 [[97, 0]] [0] false [XMLElement.new [97, 0]])
      (loopAt (repeatStream abxConst) 16 [[97, 0], [97, 0]] [0, 1] false
        [⟨[97, 0], [], [], [1]⟩, XMLElement.new [97, 0]]) none rfl rfl).2.2.1,
   (c18_table_is_extended abxConst false (repeatStream abxConst) 1
      (loopStart (repeatStream abxConst))
      (loopAt (repeatStream abxConst) 10 [[97, 0]] [0] false [XMLElement.new [97, 0]])
      (loopAt (repeatStream abxConst) 16 [[97, 0], [97, 0]] [0, 1] false
        [⟨[97, 0], [], [], [1]⟩, XMLElement.new [97, 0]]) none rfl rfl).2.2.2.2.1 0 [97, 0] rfl⟩

/-- Claim C18, counterexample. The stream names its two elements by the
literal "a" twice.  `parse` returns `true`, and the table it leaves holds the
byte string "a" at index 0 and again at index 1: the second literal was
appended although the string was in the table. -/
theorem c18_repeated_literal_is_appended_again :
    ∃ d, (AbxDecoder.new (repeatStream abxConst)).parse abxConst false = .returned true d
      ∧ d.internedStrings = [ascii "a" ++ [0], ascii "a" ++ [0]]
      ∧ d.internedStrings[0]? = d.internedStrings[1]? :=
  ⟨_, rfl, rfl, rfl⟩

/-! ## C19: bytes after the END_TAG of the root -/

theorem isAbx_tail {k : Const} {d d1 : AbxDecoder} (t : List Nat)
    (h : isAbx k d = .ok (true, d1)) : isAbx k (d.withTail t) = .ok (true, d1.withTail t) := by
  unfold isAbx at h
  split at h
  · simp at h
  · rename_i hge
    split at h
    · simp at h
    · rename_i headerV d2 hr
      split at h
      · simp at h
      · rename_i c hc
        simp only [Except.ok.injEq, Prod.mk.injEq] at h
        obtain ⟨rfl, rfl⟩ := h
        have hge2 : ¬ (d.withTail t).mInput.length < 5 := by
          simp only [AbxDecoder.withTail, List.length_append]
          omega
        have hr2 : readFromCurPos { d.withTail t with curPos := 0 } 4
            = .ok (headerV, d2.withTail t) := readFromCurPos_tail t hr
        simp only [isAbx, hge2, if_false, hr2, hc]

theorem parse_tail {k : Const} {sgn : Bool} {b : List Nat} {d : AbxDecoder} (t : List Nat)
    (h : (AbxDecoder.new b).parse k sgn = .returned true d) :
    (AbxDecoder.new (b ++ t)).parse k sgn = .returned true (d.withTail t) := by
  obtain ⟨-, hi, hl⟩ := parse_true_inv h
  have hi2 : isAbx k (AbxDecoder.new (b ++ t))
      = .ok (true, ({ AbxDecoder.new b with curPos := 4 } : AbxDecoder).withTail t) :=
    isAbx_tail t hi
  have hl2 := parseLoop_tail t b.length t.length hl
  simp only [AbxDecoder.parse, hi2]
  simp only [AbxDecoder.withTail, List.length_append] at hl2 ⊢
  exact hl2

/-- Claim C19. Trailing bytes are ignored.  For every buffer `b` on which
`parse` returns `true` and every byte sequence `t`, `parse` on `b` followed by
`t` returns `true` too, in the decoder state of the run on `b` with only the
buffer replaced: the same root, the same elements, the same cursor.  The
cursor stops inside `b`, just past the name of the END_TAG token whose pass
returned. -/
theorem c19_trailing_bytes_ignored (k : Const) (sgn : Bool) (b t : List Nat) (d : AbxDecoder)
    (hk : k.LabelsOk) (h : (AbxDecoder.new b).parse k sgn = .returned true d) :
    (AbxDecoder.new (b ++ t)).parse k sgn = .returned true (d.withTail t)
    ∧ (d.withTail t).root = d.root ∧ (d.withTail t).heap = d.heap
    ∧ (d.withTail t).curPos = d.curPos ∧ (d.withTail t).mInput = b ++ t
    ∧ d.curPos ≤ b.length
    ∧ ∃ n dn event d0 name d1, loopState k sgn n (loopStart b) = some dn
        ∧ readByte dn = .ok (event, d0) ∧ event &&& 0x0f = k.TOKEN_END_TAG
        ∧ readInternedString sgn d0 = .ok (name, d1) ∧ d.curPos = d1.curPos := by
  obtain ⟨-, -, hl⟩ := parse_true_inv h
  obtain ⟨n, dn, -, hn, hs⟩ := parseLoop_returned_inv _ hl
  obtain ⟨a1, -, -⟩ := loopState_advances n hn
  obtain ⟨a2, -, c2⟩ := parseStep_advances hs
  have hin : d.mInput = b := by rw [a2, a1]; rfl
  rw [hin] at c2
  refine ⟨parse_tail t h, rfl, rfl, rfl, by simp only [AbxDecoder.withTail, hin], c2, ?_⟩
  obtain ⟨event, d0, hb, -, hcase⟩ := parseStep_shape hs
  rcases hcase with ⟨-, hr, -⟩ | ⟨-, hr, -⟩ | ⟨ht, -, -⟩
  · exact absurd rfl hr
  · exact Option.noConfusion hr
  · rw [parseStep_endTag hk hb ht] at hs
    obtain ⟨name, d1, p, last, log, hname, -, hc⟩ := stepEndTag_inv hs
    refine ⟨n, dn, event, d0, name, d1, hn, hb, ht, hname, ?_⟩
    rcases hc with ⟨-, -, rfl⟩ | ⟨-, hr, -⟩
    · rfl
    · exact Option.noConfusion hr

/-- Claim C19, witness: the stream that spells the name "a" twice, followed by
three more bytes; the cursor stops at offset 22 in both runs. -/
theorem c19_trailing_bytes_ignored_witness :
    ∃ d, (AbxDecoder.new (repeatStream abxConst)).parse abxConst false = .returned true d
      ∧ (AbxDecoder.new (repeatStream abxConst ++ [1, 2, 3])).parse abxConst false
          = .returned true (d.withTail [1, 2, 3])
      ∧ d.curPos ≤ (repeatStream abxConst).length ∧ d.curPos = 22 :=
  ⟨_, rfl,
    (c19_trailing_bytes_ignored abxConst false (repeatStream abxConst) [1, 2, 3] _
      (by decide) rfl).1,
    (c19_trailing_bytes_ignored abxConst false (repeatStream abxConst) [1, 2, 3] _
      (by decide) rfl).2.2.2.2.2.1, rfl⟩

/-! ## C20: the big-endian 16-bit read -/

/-- Claim C20. Big-endian 16-bit read.  For the two bytes `hi`, `lo` (each
`0..255`) at the cursor, `readShort` returns the signed 16-bit two's-complement
value of `hi * 256 + lo`, which is `hi * 256 + lo` when that is below 32768 and
`hi * 256 + lo - 65536` otherwise, whether the `char` of the platform is signed
or not, and moves the cursor by exactly 2. -/
theorem c20_readShort_big_endian (sgn : Bool) (d : AbxDecoder) (hi lo : Nat)
    (hhi : d.mInput[d.curPos]? = some hi) (hlo : d.mInput[d.curPos + 1]? = some lo)
    (h1 : hi < 256) (h2 : lo < 256) :
    readShort sgn d
      = .ok (if hi * 256 + lo < 32768 then ((hi * 256 + lo : Nat) : Int)
              else ((hi * 256 + lo : Nat) : Int) - 65536,
             { d with curPos := d.curPos + 2 })
    ∧ readShort true d = readShort false d := by
  have hmod : (hi * 256 + lo) % 65536 = hi * 256 + lo := Nat.mod_eq_of_lt (by omega)
  refine ⟨?_, ?_⟩
  · rw [readShort_bytes hhi hlo h1 h2]
    simp only [toShort, hmod]
  · rw [readShort_bytes hhi hlo h1 h2, readShort_bytes hhi hlo h1 h2]

/-- Claim C20, witness: the bytes `0xFF 0xFF` at the cursor are read as `-1`,
and the bytes `0x01 0x02` as `258`, with a signed and with an unsigned `char`. -/
theorem c20_readShort_big_endian_witness :
    (readShort true (AbxDecoder.new [255, 255, 7])
        = .ok (-1, { AbxDecoder.new [255, 255, 7] with curPos := 2 })
      ∧ readShort true (AbxDecoder.new [255, 255, 7])
        = readShort false (AbxDecoder.new [255, 255, 7])) ∧
    (readShort false (AbxDecoder.new [1, 2])
        = .ok (258, { AbxDecoder.new [1, 2] with curPos := 2 })
      ∧ readShort true (AbxDecoder.new [1, 2]) = readShort false (AbxDecoder.new [1, 2])) :=
  ⟨c20_readShort_big_endian true (AbxDecoder.new [255, 255, 7]) 255 255 rfl rfl
      (by decide) (by decide),
   c20_readShort_big_endian false (AbxDecoder.new [1, 2]) 1 2 rfl rfl (by decide) (by decide)⟩

end Abx
